import Mathlib

/-!
Verification development for the playchess repository.

The definitions below are a shallow embedding of the JavaScript sources
`js/chess-pieces.js`, `js/chess-logic.js`, `js/chess-ai-enhanced.js` and the
evaluation module (`ChessEvaluation`).  JavaScript numbers are embedded as
`Int` (all arithmetic used by the program is exact integer arithmetic, except
for the IEEE infinities of the search window, which are embedded by the
three-valued type `Ext` below).  The board is an 8x8 array of arrays embedded
as a list of rows; reads out of range give `none` (JS `undefined`) and writes
out of range are dropped, matching the guarded accesses of the source.
Mutation is embedded by state passing: functions that mutate the game in
place return the new game state, and `isLegalMove`, which mutates and then
restores the game, returns the pair of its boolean result and the state it
leaves behind.  `Date.now()` and `Math.random()` are embedded as oracle
streams (indexed families of readings) threaded through the search engine.
-/

set_option maxHeartbeats 2000000
set_option linter.unusedVariables false

namespace PlayChess

inductive Color where
  | WHITE
  | BLACK
deriving DecidableEq

def Color.other : Color → Color
  | Color.WHITE => Color.BLACK
  | Color.BLACK => Color.WHITE

inductive PieceType where
  | PAWN
  | KNIGHT
  | BISHOP
  | ROOK
  | QUEEN
  | KING
deriving DecidableEq

open Color PieceType

/-- Piece record from `chess-pieces.js` (the `symbol` field is a UI-only
derived field, always `PIECES[color][type]`, and is omitted). -/
structure ChessPiece where
  type : PieceType
  color : Color
  row : Int
  col : Int
  hasMoved : Bool
deriving DecidableEq

/-- Piece values (`PIECE_VALUES` in `chess-pieces.js`). -/
def PIECE_VALUES : PieceType → Int
  | PAWN => 100
  | KNIGHT => 320
  | BISHOP => 330
  | ROOK => 500
  | QUEEN => 900
  | KING => 20000

abbrev Square := Int × Int

abbrev Row := List (Option ChessPiece)

abbrev BoardL := List Row

/-- Unguarded array read `board[r][c]`: `undefined` (here `none`) outside the
populated range. -/
def rawGet (b : BoardL) (r c : Int) : Option ChessPiece :=
  if 0 ≤ r ∧ 0 ≤ c then ((b.getD r.toNat []).getD c.toNat none) else none

/-- Array write `board[r][c] = v`; out-of-range writes are dropped. -/
def setCell (b : BoardL) (r c : Int) (v : Option ChessPiece) : BoardL :=
  if 0 ≤ r ∧ 0 ≤ c then b.set r.toNat ((b.getD r.toNat []).set c.toNat v) else b

/-- The context bundle handed to `getPossibleMoves`. -/
structure GameContext where
  enPassantTarget : Option Square
  canCastleKingSide : Bool
  canCastleQueenSide : Bool

/-- `ChessPiece.getPawnMoves`: forward, double from the start row, diagonal
captures, and the en-passant capture, in the push order of the source. -/
def getPawnMoves (board : BoardL) (p : ChessPiece) (ept : Option Square) :
    List Square :=
  let direction : Int := if p.color = WHITE then -1 else 1
  let startRow : Int := if p.color = WHITE then 6 else 1
  let enPassantRow : Int := if p.color = WHITE then 3 else 4
  let newRow := p.row + direction
  let forwardMoves :=
    if 0 ≤ newRow ∧ newRow < 8 ∧ rawGet board newRow p.col = none then
      (newRow, p.col) ::
        (if p.row = startRow ∧ rawGet board (newRow + direction) p.col = none then
          [(newRow + direction, p.col)] else [])
    else []
  let captureMoves := ([-1, 1] : List Int).filterMap (fun colOffset =>
    let newCol := p.col + colOffset
    if 0 ≤ newCol ∧ newCol < 8 ∧ 0 ≤ newRow ∧ newRow < 8 then
      match rawGet board newRow newCol with
      | some t => if t.color ≠ p.color then some (newRow, newCol) else none
      | none => none
    else none)
  let epMoves :=
    match ept with
    | some (targetRow, targetCol) =>
      if p.row = enPassantRow ∧ (targetCol - p.col).natAbs = 1 ∧
          targetRow = p.row + direction then
        [(targetRow, targetCol)]
      else []
    | none => []
  forwardMoves ++ captureMoves ++ epMoves

/-- One sliding direction of a rook/bishop/queen; fuel 7 matches the source
loop `for i = 1..7`. -/
def ray (board : BoardL) (pc : Color) (r c dr dc : Int) : Nat → List Square
  | 0 => []
  | n + 1 =>
    let nr := r + dr
    let nc := c + dc
    if nr < 0 ∨ 8 ≤ nr ∨ nc < 0 ∨ 8 ≤ nc then []
    else
      match rawGet board nr nc with
      | none => (nr, nc) :: ray board pc nr nc dr dc n
      | some t => if t.color ≠ pc then [(nr, nc)] else []

def getRookMoves (board : BoardL) (p : ChessPiece) : List Square :=
  ray board p.color p.row p.col 0 1 7 ++ ray board p.color p.row p.col 0 (-1) 7 ++
    ray board p.color p.row p.col 1 0 7 ++ ray board p.color p.row p.col (-1) 0 7

def getBishopMoves (board : BoardL) (p : ChessPiece) : List Square :=
  ray board p.color p.row p.col 1 1 7 ++ ray board p.color p.row p.col 1 (-1) 7 ++
    ray board p.color p.row p.col (-1) 1 7 ++ ray board p.color p.row p.col (-1) (-1) 7

def knightOffsets : List (Int × Int) :=
  [(-2, -1), (-2, 1), (-1, -2), (-1, 2), (1, -2), (1, 2), (2, -1), (2, 1)]

def getKnightMoves (board : BoardL) (p : ChessPiece) : List Square :=
  knightOffsets.filterMap (fun o =>
    let nr := p.row + o.1
    let nc := p.col + o.2
    if 0 ≤ nr ∧ nr < 8 ∧ 0 ≤ nc ∧ nc < 8 then
      match rawGet board nr nc with
      | none => some (nr, nc)
      | some t => if t.color ≠ p.color then some (nr, nc) else none
    else none)

def getQueenMoves (board : BoardL) (p : ChessPiece) : List Square :=
  getRookMoves board p ++ getBishopMoves board p

def kingOffsets : List (Int × Int) :=
  [(-1, -1), (-1, 0), (-1, 1), (0, -1), (0, 1), (1, -1), (1, 0), (1, 1)]

def getKingMoves (board : BoardL) (p : ChessPiece)
    (canCastleKingSide canCastleQueenSide : Bool) : List Square :=
  let normal := kingOffsets.filterMap (fun o =>
    let nr := p.row + o.1
    let nc := p.col + o.2
    if 0 ≤ nr ∧ nr < 8 ∧ 0 ≤ nc ∧ nc < 8 then
      match rawGet board nr nc with
      | none => some (nr, nc)
      | some t => if t.color ≠ p.color then some (nr, nc) else none
    else none)
  let castling :=
    if ¬p.hasMoved ∧ p.col = 4 then
      (if canCastleKingSide then [(p.row, (6 : Int))] else []) ++
        (if canCastleQueenSide then [(p.row, (2 : Int))] else [])
    else []
  normal ++ castling

/-- `ChessPiece.getPossibleMoves`, dispatching on the piece type. -/
def getPossibleMoves (p : ChessPiece) (board : BoardL) (ctx : GameContext) :
    List Square :=
  match p.type with
  | PAWN => getPawnMoves board p ctx.enPassantTarget
  | ROOK => getRookMoves board p
  | KNIGHT => getKnightMoves board p
  | BISHOP => getBishopMoves board p
  | QUEEN => getQueenMoves board p
  | KING => getKingMoves board p ctx.canCastleKingSide ctx.canCastleQueenSide

/-- A context with both castle flags cleared, as used when scanning attacks. -/
def attackContext (ept : Option Square) : GameContext :=
  { enPassantTarget := ept, canCastleKingSide := false, canCastleQueenSide := false }

inductive GameStatus where
  | playing
  | check
  | checkmate
  | stalemate
  | draw
deriving DecidableEq

/-- A `moveHistory` entry (the `notation` string field is embedded as `san`). -/
structure MoveRecord where
  san : String
  fromSq : Square
  toSq : Square
  piece : PieceType
  captured : Option PieceType
deriving DecidableEq

structure LastMove where
  fromSq : Square
  toSq : Square
  piece : PieceType
deriving DecidableEq

/-- The `ChessGame` state of `chess-logic.js`. -/
structure ChessGame where
  board : BoardL
  currentPlayer : Color
  gameState : GameStatus
  moveHistory : List MoveRecord
  capturedWhite : List ChessPiece
  capturedBlack : List ChessPiece
  lastMove : Option LastMove
  kingWhite : Square
  kingBlack : Square
  enPassantTarget : Option Square
  halfMoveClock : Int
  fullMoveNumber : Int
deriving DecidableEq

def ChessGame.kingPositionsAt (g : ChessGame) : Color → Square
  | WHITE => g.kingWhite
  | BLACK => g.kingBlack

def ChessGame.setKingPos (g : ChessGame) : Color → Square → ChessGame
  | WHITE, sq => { g with kingWhite := sq }
  | BLACK, sq => { g with kingBlack := sq }

def ChessGame.capturedAt (g : ChessGame) : Color → List ChessPiece
  | WHITE => g.capturedWhite
  | BLACK => g.capturedBlack

def ChessGame.pushCaptured (g : ChessGame) : Color → ChessPiece → ChessGame
  | WHITE, p => { g with capturedWhite := g.capturedWhite ++ [p] }
  | BLACK, p => { g with capturedBlack := g.capturedBlack ++ [p] }

def mkPiece (t : PieceType) (c : Color) (r col : Int) : Option ChessPiece :=
  some { type := t, color := c, row := r, col := col, hasMoved := false }

def backRankOrder : List PieceType := [ROOK, KNIGHT, BISHOP, QUEEN, KING, BISHOP, KNIGHT, ROOK]

/-- `ChessGame.initializeBoard`. -/
def initializeBoard : BoardL :=
  [ (List.range 8).map (fun c => mkPiece (backRankOrder.getD c KING) BLACK 0 c),
    (List.range 8).map (fun c => mkPiece PAWN BLACK 1 c),
    List.replicate 8 none,
    List.replicate 8 none,
    List.replicate 8 none,
    List.replicate 8 none,
    (List.range 8).map (fun c => mkPiece PAWN WHITE 6 c),
    (List.range 8).map (fun c => mkPiece (backRankOrder.getD c KING) WHITE 7 c) ]

/-- The state built by the `ChessGame` constructor (also the `reset` state). -/
def newGame : ChessGame where
  board := initializeBoard
  currentPlayer := WHITE
  gameState := GameStatus.playing
  moveHistory := []
  capturedWhite := []
  capturedBlack := []
  lastMove := none
  kingWhite := (7, 4)
  kingBlack := (0, 4)
  enPassantTarget := none
  halfMoveClock := 0
  fullMoveNumber := 1

/-- `ChessGame.getPieceAt` (bounds-checked board read). -/
def ChessGame.getPieceAt (g : ChessGame) (row col : Int) : Option ChessPiece :=
  if row < 0 ∨ 8 ≤ row ∨ col < 0 ∨ 8 ≤ col then none else rawGet g.board row col

/-- The row-major scan order `for r = 0..7, c = 0..7` of the source. -/
def allSquares : List Square :=
  ((List.range 8).map fun (r : Nat) =>
    (List.range 8).map fun (c : Nat) => (((r : Int), (c : Int)) : Square)).flatten

/-- `ChessGame.isSquareUnderAttack`: some piece of `attackingColor` has
`(row, col)` in its pseudo-legal move set (castle flags cleared). -/
def ChessGame.isSquareUnderAttack (g : ChessGame) (row col : Int)
    (attackingColor : Color) : Bool :=
  allSquares.any fun rc =>
    match rawGet g.board rc.1 rc.2 with
    | some p =>
      decide (p.color = attackingColor) &&
        (getPossibleMoves p g.board (attackContext g.enPassantTarget)).any
          (fun m => decide (m = (row, col)))
    | none => false

/-- `ChessGame.isInCheck`. -/
def ChessGame.isInCheck (g : ChessGame) (color : Color) : Bool :=
  let kingPos := g.kingPositionsAt color
  g.isSquareUnderAttack kingPos.1 kingPos.2 color.other

/-- `ChessGame.canCastle`. -/
def ChessGame.canCastle (g : ChessGame) (color : Color) (kingSide : Bool) : Bool :=
  let row : Int := if color = WHITE then 7 else 0
  match g.getPieceAt row 4, g.getPieceAt row (if kingSide then 7 else 0) with
  | some king, some rook =>
    if king.type ≠ KING ∨ king.hasMoved then false
    else if rook.type ≠ ROOK ∨ rook.hasMoved then false
    else if g.isInCheck color then false
    else if kingSide then
      if (g.getPieceAt row 5).isSome ∨ (g.getPieceAt row 6).isSome then false
      else if g.isSquareUnderAttack row 5 color.other ∨
          g.isSquareUnderAttack row 6 color.other then false
      else true
    else
      if (g.getPieceAt row 1).isSome ∨ (g.getPieceAt row 2).isSome ∨
          (g.getPieceAt row 3).isSome then false
      else if g.isSquareUnderAttack row 3 color.other ∨
          g.isSquareUnderAttack row 2 color.other then false
      else true
  | _, _ => false

/-- The context built by `getLegalMoves` and `isLegalMove`. -/
def ChessGame.moveContext (g : ChessGame) (piece : ChessPiece) : GameContext :=
  { enPassantTarget := g.enPassantTarget,
    canCastleKingSide := if piece.type = KING then g.canCastle piece.color true else false,
    canCastleQueenSide := if piece.type = KING then g.canCastle piece.color false else false }

/-- The speculative mutate-test-restore core of `isLegalMove` ("Save original
state" through the restore).  The boolean result is whether the temporarily
applied move leaves the mover's own king out of check; the returned state is
the state the function leaves behind after undoing its mutations. -/
def ChessGame.speculativeCheck (g : ChessGame) (piece : ChessPiece)
    (fromRow fromCol toRow toCol : Int) : Bool × ChessGame :=
  let capturedPiece := rawGet g.board toRow toCol
  let epCapture := piece.type = PAWN ∧ g.enPassantTarget = some (toRow, toCol)
  let captureRow : Int := if piece.color = WHITE then toRow + 1 else toRow - 1
  let enPassantCapturedPawn :=
    if epCapture then rawGet g.board captureRow toCol else none
  let g1 :=
    if epCapture then { g with board := setCell g.board captureRow toCol none }
    else g
  let movedPiece := { piece with row := toRow, col := toCol }
  let g2 := { g1 with
    board := setCell (setCell g1.board toRow toCol (some movedPiece)) fromRow fromCol none }
  let g3 := if piece.type = KING then g2.setKingPos piece.color (toRow, toCol) else g2
  let isLegal := ¬g3.isInCheck piece.color
  let g4 := { g3 with
    board := setCell (setCell g3.board fromRow fromCol
      (some { piece with row := piece.row, col := piece.col })) toRow toCol capturedPiece }
  let g5 := { g4 with kingWhite := g.kingWhite, kingBlack := g.kingBlack }
  let g6 :=
    match enPassantCapturedPawn with
    | some pawn => { g5 with board := setCell g5.board captureRow toCol (some pawn) }
    | none => g5
  (isLegal, g6)

/-- `ChessGame.isLegalMove`.  The source mutates the game (speculatively
applies the move, tests check, restores); the embedding returns the boolean
result together with the state the function leaves behind. -/
def ChessGame.isLegalMove (g : ChessGame) (fromRow fromCol toRow toCol : Int) :
    Bool × ChessGame :=
  match g.getPieceAt fromRow fromCol with
  | none => (false, g)
  | some piece =>
    if piece.color ≠ g.currentPlayer then (false, g)
    else if ¬(toRow, toCol) ∈ getPossibleMoves piece g.board (g.moveContext piece) then
      (false, g)
    else if piece.type = KING ∧ (toCol - fromCol).natAbs = 2 then (true, g)
    else g.speculativeCheck piece fromRow fromCol toRow toCol

/-- `ChessGame.getLegalMoves` (empty for a null piece). -/
def ChessGame.getLegalMoves (g : ChessGame) : Option ChessPiece → List Square
  | none => []
  | some piece =>
    (getPossibleMoves piece g.board (g.moveContext piece)).filter
      (fun m => (g.isLegalMove piece.row piece.col m.1 m.2).1)

/-- `ChessGame.hasLegalMoves`. -/
def ChessGame.hasLegalMoves (g : ChessGame) (color : Color) : Bool :=
  allSquares.any fun rc =>
    match g.getPieceAt rc.1 rc.2 with
    | some p => decide (p.color = color) && decide (g.getLegalMoves (some p) ≠ [])
    | none => false

/-- `ChessGame.isInsufficientMaterial`. -/
def ChessGame.isInsufficientMaterial (g : ChessGame) : Bool :=
  let typesOf : Color → List PieceType := fun c =>
    allSquares.filterMap fun rc =>
      match g.getPieceAt rc.1 rc.2 with
      | some p => if p.color = c then some p.type else none
      | none => none
  let w := typesOf WHITE
  let b := typesOf BLACK
  let nonKingMinor : List PieceType → Bool := fun l =>
    match l.find? (fun t => t ≠ KING) with
    | some BISHOP => true
    | some KNIGHT => true
    | _ => false
  if w.length = 1 ∧ b.length = 1 then true
  else
    (decide (w.length = 2 ∧ b.length = 1) && nonKingMinor w) ||
      (decide (b.length = 2 ∧ w.length = 1) && nonKingMinor b)

/-- `ChessGame.updateGameState`: checkmate/stalemate/check/playing, then the
draw override for the 50-move rule and insufficient material. -/
def ChessGame.updateGameState (g : ChessGame) : ChessGame :=
  let inCheck := g.isInCheck g.currentPlayer
  let hasMoves := g.hasLegalMoves g.currentPlayer
  let s :=
    if inCheck ∧ ¬hasMoves then GameStatus.checkmate
    else if ¬inCheck ∧ ¬hasMoves then GameStatus.stalemate
    else if inCheck then GameStatus.check
    else GameStatus.playing
  let s := if 100 ≤ g.halfMoveClock ∨ g.isInsufficientMaterial then GameStatus.draw else s
  { g with gameState := s }

def squareName (r c : Int) : String :=
  String.mk [Char.ofNat (97 + c).toNat] ++ toString (8 - r)

/-- `piece.type.charAt(0)` (so both KING and KNIGHT give "K"). -/
def typeLetter : PieceType → String
  | PAWN => "P"
  | KNIGHT => "K"
  | BISHOP => "B"
  | ROOK => "R"
  | QUEEN => "Q"
  | KING => "K"

/-- `ChessGame.getMoveNotation` (simplified algebraic notation string). -/
def getMoveSan (piece : ChessPiece) (fromRow fromCol toRow toCol : Int)
    (capturedPiece : Option ChessPiece) : String :=
  let fromSquare := squareName fromRow fromCol
  let toSquare := squareName toRow toCol
  if piece.type = KING ∧ (toCol - fromCol).natAbs = 2 then
    if toCol > fromCol then "O-O" else "O-O-O"
  else
    (if piece.type ≠ PAWN then typeLetter piece.type else "") ++
      (match capturedPiece with
       | some _ => (if piece.type = PAWN then String.mk [fromSquare.data.getD 0 ' '] else "") ++ "x"
       | none => "") ++
      toSquare

/-- `ChessGame.handleCastling`: relocate the matching rook. -/
def ChessGame.handleCastling (g : ChessGame) (fromRow fromCol toRow toCol : Int) :
    ChessGame :=
  let isKingSide := toCol > fromCol
  let rookFromCol : Int := if isKingSide then 7 else 0
  let rookToCol : Int := if isKingSide then 5 else 3
  match g.getPieceAt fromRow rookFromCol with
  | some rook =>
    { g with
      board := setCell
        (setCell g.board fromRow rookToCol
          (some { rook with row := fromRow, col := rookToCol, hasMoved := true }))
        fromRow rookFromCol none }
  | none => g

/-- The en-passant resolution and capture bookkeeping step of `makeMove`:
returns the resolved captured piece and the state after removing an
en-passant-captured pawn, recording the capture, and updating the clock. -/
def ChessGame.makeMoveCapture (g : ChessGame) (piece : ChessPiece)
    (toRow toCol : Int) : Option ChessPiece × ChessGame :=
  let capturedPiece0 := g.getPieceAt toRow toCol
  let captureRow : Int := if piece.color = WHITE then toRow + 1 else toRow - 1
  let epCapture :=
    piece.type = PAWN ∧ capturedPiece0 = none ∧ g.enPassantTarget = some (toRow, toCol)
  let capturedPiece :=
    if epCapture then rawGet g.board captureRow toCol else capturedPiece0
  let g1 := if epCapture then { g with board := setCell g.board captureRow toCol none } else g
  let g2 :=
    match capturedPiece with
    | some cap => { (g1.pushCaptured cap.color cap) with halfMoveClock := 0 }
    | none =>
      if piece.type = PAWN then { g1 with halfMoveClock := 0 }
      else { g1 with halfMoveClock := g1.halfMoveClock + 1 }
  (capturedPiece, g2)

/-- The board/king/castling/en-passant-target step of `makeMove` (the piece is
relocated, marked moved, and possibly promoted first). -/
def ChessGame.makeMoveBoard (g : ChessGame) (piece finalPiece : ChessPiece)
    (fromRow fromCol toRow toCol : Int) : ChessGame :=
  let g1 := { g with
    board := setCell (setCell g.board toRow toCol (some finalPiece)) fromRow fromCol none }
  let g2 := if piece.type = KING then g1.setKingPos piece.color (toRow, toCol) else g1
  let g3 :=
    if finalPiece.type = KING ∧ (toCol - fromCol).natAbs = 2 then
      g2.handleCastling fromRow fromCol toRow toCol
    else g2
  if finalPiece.type = PAWN ∧ (toRow - fromRow).natAbs = 2 then
    { g3 with enPassantTarget := some (fromRow + (toRow - fromRow) / 2, fromCol) }
  else { g3 with enPassantTarget := none }

/-- The move-recording and turn-switching step of `makeMove`. -/
def ChessGame.makeMoveRecord (g : ChessGame) (finalPiece : ChessPiece)
    (moveSan : String) (fromRow fromCol toRow toCol : Int)
    (capturedPiece : Option ChessPiece) : ChessGame :=
  let lastRec : LastMove :=
    { fromSq := (fromRow, fromCol), toSq := (toRow, toCol), piece := finalPiece.type }
  let histRec : MoveRecord :=
    { san := moveSan, fromSq := (fromRow, fromCol), toSq := (toRow, toCol),
      piece := finalPiece.type, captured := capturedPiece.map (·.type) }
  let g1 := { g with lastMove := some lastRec, moveHistory := g.moveHistory ++ [histRec] }
  let g2 := { g1 with currentPlayer := g1.currentPlayer.other }
  if g2.currentPlayer = WHITE then { g2 with fullMoveNumber := g2.fullMoveNumber + 1 } else g2

/-- `ChessGame.makeMove`.  Returns `(false, unchanged state)` when there is no
piece at the origin or the move is illegal, otherwise `(true, updated state)`. -/
def ChessGame.makeMove (g0 : ChessGame) (fromRow fromCol toRow toCol : Int)
    (promotionPiece : PieceType := QUEEN) : Bool × ChessGame :=
  match g0.getPieceAt fromRow fromCol with
  | none => (false, g0)
  | some piece =>
    let lr := g0.isLegalMove fromRow fromCol toRow toCol
    if ¬lr.1 then (false, lr.2)
    else
      let cg := lr.2.makeMoveCapture piece toRow toCol
      let capturedPiece := cg.1
      let moveSan := getMoveSan piece fromRow fromCol toRow toCol capturedPiece
      let movedPiece := { piece with row := toRow, col := toCol, hasMoved := true }
      let finalPiece :=
        if piece.type = PAWN ∧ (toRow = 0 ∨ toRow = 7) then
          { movedPiece with type := promotionPiece }
        else movedPiece
      let g1 := cg.2.makeMoveBoard piece finalPiece fromRow fromCol toRow toCol
      let g2 := g1.makeMoveRecord finalPiece moveSan fromRow fromCol toRow toCol capturedPiece
      (true, g2.updateGameState)

/-! ### Elementary lemmas about list and board cell updates -/

theorem lgetD_set_self {α : Type _} (l : List α) (i : Nat) (a d : α) :
    (l.set i a).getD i d = if i < l.length then a else d := by
  induction l generalizing i with
  | nil => simp [List.getD]
  | cons x xs ih =>
    cases i with
    | zero => simp [List.getD]
    | succ n => simpa [List.getD, Nat.succ_lt_succ_iff] using ih n

theorem lgetD_set_ne {α : Type _} (l : List α) (i j : Nat) (a d : α) (h : i ≠ j) :
    (l.set i a).getD j d = l.getD j d := by
  induction l generalizing i j with
  | nil => simp
  | cons x xs ih =>
    cases i with
    | zero =>
      cases j with
      | zero => exact absurd rfl h
      | succ m => simp [List.getD]
    | succ n =>
      cases j with
      | zero => simp [List.getD]
      | succ m =>
        simp only [List.set, List.getD, List.getElem?_cons_succ, Option.getD]
        have := ih n m (fun hnm => h (by simp [hnm]))
        simpa [List.getD] using this

theorem lset_getD {α : Type _} (l : List α) (i : Nat) (d : α) :
    l.set i (l.getD i d) = l := by
  induction l generalizing i with
  | nil => simp
  | cons x xs ih =>
    cases i with
    | zero => simp [List.getD]
    | succ n =>
      rw [List.getD_cons_succ, List.set_cons_succ, ih n]

theorem lgetD_out_of_range {α : Type _} (l : List α) (i : Nat) (d : α)
    (h : l.length ≤ i) : l.getD i d = d := by
  induction l generalizing i with
  | nil => simp [List.getD]
  | cons x xs ih =>
    cases i with
    | zero => simp at h
    | succ n =>
      simp only [List.getD, List.getElem?_cons_succ]
      have := ih n (by simpa using h)
      simpa [List.getD] using this

theorem setCell_pos (b : BoardL) (r c : Int) (v : Option ChessPiece)
    (h : 0 ≤ r ∧ 0 ≤ c) :
    setCell b r c v = b.set r.toNat ((b.getD r.toNat []).set c.toNat v) := by
  rw [setCell, if_pos h]

theorem setCell_neg (b : BoardL) (r c : Int) (v : Option ChessPiece)
    (h : ¬(0 ≤ r ∧ 0 ≤ c)) : setCell b r c v = b := by
  rw [setCell, if_neg h]

theorem rawGet_pos (b : BoardL) (r c : Int) (h : 0 ≤ r ∧ 0 ≤ c) :
    rawGet b r c = (b.getD r.toNat []).getD c.toNat none := by
  rw [rawGet, if_pos h]

theorem rawGet_neg (b : BoardL) (r c : Int) (h : ¬(0 ≤ r ∧ 0 ≤ c)) :
    rawGet b r c = none := by
  rw [rawGet, if_neg h]

theorem lset_set {α : Type _} (l : List α) (i : Nat) (a b : α) :
    (l.set i a).set i b = l.set i b := by
  induction l generalizing i with
  | nil => simp
  | cons x xs ih =>
    cases i with
    | zero => simp
    | succ n => simp [ih n]

theorem lset_comm {α : Type _} (l : List α) (i j : Nat) (a b : α) (h : i ≠ j) :
    (l.set i a).set j b = (l.set j b).set i a := by
  induction l generalizing i j with
  | nil => simp
  | cons x xs ih =>
    cases i with
    | zero =>
      cases j with
      | zero => exact absurd rfl h
      | succ m => simp
    | succ n =>
      cases j with
      | zero => simp
      | succ m => simp [ih n m (fun hnm => h (by simp [hnm]))]

theorem lset_out_of_range {α : Type _} (l : List α) (i : Nat) (a : α)
    (h : l.length ≤ i) : l.set i a = l := by
  induction l generalizing i with
  | nil => simp
  | cons x xs ih =>
    cases i with
    | zero => simp at h
    | succ n => simp [ih n (by simpa using h)]

theorem setCell_setCell (b : BoardL) (r c : Int) (v w : Option ChessPiece) :
    setCell (setCell b r c v) r c w = setCell b r c w := by
  by_cases h : 0 ≤ r ∧ 0 ≤ c
  · rw [setCell_pos _ _ _ _ h, setCell_pos _ _ _ _ h, setCell_pos _ _ _ _ h]
    by_cases hr : r.toNat < b.length
    · rw [lgetD_set_self, if_pos hr, lset_set, lset_set]
    · have hbset : ∀ a, b.set r.toNat a = b :=
        fun a => lset_out_of_range b r.toNat a (Nat.le_of_not_lt hr)
      simp only [hbset]
  · rw [setCell_neg _ _ _ _ h, setCell_neg _ _ _ _ h, setCell_neg _ _ _ _ h]

theorem setCell_rawGet (b : BoardL) (r c : Int) :
    setCell b r c (rawGet b r c) = b := by
  by_cases h : 0 ≤ r ∧ 0 ≤ c
  · rw [setCell_pos _ _ _ _ h, rawGet_pos _ _ _ h, lset_getD, lset_getD]
  · rw [setCell_neg _ _ _ _ h]

theorem rawGet_setCell_ne (b : BoardL) (r c r' c' : Int) (v : Option ChessPiece)
    (h : ¬(r = r' ∧ c = c')) : rawGet (setCell b r c v) r' c' = rawGet b r' c' := by
  by_cases hg : 0 ≤ r ∧ 0 ≤ c
  · rw [setCell_pos _ _ _ _ hg]
    by_cases hg' : 0 ≤ r' ∧ 0 ≤ c'
    · rw [rawGet_pos _ _ _ hg', rawGet_pos _ _ _ hg']
      by_cases hrr : r = r'
      · have hcc : c ≠ c' := fun hc => h ⟨hrr, hc⟩
        subst hrr
        by_cases hr : r.toNat < b.length
        · rw [lgetD_set_self, if_pos hr, lgetD_set_ne]
          omega
        · have hbset : ∀ a, b.set r.toNat a = b :=
            fun a => lset_out_of_range b r.toNat a (Nat.le_of_not_lt hr)
          simp only [hbset]
      · have : r.toNat ≠ r'.toNat := by omega
        rw [lgetD_set_ne _ _ _ _ _ this]
    · rw [rawGet_neg _ _ _ hg', rawGet_neg _ _ _ hg']
  · rw [setCell_neg _ _ _ _ hg]

theorem setCell_comm (b : BoardL) (r c r' c' : Int) (v w : Option ChessPiece)
    (h : ¬(r = r' ∧ c = c')) :
    setCell (setCell b r c v) r' c' w = setCell (setCell b r' c' w) r c v := by
  by_cases hg : 0 ≤ r ∧ 0 ≤ c
  · by_cases hg' : 0 ≤ r' ∧ 0 ≤ c'
    · rw [setCell_pos _ _ _ _ hg, setCell_pos _ _ _ _ hg', setCell_pos _ _ _ _ hg',
        setCell_pos _ _ _ _ hg]
      by_cases hrr : r = r'
      · have hcc : c ≠ c' := fun hc => h ⟨hrr, hc⟩
        subst hrr
        by_cases hr : r.toNat < b.length
        · rw [lgetD_set_self, if_pos hr, lgetD_set_self, if_pos hr, lset_set, lset_set,
            lset_comm]
          omega
        · have hbset : ∀ a, b.set r.toNat a = b :=
            fun a => lset_out_of_range b r.toNat a (Nat.le_of_not_lt hr)
          simp only [hbset]
      · have hne : r.toNat ≠ r'.toNat := by omega
        rw [lgetD_set_ne _ _ _ _ _ hne, lgetD_set_ne _ _ _ _ _ (Ne.symm hne),
          lset_comm _ _ _ _ _ hne]
    · rw [setCell_neg _ _ _ _ hg', setCell_neg _ _ _ _ hg']
  · rw [setCell_neg _ _ _ _ hg, setCell_neg _ _ _ _ hg]

theorem getPieceAt_eq_rawGet (g : ChessGame) (r c : Int) (p : ChessPiece)
    (h : g.getPieceAt r c = some p) : rawGet g.board r c = some p := by
  unfold ChessGame.getPieceAt at h
  by_cases hb : r < 0 ∨ 8 ≤ r ∨ c < 0 ∨ 8 ≤ c
  · rw [if_pos hb] at h
    exact absurd h (by simp)
  · rwa [if_neg hb] at h

/-- The move-then-restore sequence of `isLegalMove` without an en-passant
removal gives back the original board. -/
theorem restore_board_noep (B : BoardL) (fr fc tr tc : Int) (piece : ChessPiece)
    (m : Option ChessPiece) (hp : rawGet B fr fc = some piece) :
    setCell (setCell (setCell (setCell B tr tc m) fr fc none) fr fc (some piece))
      tr tc (rawGet B tr tc) = B := by
  rw [setCell_setCell]
  by_cases hft : fr = tr ∧ fc = tc
  · obtain ⟨h1, h2⟩ := hft
    subst h1; subst h2
    rw [setCell_setCell, setCell_setCell, setCell_rawGet]
  · rw [setCell_comm _ _ _ _ _ _ _ (fun hc => hft ⟨hc.1.symm, hc.2.symm⟩),
      setCell_setCell]
    have h1 : rawGet B tr tc = rawGet (setCell B fr fc (some piece)) tr tc :=
      (rawGet_setCell_ne _ _ _ _ _ _ hft).symm
    rw [h1, setCell_rawGet, ← hp, setCell_rawGet]

/-- En-passant variant of `restore_board_noep`, when the removed pawn square
was empty (nothing is written back): the removal itself was a no-op. -/
theorem restore_board_ep_none (B : BoardL) (fr fc tr tc cr : Int)
    (piece : ChessPiece) (m : Option ChessPiece)
    (hp : rawGet B fr fc = some piece) (hpw : rawGet B cr tc = none) :
    setCell (setCell (setCell (setCell (setCell B cr tc none) tr tc m) fr fc none)
      fr fc (some piece)) tr tc (rawGet B tr tc) = B := by
  have hb1 : setCell B cr tc none = B := by
    rw [← hpw, setCell_rawGet]
  rw [hb1]
  exact restore_board_noep B fr fc tr tc piece m hp

/-- En-passant variant of `restore_board_noep`, when a pawn was removed and is
written back at the end (`cr ≠ tr`: the pawn square differs from the
destination). -/
theorem restore_board_ep_some (B : BoardL) (fr fc tr tc cr : Int)
    (piece pawn : ChessPiece) (m : Option ChessPiece)
    (hp : rawGet B fr fc = some piece) (hpw : rawGet B cr tc = some pawn)
    (hcr : cr ≠ tr) :
    setCell (setCell (setCell (setCell (setCell (setCell B cr tc none) tr tc m)
      fr fc none) fr fc (some piece)) tr tc (rawGet B tr tc)) cr tc (some pawn) = B := by
  have hET : ¬(cr = tr ∧ tc = tc) := fun hc => hcr hc.1
  by_cases hFE : fr = cr ∧ fc = tc
  · obtain ⟨h1, h2⟩ := hFE
    rw [h1, h2] at hp ⊢
    have s1 : setCell (setCell (setCell (setCell B cr tc none) tr tc m) cr tc none)
        cr tc (some piece)
        = setCell (setCell (setCell B cr tc none) tr tc m) cr tc (some piece) :=
      setCell_setCell _ _ _ _ _
    have s2 : setCell (setCell (setCell B cr tc none) tr tc m) cr tc (some piece)
        = setCell (setCell (setCell B cr tc none) cr tc (some piece)) tr tc m :=
      setCell_comm _ _ _ _ _ _ _ (fun hc => hcr hc.1.symm)
    have s3 : setCell (setCell B cr tc none) cr tc (some piece)
        = setCell B cr tc (some piece) := setCell_setCell _ _ _ _ _
    have s4 : setCell B cr tc (some piece) = B := by
      rw [← hp, setCell_rawGet]
    rw [s1, s2, s3, s4]
    have s5 : setCell (setCell B tr tc m) tr tc (rawGet B tr tc)
        = setCell B tr tc (rawGet B tr tc) := setCell_setCell _ _ _ _ _
    rw [s5, setCell_rawGet, ← hpw, setCell_rawGet]
  · have hgetF : rawGet (setCell B cr tc none) fr fc = some piece := by
      rw [rawGet_setCell_ne _ _ _ _ _ _ (fun hc => hFE ⟨hc.1.symm, hc.2.symm⟩)]
      exact hp
    have hgetT : rawGet B tr tc = rawGet (setCell B cr tc none) tr tc :=
      (rawGet_setCell_ne _ _ _ _ _ _ hET).symm
    rw [hgetT, restore_board_noep (setCell B cr tc none) fr fc tr tc piece m hgetF,
      setCell_setCell, ← hpw, setCell_rawGet]

theorem piece_eta (p : ChessPiece) :
    ({ p with row := p.row, col := p.col } : ChessPiece) = p := rfl

theorem setKingPos_board (g : ChessGame) (c : Color) (sq : Square) :
    (g.setKingPos c sq).board = g.board := by cases c <;> rfl

theorem setKingPos_currentPlayer (g : ChessGame) (c : Color) (sq : Square) :
    (g.setKingPos c sq).currentPlayer = g.currentPlayer := by cases c <;> rfl

theorem setKingPos_gameState (g : ChessGame) (c : Color) (sq : Square) :
    (g.setKingPos c sq).gameState = g.gameState := by cases c <;> rfl

theorem setKingPos_moveHistory (g : ChessGame) (c : Color) (sq : Square) :
    (g.setKingPos c sq).moveHistory = g.moveHistory := by cases c <;> rfl

theorem setKingPos_capturedWhite (g : ChessGame) (c : Color) (sq : Square) :
    (g.setKingPos c sq).capturedWhite = g.capturedWhite := by cases c <;> rfl

theorem setKingPos_capturedBlack (g : ChessGame) (c : Color) (sq : Square) :
    (g.setKingPos c sq).capturedBlack = g.capturedBlack := by cases c <;> rfl

theorem setKingPos_lastMove (g : ChessGame) (c : Color) (sq : Square) :
    (g.setKingPos c sq).lastMove = g.lastMove := by cases c <;> rfl

theorem setKingPos_enPassantTarget (g : ChessGame) (c : Color) (sq : Square) :
    (g.setKingPos c sq).enPassantTarget = g.enPassantTarget := by cases c <;> rfl

theorem setKingPos_halfMoveClock (g : ChessGame) (c : Color) (sq : Square) :
    (g.setKingPos c sq).halfMoveClock = g.halfMoveClock := by cases c <;> rfl

theorem setKingPos_fullMoveNumber (g : ChessGame) (c : Color) (sq : Square) :
    (g.setKingPos c sq).fullMoveNumber = g.fullMoveNumber := by cases c <;> rfl

/-- The mutate-test-restore core of `isLegalMove` leaves the game state it was
given exactly unchanged. -/
theorem speculativeCheck_snd (g : ChessGame) (piece : ChessPiece)
    (fr fc tr tc : Int) (hp : rawGet g.board fr fc = some piece) :
    (g.speculativeCheck piece fr fc tr tc).2 = g := by
  have hcr : (if piece.color = WHITE then tr + 1 else tr - 1) ≠ tr := by
    by_cases h : piece.color = WHITE <;> simp only [h, if_pos, if_neg, if_true, if_false] <;>
      omega
  unfold ChessGame.speculativeCheck
  by_cases hep : piece.type = PAWN ∧ g.enPassantTarget = some (tr, tc)
  · have hking : ¬piece.type = KING := by
      rw [hep.1]
      decide
    simp only [if_pos hep, if_neg hking, piece_eta]
    cases hpw : rawGet g.board (if piece.color = WHITE then tr + 1 else tr - 1) tc with
    | none =>
      simp only
      have hb1 : setCell g.board (if piece.color = WHITE then tr + 1 else tr - 1) tc none
          = g.board := by rw [← hpw, setCell_rawGet]
      have hb := restore_board_ep_none g.board fr fc tr tc
        (if piece.color = WHITE then tr + 1 else tr - 1) piece
        (some { piece with row := tr, col := tc }) hp hpw
      rw [hb1] at hb ⊢
      rw [hb]
    | some pawn =>
      simp only
      have hb := restore_board_ep_some g.board fr fc tr tc
        (if piece.color = WHITE then tr + 1 else tr - 1) piece pawn
        (some { piece with row := tr, col := tc }) hp hpw hcr
      rw [hb]
  · simp only [if_neg hep, piece_eta]
    by_cases hking : piece.type = KING
    · simp only [if_pos hking, setKingPos_board, setKingPos_currentPlayer,
        setKingPos_gameState, setKingPos_moveHistory, setKingPos_capturedWhite,
        setKingPos_capturedBlack, setKingPos_lastMove, setKingPos_enPassantTarget,
        setKingPos_halfMoveClock, setKingPos_fullMoveNumber]
      rw [restore_board_noep g.board fr fc tr tc piece
        (some { piece with row := tr, col := tc }) hp]
    · simp only [if_neg hking]
      rw [restore_board_noep g.board fr fc tr tc piece
        (some { piece with row := tr, col := tc }) hp]

/-- `isLegalMove` always hands back the state it was given: legality testing
is observably pure. -/
theorem isLegalMove_snd (g : ChessGame) (fr fc tr tc : Int) :
    (g.isLegalMove fr fc tr tc).2 = g := by
  unfold ChessGame.isLegalMove
  cases hp : g.getPieceAt fr fc with
  | none => rfl
  | some piece =>
    simp only
    split
    · rfl
    · split
      · rfl
      · split
        · rfl
        · exact speculativeCheck_snd g piece fr fc tr tc (getPieceAt_eq_rawGet g fr fc piece hp)

/-- A move accepted by `isLegalMove` is made by a piece of the side to move
and is among that piece's pseudo-legal moves. -/
theorem isLegalMove_true_elim (g : ChessGame) (fr fc tr tc : Int)
    (piece : ChessPiece) (hp : g.getPieceAt fr fc = some piece)
    (h : (g.isLegalMove fr fc tr tc).1 = true) :
    piece.color = g.currentPlayer ∧
      (tr, tc) ∈ getPossibleMoves piece g.board (g.moveContext piece) := by
  unfold ChessGame.isLegalMove at h
  rw [hp] at h
  simp only at h
  by_cases hcol : piece.color ≠ g.currentPlayer
  · rw [if_pos hcol] at h
    simp at h
  · rw [if_neg hcol] at h
    push_neg at hcol
    refine ⟨hcol, ?_⟩
    by_cases hm : (tr, tc) ∈ getPossibleMoves piece g.board (g.moveContext piece)
    · exact hm
    · rw [if_pos hm] at h
      simp at h

/-- C2: if there is no piece at the origin or the move is illegal, `makeMove`
returns false and the entire game state is unchanged (the speculative
apply-and-revert of `isLegalMove` restores the state exactly). -/
theorem claim_C2_makeMove_false_leaves_state_unchanged (g : ChessGame)
    (fr fc tr tc : Int) (promo : PieceType)
    (h : (g.makeMove fr fc tr tc promo).1 = false) :
    (g.makeMove fr fc tr tc promo).2 = g := by
  unfold ChessGame.makeMove at h ⊢
  cases hp : g.getPieceAt fr fc with
  | none => rfl
  | some piece =>
    rw [hp] at h
    simp only at h ⊢
    by_cases hl : (g.isLegalMove fr fc tr tc).1 = true
    · rw [if_neg (by simp [hl])] at h
      simp at h
    · rw [if_pos hl]
      exact isLegalMove_snd g fr fc tr tc

/-- Concrete instance for C2: moving from an empty square (3,3) of the initial
position fails and leaves the initial state unchanged. -/
theorem claim_C2_witness :
    (newGame.makeMove 3 3 4 3 QUEEN).1 = false ∧ (newGame.makeMove 3 3 4 3 QUEEN).2 = newGame := by
  refine ⟨by decide, ?_⟩
  exact claim_C2_makeMove_false_leaves_state_unchanged newGame 3 3 4 3 QUEEN (by decide)

/-- C10: a piece whose color is not the side to move has no legal moves (and a
null piece has none), even though its pseudo-legal move set may be nonempty. -/
theorem claim_C10_opponent_pieces_have_no_legal_moves :
    (∀ (g : ChessGame) (p : ChessPiece), g.getPieceAt p.row p.col = some p →
        p.color ≠ g.currentPlayer → g.getLegalMoves (some p) = []) ∧
      ∀ g : ChessGame, g.getLegalMoves none = [] := by
  constructor
  · intro g p hp hcol
    unfold ChessGame.getLegalMoves
    apply List.filter_eq_nil_iff.mpr
    intro m hm
    unfold ChessGame.isLegalMove
    rw [hp]
    simp only [if_pos hcol]
    simp
  · intro g
    rfl

/-- The black queenside knight of the initial position. -/
def knightB8 : ChessPiece :=
  { type := KNIGHT, color := BLACK, row := 0, col := 1, hasMoved := false }

/-- Concrete instance for C10: in the initial position Black's knight on
(0,1) has pseudo-legal moves but no legal moves (White to move). -/
theorem claim_C10_witness :
    newGame.getPieceAt knightB8.row knightB8.col = some knightB8 ∧
      knightB8.color ≠ newGame.currentPlayer ∧
      newGame.getLegalMoves (some knightB8) = [] ∧
      getPossibleMoves knightB8 newGame.board (newGame.moveContext knightB8) ≠ [] := by
  refine ⟨by decide, by decide, ?_, by decide⟩
  exact claim_C10_opponent_pieces_have_no_legal_moves.1 newGame knightB8 (by decide) (by decide)

/-! ### C8: the en-passant target after a successful move -/

/-- A pseudo-legal pawn move spanning two rows is the initial double advance:
it starts on the pawn's start row, goes straight, and lands two squares
ahead (in particular never on a promotion rank). -/
theorem pawnMoves_two_rows (board : BoardL) (p : ChessPiece) (ept : Option Square)
    (tr tc : Int) (hm : (tr, tc) ∈ getPawnMoves board p ept)
    (h2 : (tr - p.row).natAbs = 2) :
    p.row = (if p.color = WHITE then 6 else 1) ∧
      tr = p.row + 2 * (if p.color = WHITE then -1 else 1) ∧ tc = p.col := by
  unfold getPawnMoves at hm
  by_cases hw : p.color = WHITE
  all_goals simp only [hw, if_true, if_false] at hm ⊢
  case pos =>
    rcases List.mem_append.mp hm with hrest | hep
    · rcases List.mem_append.mp hrest with hf | hcap
      · by_cases hfw : 0 ≤ p.row + -1 ∧ p.row + -1 < 8 ∧ rawGet board (p.row + -1) p.col = none
        · rw [if_pos hfw] at hf
          rcases List.mem_cons.mp hf with h1 | h1
          · rw [Prod.mk.injEq] at h1
            omega
          · by_cases hdd : p.row = 6 ∧ rawGet board (p.row + -1 + -1) p.col = none
            · rw [if_pos hdd] at h1
              simp only [List.mem_singleton, Prod.mk.injEq] at h1
              exact ⟨hdd.1, by omega, h1.2⟩
            · rw [if_neg hdd] at h1
              simp at h1
        · rw [if_neg hfw] at hf
          simp at hf
      · rcases List.mem_filterMap.mp hcap with ⟨o, ho, hcap⟩
        repeat' split at hcap
        all_goals first
          | exact Option.noConfusion hcap
          | (rw [Option.some.injEq, Prod.mk.injEq] at hcap; omega)
    · rcases he : ept with _ | ⟨er, ec⟩ <;> rw [he] at hep
      · simp at hep
      · simp only at hep
        by_cases hc : p.row = 3 ∧ (ec - p.col).natAbs = 1 ∧ er = p.row + -1
        · rw [if_pos hc] at hep
          simp only [List.mem_singleton, Prod.mk.injEq] at hep
          omega
        · rw [if_neg hc] at hep
          simp at hep
  case neg =>
    rcases List.mem_append.mp hm with hrest | hep
    · rcases List.mem_append.mp hrest with hf | hcap
      · by_cases hfw : 0 ≤ p.row + 1 ∧ p.row + 1 < 8 ∧ rawGet board (p.row + 1) p.col = none
        · rw [if_pos hfw] at hf
          rcases List.mem_cons.mp hf with h1 | h1
          · rw [Prod.mk.injEq] at h1
            omega
          · by_cases hdd : p.row = 1 ∧ rawGet board (p.row + 1 + 1) p.col = none
            · rw [if_pos hdd] at h1
              simp only [List.mem_singleton, Prod.mk.injEq] at h1
              exact ⟨hdd.1, by omega, h1.2⟩
            · rw [if_neg hdd] at h1
              simp at h1
        · rw [if_neg hfw] at hf
          simp at hf
      · rcases List.mem_filterMap.mp hcap with ⟨o, ho, hcap⟩
        repeat' split at hcap
        all_goals first
          | exact Option.noConfusion hcap
          | (rw [Option.some.injEq, Prod.mk.injEq] at hcap; omega)
    · rcases he : ept with _ | ⟨er, ec⟩ <;> rw [he] at hep
      · simp at hep
      · simp only at hep
        by_cases hc : p.row = 4 ∧ (ec - p.col).natAbs = 1 ∧ er = p.row + 1
        · rw [if_pos hc] at hep
          simp only [List.mem_singleton, Prod.mk.injEq] at hep
          omega
        · rw [if_neg hc] at hep
          simp at hep

theorem updateGameState_enPassantTarget (g : ChessGame) :
    (g.updateGameState).enPassantTarget = g.enPassantTarget := rfl

theorem makeMoveRecord_enPassantTarget (g : ChessGame) (fp : ChessPiece)
    (san : String) (fr fc tr tc : Int) (cap : Option ChessPiece) :
    (g.makeMoveRecord fp san fr fc tr tc cap).enPassantTarget = g.enPassantTarget := by
  unfold ChessGame.makeMoveRecord
  dsimp only
  split <;> rfl

theorem makeMoveBoard_enPassantTarget (g : ChessGame) (piece fp : ChessPiece)
    (fr fc tr tc : Int) :
    (g.makeMoveBoard piece fp fr fc tr tc).enPassantTarget =
      if fp.type = PAWN ∧ (tr - fr).natAbs = 2 then some (fr + (tr - fr) / 2, fc)
      else none := by
  unfold ChessGame.makeMoveBoard
  dsimp only
  by_cases hq : fp.type = PAWN ∧ (tr - fr).natAbs = 2
  · rw [if_pos hq, if_pos hq]
  · rw [if_neg hq, if_neg hq]

/-- A successful `makeMove` passed the `isLegalMove` test. -/
theorem makeMove_true_isLegal (g : ChessGame) (fr fc tr tc : Int)
    (promo : PieceType) (piece : ChessPiece) (hp : g.getPieceAt fr fc = some piece)
    (hs : (g.makeMove fr fc tr tc promo).1 = true) :
    (g.isLegalMove fr fc tr tc).1 = true := by
  unfold ChessGame.makeMove at hs
  rw [hp] at hs
  simp only at hs
  by_cases hl : (g.isLegalMove fr fc tr tc).1 = true
  · exact hl
  · rw [if_pos hl] at hs
    simp at hs

/-- C8: after every successful `makeMove`, `enPassantTarget` is the
intermediate square of the move exactly when the moved piece is a pawn that
advanced two rows, and null otherwise. -/
theorem claim_C8_enPassantTarget_iff_double_advance (g : ChessGame)
    (fr fc tr tc : Int) (promo : PieceType) (piece : ChessPiece)
    (hp : g.getPieceAt fr fc = some piece) (hrw : piece.row = fr) (hcl : piece.col = fc)
    (hs : (g.makeMove fr fc tr tc promo).1 = true) :
    (g.makeMove fr fc tr tc promo).2.enPassantTarget =
      if piece.type = PAWN ∧ (tr - fr).natAbs = 2 then some (fr + (tr - fr) / 2, fc)
      else none := by
  have hleg := makeMove_true_isLegal g fr fc tr tc promo piece hp hs
  obtain ⟨hcol, hmem⟩ := isLegalMove_true_elim g fr fc tr tc piece hp hleg
  unfold ChessGame.makeMove
  rw [hp]
  simp only
  rw [if_neg (by simp [hleg])]
  simp only [updateGameState_enPassantTarget, makeMoveRecord_enPassantTarget,
    makeMoveBoard_enPassantTarget]
  by_cases hpr : piece.type = PAWN ∧ (tr = 0 ∨ tr = 7)
  · have hne : ¬(tr - fr).natAbs = 2 := by
      intro h2
      have hmem' : (tr, tc) ∈ getPawnMoves g.board piece g.enPassantTarget := by
        unfold getPossibleMoves at hmem
        rw [hpr.1] at hmem
        exact hmem
      have hfacts := pawnMoves_two_rows g.board piece g.enPassantTarget tr tc hmem'
        (by rw [hrw]; exact h2)
      by_cases hw : piece.color = WHITE <;>
        simp only [hw, if_true, if_false] at hfacts <;>
        rcases hpr.2 with h0 | h7 <;> omega
    rw [if_pos hpr]
    simp only
    rw [if_neg (fun hx => hne hx.2), if_neg (fun hx => hne hx.2)]
  · rw [if_neg hpr]

/-- Concrete instance for C8, the example of the claim: after White plays
the pawn from (6,4) to (4,4) in the initial position, the en-passant target
is (5,4). -/
theorem claim_C8_witness :
    (newGame.makeMove 6 4 4 4 QUEEN).1 = true ∧
      (newGame.makeMove 6 4 4 4 QUEEN).2.enPassantTarget = some (5, 4) := by
  have hs : (newGame.makeMove 6 4 4 4 QUEEN).1 = true := by decide
  refine ⟨hs, ?_⟩
  have := claim_C8_enPassantTarget_iff_double_advance newGame 6 4 4 4 QUEEN
    { type := PAWN, color := WHITE, row := 6, col := 4, hasMoved := false }
    (by decide) (by decide) (by decide) hs
  rw [this]
  decide


/-! ### C3: the status recomputed after a successful move -/

/-- An empty 8x8 board. -/
def emptyBoard : BoardL :=
  List.replicate 8 (List.replicate 8 (none : Option ChessPiece))

/-- Board containing exactly the given pieces (at their stored coordinates). -/
def boardOf (l : List ChessPiece) : BoardL :=
  l.foldl (fun b p => setCell b p.row p.col (some p)) emptyBoard

/-- The status computation in the precedence order of the claim: CHECKMATE
first, then STALEMATE, then DRAW (50-move clock or insufficient material),
then CHECK, else PLAYING. -/
def claimStatus (g : ChessGame) : GameStatus :=
  let inCheck := g.isInCheck g.currentPlayer
  let hasMoves := g.hasLegalMoves g.currentPlayer
  if inCheck ∧ ¬hasMoves then GameStatus.checkmate
  else if ¬inCheck ∧ ¬hasMoves then GameStatus.stalemate
  else if 100 ≤ g.halfMoveClock ∨ g.isInsufficientMaterial then GameStatus.draw
  else if inCheck then GameStatus.check
  else GameStatus.playing

/-- The status computation in the precedence order the code implements: the
DRAW override (50-move clock or insufficient material) wins over everything,
then CHECKMATE, STALEMATE, CHECK, PLAYING. -/
def codeStatus (g : ChessGame) : GameStatus :=
  let inCheck := g.isInCheck g.currentPlayer
  let hasMoves := g.hasLegalMoves g.currentPlayer
  if 100 ≤ g.halfMoveClock ∨ g.isInsufficientMaterial then GameStatus.draw
  else if inCheck ∧ ¬hasMoves then GameStatus.checkmate
  else if ¬inCheck ∧ ¬hasMoves then GameStatus.stalemate
  else if inCheck then GameStatus.check
  else GameStatus.playing

/-- White to move with rook h1, king a6 versus bare king a8, and the 50-move
clock at 99: Rh8 delivers a back-rank mate on the move that brings the clock
to 100. -/
def clockMateGame : ChessGame where
  board := boardOf
    [ { type := KING, color := BLACK, row := 0, col := 0, hasMoved := true },
      { type := KING, color := WHITE, row := 2, col := 0, hasMoved := true },
      { type := ROOK, color := WHITE, row := 7, col := 7, hasMoved := true } ]
  currentPlayer := WHITE
  gameState := GameStatus.playing
  moveHistory := []
  capturedWhite := []
  capturedBlack := []
  lastMove := none
  kingWhite := (2, 0)
  kingBlack := (0, 0)
  enPassantTarget := none
  halfMoveClock := 99
  fullMoveNumber := 60

/-- Counterexample to C3 as stated: the rook move (7,7)->(0,7) succeeds and
leaves the new current player checkmated on the 100th half-move, but the code
records DRAW where the claimed precedence (CHECKMATE first) demands
CHECKMATE. -/
theorem claim_C3_counterexample :
    (clockMateGame.makeMove 7 7 0 7 QUEEN).1 = true ∧
      (clockMateGame.makeMove 7 7 0 7 QUEEN).2.gameState = GameStatus.draw ∧
      claimStatus (clockMateGame.makeMove 7 7 0 7 QUEEN).2 = GameStatus.checkmate ∧
      (clockMateGame.makeMove 7 7 0 7 QUEEN).2.gameState ≠
        claimStatus (clockMateGame.makeMove 7 7 0 7 QUEEN).2 := by
  refine ⟨by decide, by decide, by decide, by decide⟩

theorem isInCheck_set_gameState (g : ChessGame) (s : GameStatus) (c : Color) :
    ChessGame.isInCheck { g with gameState := s } c = g.isInCheck c := rfl

theorem getPieceAt_set_gameState (g : ChessGame) (s : GameStatus) (r c : Int) :
    ChessGame.getPieceAt { g with gameState := s } r c = g.getPieceAt r c := rfl

theorem moveContext_set_gameState (g : ChessGame) (s : GameStatus) (p : ChessPiece) :
    ChessGame.moveContext { g with gameState := s } p = g.moveContext p := rfl

theorem decide_isInCheck_gameState (b : BoardL) (cp : Color)
    (mh : List MoveRecord) (cw cb : List ChessPiece) (lm : Option LastMove)
    (kw kb : Square) (ep : Option Square) (hc fm : Int) (s1 s2 : GameStatus)
    (c : Color) :
    decide (¬(ChessGame.isInCheck
        ⟨b, cp, s1, mh, cw, cb, lm, kw, kb, ep, hc, fm⟩ c = true)) =
      decide (¬(ChessGame.isInCheck
        ⟨b, cp, s2, mh, cw, cb, lm, kw, kb, ep, hc, fm⟩ c = true)) := rfl

theorem speculativeCheck_fst_set_gameState (g : ChessGame) (s : GameStatus)
    (piece : ChessPiece) (fr fc tr tc : Int) :
    (ChessGame.speculativeCheck { g with gameState := s } piece fr fc tr tc).1 =
      (g.speculativeCheck piece fr fc tr tc).1 := by
  unfold ChessGame.speculativeCheck
  dsimp only
  by_cases hep : piece.type = PAWN ∧ g.enPassantTarget = some (tr, tc)
  · simp only [if_pos hep]
    have hk : ¬piece.type = KING := by
      rw [hep.1]
      decide
    simp only [if_neg hk]
    exact decide_isInCheck_gameState _ _ _ _ _ _ _ _ _ _ _ _ _ _
  · simp only [if_neg hep]
    by_cases hk : piece.type = KING
    · simp only [if_pos hk]
      cases hcc : piece.color <;> dsimp only [ChessGame.setKingPos] <;>
        exact decide_isInCheck_gameState _ _ _ _ _ _ _ _ _ _ _ _ _ _
    · simp only [if_neg hk]
      exact decide_isInCheck_gameState _ _ _ _ _ _ _ _ _ _ _ _ _ _

theorem isLegalMove_fst_set_gameState (g : ChessGame) (s : GameStatus)
    (fr fc tr tc : Int) :
    (ChessGame.isLegalMove { g with gameState := s } fr fc tr tc).1 =
      (g.isLegalMove fr fc tr tc).1 := by
  unfold ChessGame.isLegalMove
  rw [getPieceAt_set_gameState]
  cases hp : g.getPieceAt fr fc with
  | none => rfl
  | some piece =>
    simp only [moveContext_set_gameState]
    by_cases h1 : piece.color ≠ g.currentPlayer
    · rw [if_pos h1, if_pos h1]
    · rw [if_neg h1, if_neg h1]
      by_cases h2 : ¬(tr, tc) ∈ getPossibleMoves piece g.board (g.moveContext piece)
      · rw [if_pos h2, if_pos h2]
      · rw [if_neg h2, if_neg h2]
        by_cases h3 : piece.type = KING ∧ (tc - fc).natAbs = 2
        · rw [if_pos h3, if_pos h3]
        · rw [if_neg h3, if_neg h3]
          exact speculativeCheck_fst_set_gameState g s piece fr fc tr tc

theorem getLegalMoves_set_gameState (g : ChessGame) (s : GameStatus)
    (po : Option ChessPiece) :
    ChessGame.getLegalMoves { g with gameState := s } po = g.getLegalMoves po := by
  cases po with
  | none => rfl
  | some piece =>
    unfold ChessGame.getLegalMoves
    simp only [moveContext_set_gameState]
    exact List.filter_congr
      (fun m hm => by rw [isLegalMove_fst_set_gameState])

theorem hasLegalMoves_set_gameState (g : ChessGame) (s : GameStatus) (c : Color) :
    ChessGame.hasLegalMoves { g with gameState := s } c = g.hasLegalMoves c := by
  unfold ChessGame.hasLegalMoves
  simp only [getPieceAt_set_gameState, getLegalMoves_set_gameState]

theorem isInsufficientMaterial_set_gameState (g : ChessGame) (s : GameStatus) :
    ChessGame.isInsufficientMaterial { g with gameState := s } =
      g.isInsufficientMaterial := rfl

theorem updateGameState_eq_codeStatus (g : ChessGame) :
    (g.updateGameState).gameState = codeStatus g.updateGameState := by
  unfold ChessGame.updateGameState codeStatus
  simp only [isInCheck_set_gameState, hasLegalMoves_set_gameState,
    isInsufficientMaterial_set_gameState]

/-- C3 amended: after every successful `makeMove` the recorded status equals
the recomputation in which the DRAW override (50-move clock or insufficient
material) takes precedence over CHECKMATE and STALEMATE, which take
precedence over CHECK, else PLAYING. -/
theorem claim_C3_amended_status_after_makeMove (g : ChessGame)
    (fr fc tr tc : Int) (promo : PieceType)
    (hs : (g.makeMove fr fc tr tc promo).1 = true) :
    (g.makeMove fr fc tr tc promo).2.gameState =
      codeStatus (g.makeMove fr fc tr tc promo).2 := by
  cases hp : g.getPieceAt fr fc with
  | none =>
    unfold ChessGame.makeMove at hs
    rw [hp] at hs
    simp at hs
  | some piece =>
    have hleg := makeMove_true_isLegal g fr fc tr tc promo piece hp hs
    unfold ChessGame.makeMove
    rw [hp]
    simp only
    rw [if_neg (by simp [hleg])]
    exact updateGameState_eq_codeStatus _

/-- Concrete instance for the amended C3: the clock-mate move really records
DRAW, matching the draw-first recomputation. -/
theorem claim_C3_witness :
    (clockMateGame.makeMove 7 7 0 7 QUEEN).1 = true ∧
      (clockMateGame.makeMove 7 7 0 7 QUEEN).2.gameState =
        codeStatus (clockMateGame.makeMove 7 7 0 7 QUEEN).2 :=
  ⟨by decide, claim_C3_amended_status_after_makeMove clockMateGame 7 7 0 7 QUEEN (by decide)⟩


/-! ### C1: a legal move that leaves the mover's own king attacked -/

/-- White king e1 and rook h1, both unmoved, f1/g1 empty; a black pawn on h2.
The pawn attack on the empty castling squares is invisible to
`isSquareUnderAttack` (pawn diagonals are generated only onto occupied
squares), so `canCastle` accepts kingside castling into the pawn's attack. -/
def castleIntoPawnGame : ChessGame where
  board := boardOf
    [ { type := KING, color := BLACK, row := 0, col := 4, hasMoved := false },
      { type := PAWN, color := BLACK, row := 6, col := 7, hasMoved := true },
      { type := KING, color := WHITE, row := 7, col := 4, hasMoved := false },
      { type := ROOK, color := WHITE, row := 7, col := 7, hasMoved := false } ]
  currentPlayer := WHITE
  gameState := GameStatus.playing
  moveHistory := []
  capturedWhite := []
  capturedBlack := []
  lastMove := none
  kingWhite := (7, 4)
  kingBlack := (0, 4)
  enPassantTarget := none
  halfMoveClock := 0
  fullMoveNumber := 30

def whiteKingE1 : ChessPiece :=
  { type := KING, color := WHITE, row := 7, col := 4, hasMoved := false }

/-- C1 fails on the code: kingside castling (7,4)->(7,6) is returned by
`getLegalMoves` and succeeds in `makeMove`, yet afterwards the white king on
g1 is attacked by the black pawn on h2 (`isInCheck WHITE` holds). -/
theorem claim_C1_castle_into_pawn_check :
    ((7 : Int), (6 : Int)) ∈ castleIntoPawnGame.getLegalMoves (some whiteKingE1) ∧
      (castleIntoPawnGame.makeMove 7 4 7 6 QUEEN).1 = true ∧
      (castleIntoPawnGame.makeMove 7 4 7 6 QUEEN).2.isInCheck WHITE = true := by
  refine ⟨by decide, by decide, by decide⟩


/-! ### C9: the king-position cache stays consistent with the board -/

/-- In-board coordinates. -/
def inB (r c : Int) : Prop := 0 ≤ r ∧ r < 8 ∧ 0 ≤ c ∧ c < 8

instance (r c : Int) : Decidable (inB r c) := by
  unfold inB
  infer_instance

/-- An 8x8 board: 8 rows of 8 cells. -/
def boardShape (b : BoardL) : Prop := b.length = 8 ∧ ∀ row ∈ b, row.length = 8

instance (b : BoardL) : Decidable (boardShape b) := by
  unfold boardShape
  infer_instance

theorem boardShape_setCell (b : BoardL) (r c : Int) (v : Option ChessPiece)
    (hs : boardShape b) : boardShape (setCell b r c v) := by
  obtain ⟨h8, hrow⟩ := hs
  unfold setCell
  split
  · by_cases hlt : r.toNat < b.length
    · refine ⟨by simpa using h8, ?_⟩
      intro row hrw
      rcases List.mem_or_eq_of_mem_set hrw with h | h
      · exact hrow row h
      · subst h
        rw [List.length_set]
        have hrget : b.getD r.toNat [] = b[r.toNat] := by
          rw [List.getD_eq_getElem?_getD, List.getElem?_eq_getElem hlt]
          rfl
        rw [hrget]
        exact hrow _ (List.getElem_mem hlt)
    · rw [List.set_eq_of_length_le (by omega)]
      exact ⟨h8, hrow⟩
  · exact ⟨h8, hrow⟩

theorem rawGet_setCell_self (b : BoardL) (r c : Int) (v : Option ChessPiece)
    (hs : boardShape b) (hr : inB r c) :
    rawGet (setCell b r c v) r c = v := by
  obtain ⟨h8, hrow⟩ := hs
  obtain ⟨h0r, h8r, h0c, h8c⟩ := hr
  have hg : 0 ≤ r ∧ 0 ≤ c := ⟨h0r, h0c⟩
  rw [setCell_pos _ _ _ _ hg, rawGet_pos _ _ _ hg]
  have hrn : r.toNat < b.length := by omega
  have hrget : b.getD r.toNat [] = b[r.toNat] := by
    rw [List.getD_eq_getElem?_getD, List.getElem?_eq_getElem hrn]
    rfl
  have hlen : (b.getD r.toNat []).length = 8 := by
    rw [hrget]
    exact hrow _ (List.getElem_mem hrn)
  rw [lgetD_set_self, if_pos hrn, lgetD_set_self, if_pos (by omega)]

theorem mem_allSquares (r c : Int) : (r, c) ∈ allSquares ↔ inB r c := by
  unfold allSquares inB
  constructor
  · intro h
    obtain ⟨l, hl, hm⟩ := List.mem_flatten.mp h
    obtain ⟨a, ha, rfl⟩ := List.mem_map.mp hl
    obtain ⟨b2, hb2, hbe⟩ := List.mem_map.mp hm
    rw [List.mem_range] at ha hb2
    rw [Prod.mk.injEq] at hbe
    omega
  · rintro ⟨h1, h2, h3, h4⟩
    apply List.mem_flatten.mpr
    refine ⟨(List.range 8).map (fun (cc : Nat) => (((r.toNat : Int), (cc : Int)) : Square)), ?_, ?_⟩
    · apply List.mem_map.mpr
      refine ⟨r.toNat, List.mem_range.mpr ?_, rfl⟩
      omega
    · apply List.mem_map.mpr
      refine ⟨c.toNat, List.mem_range.mpr ?_, ?_⟩
      · omega
      · rw [Prod.mk.injEq]
        constructor <;> omega

/-- The cell holds a king of the given color. -/
def isKingCell (g : ChessGame) (color : Color) (r c : Int) : Bool :=
  match rawGet g.board r c with
  | some p => decide (p.type = KING) && decide (p.color = color)
  | none => false

/-- `kingPositions[color]` points at a king of that color, and no other square
holds one. -/
def KingConsistentFor (g : ChessGame) (color : Color) : Prop :=
  g.kingPositionsAt color ∈ allSquares ∧
    isKingCell g color (g.kingPositionsAt color).1 (g.kingPositionsAt color).2 = true ∧
    ∀ rc ∈ allSquares, isKingCell g color rc.1 rc.2 = true → rc = g.kingPositionsAt color

instance (g : ChessGame) (color : Color) : Decidable (KingConsistentFor g color) := by
  unfold KingConsistentFor
  infer_instance

def KingsConsistent (g : ChessGame) : Prop :=
  KingConsistentFor g WHITE ∧ KingConsistentFor g BLACK

instance (g : ChessGame) : Decidable (KingsConsistent g) := by
  unfold KingsConsistent
  infer_instance

theorem kingConsistentFor_of (g : ChessGame) (h : KingsConsistent g) (c : Color) :
    KingConsistentFor g c := by
  cases c
  · exact h.1
  · exact h.2

/-- When the en-passant target is set it is an empty square, and the square
the en-passant capture removes holds a pawn of the opponent of the side to
move. -/
def EPSane (g : ChessGame) : Prop :=
  match g.enPassantTarget with
  | none => True
  | some (r, c) =>
    rawGet g.board r c = none ∧
      match rawGet g.board (if g.currentPlayer = WHITE then r + 1 else r - 1) c with
      | some p => p.type = PAWN ∧ p.color = g.currentPlayer.other
      | none => False

instance (g : ChessGame) : Decidable (EPSane g) := by
  unfold EPSane
  split
  · infer_instance
  · split <;> infer_instance

/-- Every piece on the board records its own coordinates. -/
def CoordsConsistent (g : ChessGame) : Prop :=
  ∀ rc ∈ allSquares,
    match rawGet g.board rc.1 rc.2 with
    | some p => p.row = rc.1 ∧ p.col = rc.2
    | none => True

instance (g : ChessGame) (rc : Square) :
    Decidable (match rawGet g.board rc.1 rc.2 with
      | some p => p.row = rc.1 ∧ p.col = rc.2
      | none => True) := by
  split <;> infer_instance

instance (g : ChessGame) : Decidable (CoordsConsistent g) := by
  unfold CoordsConsistent
  exact List.decidableBAll _ allSquares

/-- A king that has not moved still stands on its home square. -/
def UnmovedKingsHome (g : ChessGame) : Prop :=
  ∀ rc ∈ allSquares,
    match rawGet g.board rc.1 rc.2 with
    | some p =>
      p.type = KING → p.hasMoved = false →
        rc = (if p.color = WHITE then ((7 : Int), (4 : Int)) else ((0 : Int), (4 : Int)))
    | none => True

instance (g : ChessGame) (rc : Square) :
    Decidable (match rawGet g.board rc.1 rc.2 with
      | some p =>
        p.type = KING → p.hasMoved = false →
          rc = (if p.color = WHITE then ((7 : Int), (4 : Int)) else ((0 : Int), (4 : Int)))
      | none => True) := by
  split <;> infer_instance

instance (g : ChessGame) : Decidable (UnmovedKingsHome g) := by
  unfold UnmovedKingsHome
  exact List.decidableBAll _ allSquares

theorem getPieceAt_inB (g : ChessGame) (r c : Int) (p : ChessPiece)
    (h : g.getPieceAt r c = some p) : inB r c := by
  unfold ChessGame.getPieceAt at h
  unfold inB
  by_cases hb : r < 0 ∨ 8 ≤ r ∨ c < 0 ∨ 8 ≤ c
  · rw [if_pos hb] at h
    exact absurd h (by simp)
  · push_neg at hb
    omega

/-- A pseudo-legal move of a piece that stands on the board makes its target
square attacked by the piece's color (in the castle-free attack context). -/
theorem attacked_of_mem (g : ChessGame) (piece : ChessPiece) (fr fc tr tc : Int)
    (hp : g.getPieceAt fr fc = some piece)
    (hmemA : (tr, tc) ∈ getPossibleMoves piece g.board (attackContext g.enPassantTarget)) :
    g.isSquareUnderAttack tr tc piece.color = true := by
  unfold ChessGame.isSquareUnderAttack
  rw [List.any_eq_true]
  refine ⟨(fr, fc), (mem_allSquares fr fc).mpr (getPieceAt_inB g fr fc piece hp), ?_⟩
  rw [getPieceAt_eq_rawGet g fr fc piece hp]
  simp only [decide_eq_true_eq, Bool.and_eq_true, decide_eq_true_iff]
  refine ⟨by simp, ?_⟩
  rw [List.any_eq_true]
  exact ⟨(tr, tc), hmemA, by simp⟩


theorem Color.other_other (c : Color) : c.other.other = c := by
  cases c <;> rfl

theorem Color.other_ne (c : Color) : c.other ≠ c := by
  cases c <;> decide

/-- Occupancy of a square reached by a sliding ray: empty or an enemy piece. -/
theorem ray_occ (b : BoardL) (pc : Color) (r c dr dc : Int) (n : Nat) (m : Square)
    (hm : m ∈ ray b pc r c dr dc n) :
    rawGet b m.1 m.2 = none ∨ ∃ t, rawGet b m.1 m.2 = some t ∧ t.color ≠ pc := by
  induction n generalizing r c with
  | zero => exact absurd hm (by simp [ray])
  | succ k ih =>
    unfold ray at hm
    by_cases hbound : r + dr < 0 ∨ 8 ≤ r + dr ∨ c + dc < 0 ∨ 8 ≤ c + dc
    · rw [if_pos hbound] at hm
      exact absurd hm (by simp)
    · rw [if_neg hbound] at hm
      split at hm
      · rcases List.mem_cons.mp hm with h | h
        · subst h
          left
          assumption
        · exact ih _ _ h
      · split at hm
        · rcases List.mem_singleton.mp hm with rfl
          right
          refine ⟨_, by assumption, by assumption⟩
        · exact absurd hm (by simp)

/-- Occupancy of a pawn-move target: empty, an enemy piece, or the en-passant
target square. -/
theorem pawnMoves_occ (b : BoardL) (p : ChessPiece) (ept : Option Square) (m : Square)
    (hm : m ∈ getPawnMoves b p ept) :
    rawGet b m.1 m.2 = none ∨ (∃ t, rawGet b m.1 m.2 = some t ∧ t.color ≠ p.color) ∨
      ept = some m := by
  unfold getPawnMoves at hm
  set d : Int := (if p.color = WHITE then -1 else 1) with hd
  set sr : Int := (if p.color = WHITE then 6 else 1) with hsr
  set er : Int := (if p.color = WHITE then 3 else 4) with her
  rcases List.mem_append.mp hm with hm1 | hm2
  · rcases List.mem_append.mp hm1 with hf | hc
    · split at hf
      · rename_i hcond
        rcases List.mem_cons.mp hf with h | h
        · subst h
          exact Or.inl hcond.2.2
        · split at h
          · rename_i hcond2
            rcases List.mem_singleton.mp h with rfl
            exact Or.inl hcond2.2
          · exact absurd h (by simp)
      · exact absurd hf (by simp)
    · obtain ⟨o, ho, heq⟩ := List.mem_filterMap.mp hc
      simp only at heq
      split at heq
      · split at heq
        · split at heq
          · rename_i t hocc hcol
            injection heq with heq
            subst heq
            exact Or.inr (Or.inl ⟨t, hocc, by simpa using hcol⟩)
          · exact Option.noConfusion heq
        · rename_i hocc
          exact Option.noConfusion heq
      · exact Option.noConfusion heq
  · split at hm2
    · split at hm2
      · rename_i r0 c0 hcond
        rcases List.mem_singleton.mp hm2 with rfl
        exact Or.inr (Or.inr rfl)
      · exact absurd hm2 (by simp)
    · exact absurd hm2 (by simp)

/-- Occupancy of a knight-move target: empty or an enemy piece. -/
theorem knightMoves_occ (b : BoardL) (p : ChessPiece) (m : Square)
    (hm : m ∈ getKnightMoves b p) :
    rawGet b m.1 m.2 = none ∨ ∃ t, rawGet b m.1 m.2 = some t ∧ t.color ≠ p.color := by
  obtain ⟨o, ho, heq⟩ := List.mem_filterMap.mp hm
  simp only at heq
  split at heq
  · split at heq
    · rename_i hocc
      injection heq with heq
      subst heq
      exact Or.inl hocc
    · split at heq
      · rename_i t hocc hcol
        injection heq with heq
        subst heq
        exact Or.inr ⟨t, hocc, by simpa using hcol⟩
      · exact Option.noConfusion heq
  · exact Option.noConfusion heq

theorem kingOffsets_facts :
    ∀ o ∈ kingOffsets, ¬(o.1 = 0 ∧ o.2 = 0) ∧ o.1.natAbs ≤ 1 ∧ o.2.natAbs ≤ 1 := by
  decide

/-- Analysis of a king-move target: either a normal one-step move (with its
offset, range, and occupancy facts, also present with castle flags cleared),
or a castling entry with the enabling flag. -/
theorem kingMoves_elim (b : BoardL) (p : ChessPiece) (ck cq : Bool) (m : Square)
    (hm : m ∈ getKingMoves b p ck cq) :
    (m ∈ getKingMoves b p false false ∧ inB m.1 m.2 ∧
      (∃ o ∈ kingOffsets, m = (p.row + o.1, p.col + o.2)) ∧
      (rawGet b m.1 m.2 = none ∨ ∃ t, rawGet b m.1 m.2 = some t ∧ t.color ≠ p.color)) ∨
    (p.hasMoved = false ∧ p.col = 4 ∧
      ((m = (p.row, 6) ∧ ck = true) ∨ (m = (p.row, 2) ∧ cq = true))) := by
  unfold getKingMoves at hm
  rcases List.mem_append.mp hm with hn | hc
  · left
    obtain ⟨o, ho, heq⟩ := List.mem_filterMap.mp hn
    refine ⟨?_, ?_⟩
    · unfold getKingMoves
      simp only
      apply List.mem_append_left
      exact List.mem_filterMap.mpr ⟨o, ho, heq⟩
    · simp only at heq
      split at heq
      · rename_i hcond
        split at heq
        · rename_i hocc
          injection heq with heq
          subst heq
          exact ⟨hcond, ⟨o, ho, rfl⟩, Or.inl hocc⟩
        · split at heq
          · rename_i t hocc hcol
            injection heq with heq
            subst heq
            exact ⟨hcond, ⟨o, ho, rfl⟩, Or.inr ⟨t, hocc, by simpa using hcol⟩⟩
          · exact Option.noConfusion heq
      · exact Option.noConfusion heq
  · right
    split at hc
    · rename_i hcond
      refine ⟨by simpa using hcond.1, hcond.2, ?_⟩
      rcases List.mem_append.mp hc with h6 | h2
      · left
        split at h6
        · exact ⟨List.mem_singleton.mp h6, by assumption⟩
        · exact absurd h6 (by simp)
      · right
        split at h2
        · exact ⟨List.mem_singleton.mp h2, by assumption⟩
        · exact absurd h2 (by simp)
    · exact absurd hc (by simp)


theorem rookMoves_occ (b : BoardL) (p : ChessPiece) (m : Square)
    (hm : m ∈ getRookMoves b p) :
    rawGet b m.1 m.2 = none ∨ ∃ t, rawGet b m.1 m.2 = some t ∧ t.color ≠ p.color := by
  unfold getRookMoves at hm
  rcases List.mem_append.mp hm with h | h
  · rcases List.mem_append.mp h with h | h
    · rcases List.mem_append.mp h with h | h
      · exact ray_occ _ _ _ _ _ _ _ _ h
      · exact ray_occ _ _ _ _ _ _ _ _ h
    · exact ray_occ _ _ _ _ _ _ _ _ h
  · exact ray_occ _ _ _ _ _ _ _ _ h

theorem bishopMoves_occ (b : BoardL) (p : ChessPiece) (m : Square)
    (hm : m ∈ getBishopMoves b p) :
    rawGet b m.1 m.2 = none ∨ ∃ t, rawGet b m.1 m.2 = some t ∧ t.color ≠ p.color := by
  unfold getBishopMoves at hm
  rcases List.mem_append.mp hm with h | h
  · rcases List.mem_append.mp h with h | h
    · rcases List.mem_append.mp h with h | h
      · exact ray_occ _ _ _ _ _ _ _ _ h
      · exact ray_occ _ _ _ _ _ _ _ _ h
    · exact ray_occ _ _ _ _ _ _ _ _ h
  · exact ray_occ _ _ _ _ _ _ _ _ h

/-- Every pseudo-legal move is either also generated in the castle-free attack
context, with its target empty, holding an enemy piece, or being the en-passant
target -- or it is a castling entry enabled by the corresponding context flag. -/
theorem mem_pseudo_split (p : ChessPiece) (b : BoardL) (ctx : GameContext) (tr tc : Int)
    (hm : (tr, tc) ∈ getPossibleMoves p b ctx) :
    ((tr, tc) ∈ getPossibleMoves p b (attackContext ctx.enPassantTarget) ∧
      (rawGet b tr tc = none ∨ (∃ t, rawGet b tr tc = some t ∧ t.color ≠ p.color) ∨
        (p.type = PAWN ∧ ctx.enPassantTarget = some (tr, tc)))) ∨
    (p.type = KING ∧ p.hasMoved = false ∧ p.col = 4 ∧
      (((tr, tc) = (p.row, 6) ∧ ctx.canCastleKingSide = true) ∨
       ((tr, tc) = (p.row, 2) ∧ ctx.canCastleQueenSide = true))) := by
  unfold getPossibleMoves at hm ⊢
  cases ht : p.type with
  | PAWN =>
    rw [ht] at hm
    left
    refine ⟨hm, ?_⟩
    rcases pawnMoves_occ b p ctx.enPassantTarget (tr, tc) hm with h | h | h
    · exact Or.inl h
    · exact Or.inr (Or.inl h)
    · exact Or.inr (Or.inr ⟨rfl, h⟩)
  | ROOK =>
    rw [ht] at hm
    left
    refine ⟨hm, ?_⟩
    rcases rookMoves_occ b p (tr, tc) hm with h | h
    · exact Or.inl h
    · exact Or.inr (Or.inl h)
  | KNIGHT =>
    rw [ht] at hm
    left
    refine ⟨hm, ?_⟩
    rcases knightMoves_occ b p (tr, tc) hm with h | h
    · exact Or.inl h
    · exact Or.inr (Or.inl h)
  | BISHOP =>
    rw [ht] at hm
    left
    refine ⟨hm, ?_⟩
    rcases bishopMoves_occ b p (tr, tc) hm with h | h
    · exact Or.inl h
    · exact Or.inr (Or.inl h)
  | QUEEN =>
    rw [ht] at hm
    left
    refine ⟨hm, ?_⟩
    unfold getQueenMoves at hm
    rcases List.mem_append.mp hm with h | h
    · rcases rookMoves_occ b p (tr, tc) h with h2 | h2
      · exact Or.inl h2
      · exact Or.inr (Or.inl h2)
    · rcases bishopMoves_occ b p (tr, tc) h with h2 | h2
      · exact Or.inl h2
      · exact Or.inr (Or.inl h2)
  | KING =>
    rw [ht] at hm
    rcases kingMoves_elim b p _ _ (tr, tc) hm with ⟨hatk, hin, _, hocc⟩ | ⟨hnm, hc4, hd⟩
    · left
      refine ⟨hatk, ?_⟩
      rcases hocc with h | h
      · exact Or.inl h
      · exact Or.inr (Or.inl h)
    · right
      exact ⟨rfl, hnm, hc4, hd⟩


theorem rawGet_some_inB (b : BoardL) (r c : Int) (x : ChessPiece)
    (hs : boardShape b) (h : rawGet b r c = some x) : inB r c := by
  obtain ⟨h8, hrow⟩ := hs
  by_cases hg : 0 ≤ r ∧ 0 ≤ c
  · rw [rawGet_pos _ _ _ hg] at h
    by_cases hr8 : r < 8
    · by_cases hc8 : c < 8
      · exact ⟨hg.1, hr8, hg.2, hc8⟩
      · exfalso
        have hrn : r.toNat < b.length := by omega
        have hrget : b.getD r.toNat [] = b[r.toNat] := by
          rw [List.getD_eq_getElem?_getD, List.getElem?_eq_getElem hrn]
          rfl
        have hlen : (b.getD r.toNat []).length = 8 := by
          rw [hrget]
          exact hrow _ (List.getElem_mem hrn)
        rw [List.getD_eq_getElem?_getD, List.getElem?_eq_none (by omega)] at h
        exact Option.noConfusion h
    · exfalso
      rw [List.getD_eq_getElem?_getD (l := b), List.getElem?_eq_none (by omega)] at h
      simp at h
  · unfold rawGet at h
    rw [if_neg hg] at h
    exact Option.noConfusion h

theorem getPieceAt_of_inB (g : ChessGame) (r c : Int) (h : inB r c) :
    g.getPieceAt r c = rawGet g.board r c := by
  obtain ⟨h1, h2, h3, h4⟩ := h
  unfold ChessGame.getPieceAt
  rw [if_neg (by omega)]

/-- What a successful king-side `canCastle` check guarantees: an unmoved rook
on the h-file corner and empty f- and g-squares of the back rank. -/
theorem canCastle_true_elim (g : ChessGame) (color : Color)
    (h : g.canCastle color true = true) :
    ∃ rook, g.getPieceAt (if color = WHITE then 7 else 0) 7 = some rook ∧
      rook.type = ROOK ∧
      g.getPieceAt (if color = WHITE then 7 else 0) 5 = none ∧
      g.getPieceAt (if color = WHITE then 7 else 0) 6 = none := by
  unfold ChessGame.canCastle at h
  simp only at h
  simp only [if_true] at h
  set row : Int := (if color = WHITE then (7 : Int) else 0) with hrow
  cases hk4 : g.getPieceAt row 4 with
  | none =>
    simp only [hk4] at h
    exact Bool.noConfusion h
  | some king =>
    cases hk7 : g.getPieceAt row 7 with
    | none =>
      simp only [hk4, hk7] at h
      exact Bool.noConfusion h
    | some rook =>
      simp only [hk4, hk7] at h
      by_cases c1 : king.type ≠ KING ∨ king.hasMoved = true
      · rw [if_pos c1] at h
        exact absurd h (by simp)
      · rw [if_neg c1] at h
        by_cases c2 : rook.type ≠ ROOK ∨ rook.hasMoved = true
        · rw [if_pos c2] at h
          exact absurd h (by simp)
        · rw [if_neg c2] at h
          push_neg at c2
          by_cases c3 : g.isInCheck color = true
          · rw [if_pos c3] at h
            exact absurd h (by simp)
          · rw [if_neg c3] at h
            by_cases c4 : (g.getPieceAt row 5).isSome = true ∨ (g.getPieceAt row 6).isSome = true
            · rw [if_pos c4] at h
              exact absurd h (by simp)
            · rw [if_neg c4] at h
              push_neg at c4
              refine ⟨rook, rfl, c2.1, ?_, ?_⟩
              · cases hx : g.getPieceAt row 5 with
                | none => rfl
                | some y => exact absurd (by rw [hx]; rfl) c4.1
              · cases hx : g.getPieceAt row 6 with
                | none => rfl
                | some y => exact absurd (by rw [hx]; rfl) c4.2

/-- What a successful queen-side `canCastle` check guarantees: an unmoved rook
on the a-file corner and empty b-, c- and d-squares of the back rank. -/
theorem canCastle_false_elim (g : ChessGame) (color : Color)
    (h : g.canCastle color false = true) :
    ∃ rook, g.getPieceAt (if color = WHITE then 7 else 0) 0 = some rook ∧
      rook.type = ROOK ∧
      g.getPieceAt (if color = WHITE then 7 else 0) 1 = none ∧
      g.getPieceAt (if color = WHITE then 7 else 0) 2 = none ∧
      g.getPieceAt (if color = WHITE then 7 else 0) 3 = none := by
  unfold ChessGame.canCastle at h
  simp only at h
  simp only [Bool.false_eq_true, if_false] at h
  set row : Int := (if color = WHITE then (7 : Int) else 0) with hrow
  cases hk4 : g.getPieceAt row 4 with
  | none =>
    simp only [hk4] at h
    exact Bool.noConfusion h
  | some king =>
    cases hk0 : g.getPieceAt row 0 with
    | none =>
      simp only [hk4, hk0] at h
      exact Bool.noConfusion h
    | some rook =>
      simp only [hk4, hk0] at h
      by_cases c1 : king.type ≠ KING ∨ king.hasMoved = true
      · rw [if_pos c1] at h
        exact absurd h (by simp)
      · rw [if_neg c1] at h
        by_cases c2 : rook.type ≠ ROOK ∨ rook.hasMoved = true
        · rw [if_pos c2] at h
          exact absurd h (by simp)
        · rw [if_neg c2] at h
          push_neg at c2
          by_cases c3 : g.isInCheck color = true
          · rw [if_pos c3] at h
            exact absurd h (by simp)
          · rw [if_neg c3] at h
            by_cases c4 : (g.getPieceAt row 1).isSome = true ∨ (g.getPieceAt row 2).isSome = true ∨
                (g.getPieceAt row 3).isSome = true
            · rw [if_pos c4] at h
              exact absurd h (by simp)
            · rw [if_neg c4] at h
              push_neg at c4
              refine ⟨rook, rfl, c2.1, ?_, ?_, ?_⟩
              · cases hx : g.getPieceAt row 1 with
                | none => rfl
                | some y => exact absurd (by rw [hx]; rfl) c4.1
              · cases hx : g.getPieceAt row 2 with
                | none => rfl
                | some y => exact absurd (by rw [hx]; rfl) c4.2.1
              · cases hx : g.getPieceAt row 3 with
                | none => rfl
                | some y => exact absurd (by rw [hx]; rfl) c4.2.2


theorem Color.eq_other_of_ne (a b : Color) (h : a ≠ b) : a = b.other := by
  cases a <;> cases b
  · exact absurd rfl h
  · rfl
  · rfl
  · exact absurd rfl h

/-- Under the state invariants, a pseudo-legal move of the side to move never
lands on a square holding a king (of either color): capturing the enemy king
would contradict "opponent not in check", and the friendly king can never be a
pseudo-legal target. -/
theorem no_king_at_target (g : ChessGame) (piece q : ChessPiece) (fr fc tr tc : Int)
    (hBS : boardShape g.board)
    (hKC : KingsConsistent g) (hEP : EPSane g) (hUH : UnmovedKingsHome g)
    (hp : g.getPieceAt fr fc = some piece)
    (hrw : piece.row = fr) (hcl : piece.col = fc)
    (hcol : piece.color = g.currentPlayer)
    (hnc : g.isInCheck g.currentPlayer.other = false)
    (hmem : (tr, tc) ∈ getPossibleMoves piece g.board (g.moveContext piece))
    (hq : rawGet g.board tr tc = some q) (hqk : q.type = KING) : False := by
  rcases mem_pseudo_split piece g.board (g.moveContext piece) tr tc hmem with
    ⟨hatk, hocc⟩ | ⟨hkg, hnm, hc4, hdisj⟩
  · rcases hocc with hnone | ⟨t, ht, htc⟩ | ⟨hpw, hept⟩
    · rw [hq] at hnone
      exact Option.noConfusion hnone
    · rw [hq] at ht
      injection ht with ht
      subst ht
      have hqcol : q.color = g.currentPlayer.other := by
        rw [← hcol]
        exact Color.eq_other_of_ne _ _ htc
      have hKCo := kingConsistentFor_of g hKC g.currentPlayer.other
      have hin : ((tr, tc) : Square) ∈ allSquares :=
        (mem_allSquares tr tc).mpr (rawGet_some_inB _ _ _ _ hBS hq)
      have hkc : isKingCell g g.currentPlayer.other tr tc = true := by
        unfold isKingCell
        rw [hq]
        simp [hqk, hqcol]
      have heq := hKCo.2.2 (tr, tc) hin hkc
      have hatt := attacked_of_mem g piece fr fc tr tc hp hatk
      unfold ChessGame.isInCheck at hnc
      simp only at hnc
      rw [← heq] at hnc
      rw [Color.other_other] at hnc
      rw [hcol] at hatt
      exact absurd hatt (by simpa using hnc)
    · have hept' : g.enPassantTarget = some (tr, tc) := hept
      unfold EPSane at hEP
      rw [hept'] at hEP
      have h1 : rawGet g.board tr tc = none := hEP.1
      rw [hq] at h1
      exact Option.noConfusion h1
  · have hpr : rawGet g.board fr fc = some piece := getPieceAt_eq_rawGet g fr fc piece hp
    have hinf : inB fr fc := getPieceAt_inB g fr fc piece hp
    have hin : ((fr, fc) : Square) ∈ allSquares := (mem_allSquares fr fc).mpr hinf
    have hhome0 := hUH (fr, fc) hin
    simp only at hhome0
    rw [hpr] at hhome0
    have hhome : (fr, fc) =
        (if piece.color = WHITE then (((7 : Int), (4 : Int)) : Square)
         else (((0 : Int), (4 : Int)) : Square)) := hhome0 hkg hnm
    rcases hdisj with ⟨htgt, hflag⟩ | ⟨htgt, hflag⟩
    · have h2 : (if piece.type = KING then g.canCastle piece.color true else false) = true :=
        hflag
      rw [if_pos hkg] at h2
      obtain ⟨rook, hr7, hrt, h5, h6⟩ := canCastle_true_elim g piece.color h2
      have hhome' : fr = (if piece.color = WHITE then (7 : Int) else 0) ∧ fc = (4 : Int) := by
        by_cases hw : piece.color = WHITE
        · rw [if_pos hw] at hhome
          rw [if_pos hw]
          rw [Prod.mk.injEq] at hhome
          exact hhome
        · rw [if_neg hw] at hhome
          rw [if_neg hw]
          rw [Prod.mk.injEq] at hhome
          exact hhome
      have htr : tr = fr ∧ tc = 6 := by
        rw [Prod.mk.injEq] at htgt
        exact ⟨htgt.1.trans hrw, htgt.2⟩
      have hrow_in : inB (if piece.color = WHITE then (7 : Int) else 0) 6 := by
        by_cases hw : piece.color = WHITE
        · rw [if_pos hw]
          decide
        · rw [if_neg hw]
          decide
      have h6' : rawGet g.board (if piece.color = WHITE then (7 : Int) else 0) 6 = none := by
        rw [← getPieceAt_of_inB g _ _ hrow_in]
        exact h6
      rw [htr.1, htr.2, hhome'.1, h6'] at hq
      exact Option.noConfusion hq
    · have h2 : (if piece.type = KING then g.canCastle piece.color false else false) = true :=
        hflag
      rw [if_pos hkg] at h2
      obtain ⟨rook, hr0, hrt, hb1, hb2, hb3⟩ := canCastle_false_elim g piece.color h2
      have hhome' : fr = (if piece.color = WHITE then (7 : Int) else 0) ∧ fc = (4 : Int) := by
        by_cases hw : piece.color = WHITE
        · rw [if_pos hw] at hhome
          rw [if_pos hw]
          rw [Prod.mk.injEq] at hhome
          exact hhome
        · rw [if_neg hw] at hhome
          rw [if_neg hw]
          rw [Prod.mk.injEq] at hhome
          exact hhome
      have htr : tr = fr ∧ tc = 2 := by
        rw [Prod.mk.injEq] at htgt
        exact ⟨htgt.1.trans hrw, htgt.2⟩
      have hrow_in : inB (if piece.color = WHITE then (7 : Int) else 0) 2 := by
        by_cases hw : piece.color = WHITE
        · rw [if_pos hw]
          decide
        · rw [if_neg hw]
          decide
      have h2' : rawGet g.board (if piece.color = WHITE then (7 : Int) else 0) 2 = none := by
        rw [← getPieceAt_of_inB g _ _ hrow_in]
        exact hb2
      rw [htr.1, htr.2, hhome'.1, h2'] at hq
      exact Option.noConfusion hq


theorem updateGameState_board (g : ChessGame) : (g.updateGameState).board = g.board := rfl

theorem updateGameState_kingWhite (g : ChessGame) :
    (g.updateGameState).kingWhite = g.kingWhite := rfl

theorem updateGameState_kingBlack (g : ChessGame) :
    (g.updateGameState).kingBlack = g.kingBlack := rfl

theorem makeMoveRecord_board (g : ChessGame) (fp : ChessPiece) (san : String)
    (fr fc tr tc : Int) (cap : Option ChessPiece) :
    (g.makeMoveRecord fp san fr fc tr tc cap).board = g.board := by
  unfold ChessGame.makeMoveRecord
  dsimp only
  split <;> rfl

theorem makeMoveRecord_kingWhite (g : ChessGame) (fp : ChessPiece) (san : String)
    (fr fc tr tc : Int) (cap : Option ChessPiece) :
    (g.makeMoveRecord fp san fr fc tr tc cap).kingWhite = g.kingWhite := by
  unfold ChessGame.makeMoveRecord
  dsimp only
  split <;> rfl

theorem makeMoveRecord_kingBlack (g : ChessGame) (fp : ChessPiece) (san : String)
    (fr fc tr tc : Int) (cap : Option ChessPiece) :
    (g.makeMoveRecord fp san fr fc tr tc cap).kingBlack = g.kingBlack := by
  unfold ChessGame.makeMoveRecord
  dsimp only
  split <;> rfl

theorem makeMoveCapture_board (g : ChessGame) (piece : ChessPiece) (tr tc : Int) :
    ((g.makeMoveCapture piece tr tc).2).board =
      if piece.type = PAWN ∧ g.getPieceAt tr tc = none ∧ g.enPassantTarget = some (tr, tc)
      then setCell g.board (if piece.color = WHITE then tr + 1 else tr - 1) tc none
      else g.board := by
  unfold ChessGame.makeMoveCapture ChessGame.pushCaptured
  dsimp only
  by_cases hep : piece.type = PAWN ∧ g.getPieceAt tr tc = none ∧
      g.enPassantTarget = some (tr, tc)
  · rw [if_pos hep]
    rw [if_pos hep]
    rw [if_pos hep]
    repeat' split
    all_goals rfl
  · rw [if_neg hep]
    rw [if_neg hep]
    rw [if_neg hep]
    repeat' split
    all_goals rfl

theorem makeMoveCapture_kingWhite (g : ChessGame) (piece : ChessPiece) (tr tc : Int) :
    ((g.makeMoveCapture piece tr tc).2).kingWhite = g.kingWhite := by
  unfold ChessGame.makeMoveCapture ChessGame.pushCaptured
  dsimp only
  repeat' split
  all_goals rfl

theorem makeMoveCapture_kingBlack (g : ChessGame) (piece : ChessPiece) (tr tc : Int) :
    ((g.makeMoveCapture piece tr tc).2).kingBlack = g.kingBlack := by
  unfold ChessGame.makeMoveCapture ChessGame.pushCaptured
  dsimp only
  repeat' split
  all_goals rfl

theorem makeMoveBoard_board_noCastle (g : ChessGame) (piece fp : ChessPiece)
    (fr fc tr tc : Int) (h : ¬(fp.type = KING ∧ (tc - fc).natAbs = 2)) :
    (g.makeMoveBoard piece fp fr fc tr tc).board =
      setCell (setCell g.board tr tc (some fp)) fr fc none := by
  unfold ChessGame.makeMoveBoard ChessGame.setKingPos
  dsimp only
  rw [if_neg h]
  repeat' split
  all_goals rfl

theorem makeMoveBoard_kings_nonking (g : ChessGame) (piece fp : ChessPiece)
    (fr fc tr tc : Int) (h : ¬piece.type = KING) :
    (g.makeMoveBoard piece fp fr fc tr tc).kingWhite = g.kingWhite ∧
      (g.makeMoveBoard piece fp fr fc tr tc).kingBlack = g.kingBlack := by
  unfold ChessGame.makeMoveBoard ChessGame.handleCastling ChessGame.setKingPos
  dsimp only
  rw [if_neg h]
  constructor
  all_goals repeat' split
  all_goals rfl

theorem setKingPos_kingPositionsAt_self (g : ChessGame) (c : Color) (sq : Square) :
    (g.setKingPos c sq).kingPositionsAt c = sq := by
  cases c <;> rfl

theorem setKingPos_kingPositionsAt_other (g : ChessGame) (c : Color) (sq : Square) :
    (g.setKingPos c sq).kingPositionsAt c.other = g.kingPositionsAt c.other := by
  cases c <;> rfl

theorem kingPositionsAt_set_ep (g : ChessGame) (e : Option Square) (c : Color) :
    ({ g with enPassantTarget := e } : ChessGame).kingPositionsAt c = g.kingPositionsAt c := by
  cases c <;> rfl

theorem handleCastling_kingPositionsAt (g : ChessGame) (fr fc tr tc : Int) (c : Color) :
    (g.handleCastling fr fc tr tc).kingPositionsAt c = g.kingPositionsAt c := by
  unfold ChessGame.handleCastling
  dsimp only
  split
  · cases c <;> rfl
  · rfl

theorem makeMoveBoard_kings_king (g : ChessGame) (piece fp : ChessPiece)
    (fr fc tr tc : Int) (h : piece.type = KING) :
    (g.makeMoveBoard piece fp fr fc tr tc).kingPositionsAt piece.color = (tr, tc) ∧
      (g.makeMoveBoard piece fp fr fc tr tc).kingPositionsAt piece.color.other =
        g.kingPositionsAt piece.color.other := by
  unfold ChessGame.makeMoveBoard
  dsimp only
  rw [if_pos h]
  constructor
  · split
    · rw [kingPositionsAt_set_ep]
      split
      · rw [handleCastling_kingPositionsAt]
        exact setKingPos_kingPositionsAt_self _ _ _
      · exact setKingPos_kingPositionsAt_self _ _ _
    · rw [kingPositionsAt_set_ep]
      split
      · rw [handleCastling_kingPositionsAt]
        exact setKingPos_kingPositionsAt_self _ _ _
      · exact setKingPos_kingPositionsAt_self _ _ _
  · split
    · rw [kingPositionsAt_set_ep]
      split
      · rw [handleCastling_kingPositionsAt]
        exact setKingPos_kingPositionsAt_other _ _ _
      · exact setKingPos_kingPositionsAt_other _ _ _
    · rw [kingPositionsAt_set_ep]
      split
      · rw [handleCastling_kingPositionsAt]
        exact setKingPos_kingPositionsAt_other _ _ _
      · exact setKingPos_kingPositionsAt_other _ _ _

/-- `KingConsistentFor` depends only on the board and the two king-position
fields. -/
theorem kingConsistentFor_congr (g1 g2 : ChessGame) (color : Color)
    (hb : g1.board = g2.board) (hw : g1.kingWhite = g2.kingWhite)
    (hbk : g1.kingBlack = g2.kingBlack)
    (h : KingConsistentFor g2 color) : KingConsistentFor g1 color := by
  have hkp : g1.kingPositionsAt color = g2.kingPositionsAt color := by
    cases color
    · exact hw
    · exact hbk
  have hkc : ∀ r c2, isKingCell g1 color r c2 = isKingCell g2 color r c2 := by
    intro r c2
    unfold isKingCell
    rw [hb]
  obtain ⟨ha, hbb, hu⟩ := h
  refine ⟨by rw [hkp]; exact ha, ?_, ?_⟩
  · rw [hkp, hkc]
    exact hbb
  · intro rc hrc hk
    rw [hkp]
    exact hu rc hrc (by rw [← hkc]; exact hk)


theorem getPieceAt_board_congr (g1 g2 : ChessGame) (h : g1.board = g2.board)
    (r c : Int) : g1.getPieceAt r c = g2.getPieceAt r c := by
  unfold ChessGame.getPieceAt
  rw [h]

theorem handleCastling_board (g : ChessGame) (fr fc tr tc : Int) :
    (g.handleCastling fr fc tr tc).board =
      match g.getPieceAt fr (if tc > fc then (7 : Int) else 0) with
      | some rook =>
        setCell (setCell g.board fr (if tc > fc then (5 : Int) else 3) (some { rook with row := fr, col := (if tc > fc then (5 : Int) else 3), hasMoved := true })) fr (if tc > fc then (7 : Int) else 0) none
      | none => g.board := by
  unfold ChessGame.handleCastling
  dsimp only
  split <;> rfl

theorem handleCastling_board_congr (g1 g2 : ChessGame) (h : g1.board = g2.board)
    (fr fc tr tc : Int) :
    (g1.handleCastling fr fc tr tc).board = (g2.handleCastling fr fc tr tc).board := by
  unfold ChessGame.handleCastling
  dsimp only
  rw [getPieceAt_board_congr _ _ h]
  split
  · dsimp only
    rw [h]
  · exact h

theorem makeMoveBoard_board_castle (g : ChessGame) (piece fp : ChessPiece)
    (fr fc tr tc : Int) (h : fp.type = KING ∧ (tc - fc).natAbs = 2) :
    (g.makeMoveBoard piece fp fr fc tr tc).board =
      (({ g with board := setCell (setCell g.board tr tc (some fp)) fr fc none } :
          ChessGame).handleCastling fr fc tr tc).board := by
  unfold ChessGame.makeMoveBoard
  dsimp only
  rw [if_pos h]
  have hbb : (if piece.type = KING then
      ({ g with board := setCell (setCell g.board tr tc (some fp)) fr fc none } :
        ChessGame).setKingPos piece.color (tr, tc)
    else
      { g with board := setCell (setCell g.board tr tc (some fp)) fr fc none }).board =
      ({ g with board := setCell (setCell g.board tr tc (some fp)) fr fc none } :
        ChessGame).board := by
    split
    · exact setKingPos_board _ _ _
    · rfl
  split <;>
  · dsimp only
    exact handleCastling_board_congr _ _ hbb fr fc tr tc


theorem isKingCell_elim (g : ChessGame) (c : Color) (r2 c2 : Int)
    (h : isKingCell g c r2 c2 = true) :
    ∃ q, rawGet g.board r2 c2 = some q ∧ q.type = KING ∧ q.color = c := by
  unfold isKingCell at h
  cases hq : rawGet g.board r2 c2 with
  | none =>
    rw [hq] at h
    exact Bool.noConfusion h
  | some q =>
    rw [hq] at h
    simp only [Bool.and_eq_true, decide_eq_true_eq] at h
    exact ⟨q, rfl, h⟩

theorem isKingCell_intro (g : ChessGame) (c : Color) (r2 c2 : Int) (q : ChessPiece)
    (hq : rawGet g.board r2 c2 = some q) (ht : q.type = KING) (hc : q.color = c) :
    isKingCell g c r2 c2 = true := by
  unfold isKingCell
  rw [hq]
  simp [ht, hc]

theorem isKingCell_none (g : ChessGame) (c : Color) (r2 c2 : Int)
    (hq : rawGet g.board r2 c2 = none) : isKingCell g c r2 c2 = false := by
  unfold isKingCell
  rw [hq]

theorem isKingCell_not_king (g : ChessGame) (c : Color) (r2 c2 : Int) (q : ChessPiece)
    (hq : rawGet g.board r2 c2 = some q) (ht : ¬q.type = KING) :
    isKingCell g c r2 c2 = false := by
  unfold isKingCell
  rw [hq]
  simp [ht]

theorem isKingCell_wrong_color (g : ChessGame) (c : Color) (r2 c2 : Int) (q : ChessPiece)
    (hq : rawGet g.board r2 c2 = some q) (hc : ¬q.color = c) :
    isKingCell g c r2 c2 = false := by
  unfold isKingCell
  rw [hq]
  simp [hc]

theorem isKingCell_cell_congr (g1 g2 : ChessGame) (c : Color) (r2 c2 : Int)
    (h : rawGet g1.board r2 c2 = rawGet g2.board r2 c2) :
    isKingCell g1 c r2 c2 = isKingCell g2 c r2 c2 := by
  unfold isKingCell
  rw [h]

/-- Consistency transfers to a new state when the king-position cache entry is
unchanged and every square either kept its content or holds no king of the
color in either state. -/
theorem kingConsistentFor_of_cells (gNew g : ChessGame) (c : Color)
    (hpre : KingConsistentFor g c)
    (hkp : gNew.kingPositionsAt c = g.kingPositionsAt c)
    (hcell : ∀ rc ∈ allSquares, rawGet gNew.board rc.1 rc.2 = rawGet g.board rc.1 rc.2 ∨
        (isKingCell gNew c rc.1 rc.2 = false ∧ isKingCell g c rc.1 rc.2 = false)) :
    KingConsistentFor gNew c := by
  obtain ⟨ha, hb, hu⟩ := hpre
  refine ⟨by rw [hkp]; exact ha, ?_, ?_⟩
  · rcases hcell (g.kingPositionsAt c) ha with h | ⟨h1, h2⟩
    · rw [hkp, isKingCell_cell_congr gNew g c _ _ h]
      exact hb
    · rw [hb] at h2
      exact Bool.noConfusion h2
  · intro rc hrc hk
    rw [hkp]
    rcases hcell rc hrc with h | ⟨h1, h2⟩
    · exact hu rc hrc (by rw [← isKingCell_cell_congr gNew g c _ _ h]; exact hk)
    · rw [hk] at h1
      exact Bool.noConfusion h1

/-- Consistency of a state whose cache entry points at the one square holding
the king of the color. -/
theorem kingConsistentFor_set (gNew : ChessGame) (c : Color) (dst : Square)
    (hkp : gNew.kingPositionsAt c = dst)
    (hdin : dst ∈ allSquares)
    (hdst : isKingCell gNew c dst.1 dst.2 = true)
    (hcell : ∀ rc ∈ allSquares, rc ≠ dst → isKingCell gNew c rc.1 rc.2 = false) :
    KingConsistentFor gNew c := by
  refine ⟨by rw [hkp]; exact hdin, by rw [hkp]; exact hdst, ?_⟩
  intro rc hrc hk
  rw [hkp]
  by_contra hne
  rw [hcell rc hrc hne] at hk
  exact Bool.noConfusion hk


/-- A successful non-king move (with a non-king final piece) preserves the
consistency of both king-position cache entries. -/
theorem kingsConsistent_step_nonking (g : ChessGame) (piece fp : ChessPiece)
    (fr fc tr tc : Int)
    (hBS : boardShape g.board) (hKC : KingsConsistent g) (hEP : EPSane g)
    (hUH : UnmovedKingsHome g)
    (hp : g.getPieceAt fr fc = some piece)
    (hrw : piece.row = fr) (hcl : piece.col = fc)
    (hcol : piece.color = g.currentPlayer)
    (hnc : g.isInCheck g.currentPlayer.other = false)
    (hmem : (tr, tc) ∈ getPossibleMoves piece g.board (g.moveContext piece))
    (hfpk : ¬fp.type = KING)
    (hk : ¬piece.type = KING) :
    KingsConsistent ((g.makeMoveCapture piece tr tc).2.makeMoveBoard piece fp fr fc tr tc) := by
  have hinf : inB fr fc := getPieceAt_inB g fr fc piece hp
  have hpr : rawGet g.board fr fc = some piece := getPieceAt_eq_rawGet g fr fc piece hp
  have hGCb := makeMoveCapture_board g piece tr tc
  have hGCw := makeMoveCapture_kingWhite g piece tr tc
  have hGCk := makeMoveCapture_kingBlack g piece tr tc
  have hGBb := makeMoveBoard_board_noCastle (g.makeMoveCapture piece tr tc).2 piece fp
    fr fc tr tc (fun hh => hfpk hh.1)
  have hGBkings := makeMoveBoard_kings_nonking (g.makeMoveCapture piece tr tc).2 piece fp
    fr fc tr tc hk
  -- the capture step changes at most the en-passant-captured pawn cell
  have hGC_at : ∀ r2 c2 : Int,
      rawGet ((g.makeMoveCapture piece tr tc).2).board r2 c2 = rawGet g.board r2 c2 ∨
        (rawGet ((g.makeMoveCapture piece tr tc).2).board r2 c2 = none ∧
          ∃ pw, rawGet g.board r2 c2 = some pw ∧ pw.type = PAWN) := by
    intro r2 c2
    by_cases hep : piece.type = PAWN ∧ g.getPieceAt tr tc = none ∧
        g.enPassantTarget = some (tr, tc)
    · rw [if_pos hep] at hGCb
      have hEP2 := hEP
      unfold EPSane at hEP2
      rw [hep.2.2] at hEP2
      have hpw := hEP2.2
      rw [← hcol] at hpw
      cases hpwc : rawGet g.board (if piece.color = WHITE then tr + 1 else tr - 1) tc with
      | none =>
        rw [hpwc] at hpw
        exact absurd hpw id
      | some pw =>
        rw [hpwc] at hpw
        by_cases hcc : (if piece.color = WHITE then tr + 1 else tr - 1) = r2 ∧ tc = c2
        · right
          have hcin : inB (if piece.color = WHITE then tr + 1 else tr - 1) tc :=
            rawGet_some_inB _ _ _ _ ⟨hBS.1, hBS.2⟩ hpwc
          rw [hGCb, ← hcc.1, ← hcc.2]
          refine ⟨rawGet_setCell_self _ _ _ _ hBS hcin, pw, hpwc, hpw.1⟩
        · left
          rw [hGCb]
          exact rawGet_setCell_ne _ _ _ _ _ _ hcc
    · left
      rw [if_neg hep] at hGCb
      rw [hGCb]
  have hGCbS : boardShape ((g.makeMoveCapture piece tr tc).2).board := by
    rw [hGCb]
    by_cases hep : piece.type = PAWN ∧ g.getPieceAt tr tc = none ∧
        g.enPassantTarget = some (tr, tc)
    · rw [if_pos hep]
      exact boardShape_setCell _ _ _ _ hBS
    · rw [if_neg hep]
      exact hBS
  have hshape2 : boardShape (setCell ((g.makeMoveCapture piece tr tc).2).board tr tc (some fp)) :=
    boardShape_setCell _ _ _ _ hGCbS
  have hkp : ∀ c2 : Color,
      ((g.makeMoveCapture piece tr tc).2.makeMoveBoard piece fp fr fc tr tc).kingPositionsAt c2 =
        g.kingPositionsAt c2 := by
    intro c2
    cases c2
    · show ((g.makeMoveCapture piece tr tc).2.makeMoveBoard piece fp fr fc tr tc).kingWhite =
        g.kingWhite
      rw [hGBkings.1, hGCw]
    · show ((g.makeMoveCapture piece tr tc).2.makeMoveBoard piece fp fr fc tr tc).kingBlack =
        g.kingBlack
      rw [hGBkings.2, hGCk]
  have hcell : ∀ c2 : Color, ∀ rc ∈ allSquares,
      rawGet ((g.makeMoveCapture piece tr tc).2.makeMoveBoard piece fp fr fc tr tc).board
          rc.1 rc.2 = rawGet g.board rc.1 rc.2 ∨
        (isKingCell ((g.makeMoveCapture piece tr tc).2.makeMoveBoard piece fp fr fc tr tc)
            c2 rc.1 rc.2 = false ∧ isKingCell g c2 rc.1 rc.2 = false) := by
    intro c2 rc hrc
    have hrcin : inB rc.1 rc.2 := (mem_allSquares rc.1 rc.2).mp hrc
    by_cases h1 : rc.1 = fr ∧ rc.2 = fc
    · right
      have hnew : rawGet ((g.makeMoveCapture piece tr tc).2.makeMoveBoard piece fp
          fr fc tr tc).board rc.1 rc.2 = none := by
        rw [hGBb, h1.1, h1.2]
        exact rawGet_setCell_self _ _ _ _ hshape2 hinf
      refine ⟨isKingCell_none _ _ _ _ hnew, isKingCell_not_king _ _ _ _ piece ?_ hk⟩
      rw [h1.1, h1.2]
      exact hpr
    · by_cases h2 : rc.1 = tr ∧ rc.2 = tc
      · right
        have hnew : rawGet ((g.makeMoveCapture piece tr tc).2.makeMoveBoard piece fp
            fr fc tr tc).board rc.1 rc.2 = some fp := by
          rw [hGBb]
          rw [rawGet_setCell_ne _ _ _ _ _ _ (fun hh => h1 ⟨hh.1.symm, hh.2.symm⟩)]
          rw [h2.1, h2.2]
          exact rawGet_setCell_self _ _ _ _ hGCbS (by rw [← h2.1, ← h2.2]; exact hrcin)
        refine ⟨isKingCell_not_king _ _ _ _ fp hnew hfpk, ?_⟩
        cases hold : rawGet g.board rc.1 rc.2 with
        | none => exact isKingCell_none _ _ _ _ hold
        | some q =>
          refine isKingCell_not_king _ _ _ _ q hold ?_
          intro hqk
          exact no_king_at_target g piece q fr fc tr tc hBS hKC hEP hUH hp hrw hcl hcol
            hnc hmem (by rw [← h2.1, ← h2.2]; exact hold) hqk
      · have hmid : rawGet ((g.makeMoveCapture piece tr tc).2.makeMoveBoard piece fp
            fr fc tr tc).board rc.1 rc.2 =
            rawGet ((g.makeMoveCapture piece tr tc).2).board rc.1 rc.2 := by
          rw [hGBb]
          rw [rawGet_setCell_ne _ _ _ _ _ _ (fun hh => h1 ⟨hh.1.symm, hh.2.symm⟩)]
          exact rawGet_setCell_ne _ _ _ _ _ _ (fun hh => h2 ⟨hh.1.symm, hh.2.symm⟩)
        rcases hGC_at rc.1 rc.2 with h | ⟨hnone, pw, hpw, hpwt⟩
        · left
          rw [hmid, h]
        · right
          refine ⟨isKingCell_none _ _ _ _ (by rw [hmid]; exact hnone),
            isKingCell_not_king _ _ _ _ pw hpw (by rw [hpwt]; intro hh; exact PieceType.noConfusion hh)⟩
  exact ⟨kingConsistentFor_of_cells _ g WHITE hKC.1 (hkp WHITE) (hcell WHITE),
    kingConsistentFor_of_cells _ g BLACK hKC.2 (hkp BLACK) (hcell BLACK)⟩


/-- A successful one-step king move updates the mover's cache entry to the
target square and preserves consistency for both colors. -/
theorem kingsConsistent_step_kingmove (g : ChessGame) (piece fp : ChessPiece)
    (fr fc tr tc : Int)
    (hBS : boardShape g.board) (hKC : KingsConsistent g) (hEP : EPSane g)
    (hUH : UnmovedKingsHome g)
    (hp : g.getPieceAt fr fc = some piece)
    (hrw : piece.row = fr) (hcl : piece.col = fc)
    (hcol : piece.color = g.currentPlayer)
    (hnc : g.isInCheck g.currentPlayer.other = false)
    (hmem : (tr, tc) ∈ getPossibleMoves piece g.board (g.moveContext piece))
    (hfpc : fp.color = piece.color)
    (hfpk : fp.type = KING)
    (hk : piece.type = KING)
    (hncast : ¬(tc - fc).natAbs = 2) :
    KingsConsistent ((g.makeMoveCapture piece tr tc).2.makeMoveBoard piece fp fr fc tr tc) := by
  have hinf : inB fr fc := getPieceAt_inB g fr fc piece hp
  have hfin : ((fr, fc) : Square) ∈ allSquares := (mem_allSquares fr fc).mpr hinf
  have hpr : rawGet g.board fr fc = some piece := getPieceAt_eq_rawGet g fr fc piece hp
  have hepF : ¬(piece.type = PAWN ∧ g.getPieceAt tr tc = none ∧
      g.enPassantTarget = some (tr, tc)) := by
    intro hh
    rw [hk] at hh
    exact PieceType.noConfusion hh.1
  have hGCb := makeMoveCapture_board g piece tr tc
  rw [if_neg hepF] at hGCb
  have hGCw := makeMoveCapture_kingWhite g piece tr tc
  have hGCk := makeMoveCapture_kingBlack g piece tr tc
  have hGBb := makeMoveBoard_board_noCastle (g.makeMoveCapture piece tr tc).2 piece fp
    fr fc tr tc (fun hh => hncast hh.2)
  rw [hGCb] at hGBb
  have hGBkings := makeMoveBoard_kings_king (g.makeMoveCapture piece tr tc).2 piece fp
    fr fc tr tc hk
  have hGCkp : ∀ c2 : Color, ((g.makeMoveCapture piece tr tc).2).kingPositionsAt c2 =
      g.kingPositionsAt c2 := by
    intro c2
    cases c2
    · exact hGCw
    · exact hGCk
  have hshape2 : boardShape (setCell g.board tr tc (some fp)) :=
    boardShape_setCell _ _ _ _ hBS
  -- the move is a normal one-step entry
  have hmem2 : (tr, tc) ∈ getKingMoves g.board piece
      ((g.moveContext piece).canCastleKingSide) ((g.moveContext piece).canCastleQueenSide) := by
    unfold getPossibleMoves at hmem
    rw [hk] at hmem
    exact hmem
  rcases kingMoves_elim g.board piece _ _ (tr, tc) hmem2 with
    ⟨hatk, hin, ⟨o, ho, hoe⟩, hocc⟩ | ⟨hnm2, hc42, hd⟩
  swap
  · exfalso
    rcases hd with ⟨he, -⟩ | ⟨he, -⟩ <;>
    · rw [Prod.mk.injEq] at he
      rw [← hcl] at hncast
      rw [hc42, he.2] at hncast
      exact hncast (by decide)
  have hne_ft : ¬(fr = tr ∧ fc = tc) := by
    rw [Prod.mk.injEq] at hoe
    have hof := kingOffsets_facts o ho
    intro hh
    rw [hrw, hcl] at hoe
    exact hof.1 ⟨by omega, by omega⟩
  have hnew_t : rawGet ((g.makeMoveCapture piece tr tc).2.makeMoveBoard piece fp
      fr fc tr tc).board tr tc = some fp := by
    rw [hGBb]
    rw [rawGet_setCell_ne _ _ _ _ _ _ (fun hh => hne_ft ⟨hh.1, hh.2⟩)]
    exact rawGet_setCell_self _ _ _ _ hBS hin
  have hnew_f : rawGet ((g.makeMoveCapture piece tr tc).2.makeMoveBoard piece fp
      fr fc tr tc).board fr fc = none := by
    rw [hGBb]
    exact rawGet_setCell_self _ _ _ _ hshape2 hinf
  have hmid : ∀ r2 c2 : Int, ¬(r2 = fr ∧ c2 = fc) → ¬(r2 = tr ∧ c2 = tc) →
      rawGet ((g.makeMoveCapture piece tr tc).2.makeMoveBoard piece fp
        fr fc tr tc).board r2 c2 = rawGet g.board r2 c2 := by
    intro r2 c2 h1 h2
    rw [hGBb]
    rw [rawGet_setCell_ne _ _ _ _ _ _ (fun hh => h1 ⟨hh.1.symm, hh.2.symm⟩)]
    exact rawGet_setCell_ne _ _ _ _ _ _ (fun hh => h2 ⟨hh.1.symm, hh.2.symm⟩)
  have hKf : ((fr, fc) : Square) = g.kingPositionsAt piece.color :=
    (kingConsistentFor_of g hKC piece.color).2.2 (fr, fc) hfin
      (isKingCell_intro g piece.color fr fc piece hpr hk rfl)
  -- mover's entry: set to the target square
  have hMover : KingConsistentFor
      ((g.makeMoveCapture piece tr tc).2.makeMoveBoard piece fp fr fc tr tc) piece.color := by
    refine kingConsistentFor_set _ piece.color (tr, tc) hGBkings.1
      ((mem_allSquares tr tc).mpr hin)
      (isKingCell_intro _ piece.color tr tc fp hnew_t hfpk hfpc) ?_
    intro rc hrc hne
    by_cases h1 : rc.1 = fr ∧ rc.2 = fc
    · refine isKingCell_none _ _ _ _ ?_
      rw [h1.1, h1.2]
      exact hnew_f
    · have h2 : ¬(rc.1 = tr ∧ rc.2 = tc) := by
        intro hh
        exact hne (by rw [← hh.1, ← hh.2])
      rw [isKingCell_cell_congr _ g piece.color rc.1 rc.2 (hmid rc.1 rc.2 h1 h2)]
      cases hv : isKingCell g piece.color rc.1 rc.2 with
      | false => rfl
      | true =>
        exfalso
        have hrceq := (kingConsistentFor_of g hKC piece.color).2.2 rc hrc hv
        rw [← hKf] at hrceq
        exact h1 ⟨by rw [hrceq], by rw [hrceq]⟩
  -- opponent's entry: untouched cells modulo non-king contents
  have hOpp : KingConsistentFor
      ((g.makeMoveCapture piece tr tc).2.makeMoveBoard piece fp fr fc tr tc)
      piece.color.other := by
    refine kingConsistentFor_of_cells _ g piece.color.other
      (kingConsistentFor_of g hKC piece.color.other)
      (by rw [hGBkings.2, hGCkp]) ?_
    intro rc hrc
    have hnotopp : ¬piece.color = piece.color.other := fun hh =>
      Color.other_ne piece.color hh.symm
    by_cases h1 : rc.1 = fr ∧ rc.2 = fc
    · right
      refine ⟨isKingCell_none _ _ _ _ (by rw [h1.1, h1.2]; exact hnew_f),
        isKingCell_wrong_color _ _ _ _ piece (by rw [h1.1, h1.2]; exact hpr) hnotopp⟩
    · by_cases h2 : rc.1 = tr ∧ rc.2 = tc
      · right
        refine ⟨isKingCell_wrong_color _ _ _ _ fp
          (by rw [h2.1, h2.2]; exact hnew_t) (by rw [hfpc]; exact hnotopp), ?_⟩
        cases hold : rawGet g.board rc.1 rc.2 with
        | none => exact isKingCell_none _ _ _ _ hold
        | some q =>
          refine isKingCell_not_king _ _ _ _ q hold ?_
          intro hqk
          exact no_king_at_target g piece q fr fc tr tc hBS hKC hEP hUH hp hrw hcl hcol
            hnc hmem (by rw [← h2.1, ← h2.2]; exact hold) hqk
      · left
        exact hmid rc.1 rc.2 h1 h2
  cases hcc2 : piece.color with
  | WHITE =>
    rw [hcc2] at hMover hOpp
    exact ⟨hMover, hOpp⟩
  | BLACK =>
    rw [hcc2] at hMover hOpp
    exact ⟨hOpp, hMover⟩


/-- A successful castling move relocates king and rook and keeps both cache
entries consistent. -/
theorem kingsConsistent_step_castle (g : ChessGame) (piece fp : ChessPiece)
    (fr fc tr tc : Int)
    (hBS : boardShape g.board) (hKC : KingsConsistent g) (hEP : EPSane g)
    (hUH : UnmovedKingsHome g)
    (hp : g.getPieceAt fr fc = some piece)
    (hrw : piece.row = fr) (hcl : piece.col = fc)
    (hcol : piece.color = g.currentPlayer)
    (hnc : g.isInCheck g.currentPlayer.other = false)
    (hmem : (tr, tc) ∈ getPossibleMoves piece g.board (g.moveContext piece))
    (hfpc : fp.color = piece.color)
    (hfpk : fp.type = KING)
    (hk : piece.type = KING)
    (hcast : (tc - fc).natAbs = 2) :
    KingsConsistent ((g.makeMoveCapture piece tr tc).2.makeMoveBoard piece fp fr fc tr tc) := by
  have hinf : inB fr fc := getPieceAt_inB g fr fc piece hp
  have hfin : ((fr, fc) : Square) ∈ allSquares := (mem_allSquares fr fc).mpr hinf
  have hpr : rawGet g.board fr fc = some piece := getPieceAt_eq_rawGet g fr fc piece hp
  have hepF : ¬(piece.type = PAWN ∧ g.getPieceAt tr tc = none ∧
      g.enPassantTarget = some (tr, tc)) := by
    intro hh
    rw [hk] at hh
    exact PieceType.noConfusion hh.1
  have hGCb := makeMoveCapture_board g piece tr tc
  rw [if_neg hepF] at hGCb
  have hGCw := makeMoveCapture_kingWhite g piece tr tc
  have hGCk := makeMoveCapture_kingBlack g piece tr tc
  have hGCkp : ∀ c2 : Color, ((g.makeMoveCapture piece tr tc).2).kingPositionsAt c2 =
      g.kingPositionsAt c2 := by
    intro c2
    cases c2
    · exact hGCw
    · exact hGCk
  have hGBkings := makeMoveBoard_kings_king (g.makeMoveCapture piece tr tc).2 piece fp
    fr fc tr tc hk
  have hGBb := makeMoveBoard_board_castle (g.makeMoveCapture piece tr tc).2 piece fp
    fr fc tr tc ⟨hfpk, hcast⟩
  rw [hGCb] at hGBb
  -- membership must come from the castling entries
  have hmem2 : (tr, tc) ∈ getKingMoves g.board piece
      ((g.moveContext piece).canCastleKingSide) ((g.moveContext piece).canCastleQueenSide) := by
    unfold getPossibleMoves at hmem
    rw [hk] at hmem
    exact hmem
  rcases kingMoves_elim g.board piece _ _ (tr, tc) hmem2 with
    ⟨hatk, hin, ⟨o, ho, hoe⟩, hocc⟩ | ⟨hnm2, hc42, hd⟩
  · exfalso
    rw [Prod.mk.injEq] at hoe
    have hof := kingOffsets_facts o ho
    rw [hcl] at hoe
    omega
  -- home square of the unmoved king
  have hhome0 := hUH (fr, fc) hfin
  simp only at hhome0
  rw [hpr] at hhome0
  have hhome : ((fr, fc) : Square) =
      (if piece.color = WHITE then (((7 : Int), (4 : Int)) : Square)
       else (((0 : Int), (4 : Int)) : Square)) := hhome0 hk hnm2
  have hhome' : fr = (if piece.color = WHITE then (7 : Int) else 0) ∧ fc = (4 : Int) := by
    by_cases hw : piece.color = WHITE
    · rw [if_pos hw] at hhome
      rw [if_pos hw]
      rw [Prod.mk.injEq] at hhome
      exact hhome
    · rw [if_neg hw] at hhome
      rw [if_neg hw]
      rw [Prod.mk.injEq] at hhome
      exact hhome
  have hfc4 : fc = (4 : Int) := hhome'.2
  have hnotopp : ¬piece.color = piece.color.other := fun hh =>
    Color.other_ne piece.color hh.symm
  have hKf : ((fr, fc) : Square) = g.kingPositionsAt piece.color :=
    (kingConsistentFor_of g hKC piece.color).2.2 (fr, fc) hfin
      (isKingCell_intro g piece.color fr fc piece hpr hk rfl)
  rcases hd with ⟨he, hflag⟩ | ⟨he, hflag⟩
  · -- king side
    rw [Prod.mk.injEq] at he
    have htr : fr = tr := (he.1.trans hrw).symm
    have htc : tc = (6 : Int) := he.2
    subst htr
    subst htc
    subst hfc4
    have hcc : g.canCastle piece.color true = true := by
      have h2 : (if piece.type = KING then g.canCastle piece.color true else false) = true :=
        hflag
      rw [if_pos hk] at h2
      exact h2
    obtain ⟨rook, hr7, hrt, h5, h6⟩ := canCastle_true_elim g piece.color hcc
    rw [← hhome'.1] at hr7 h5 h6
    have hin5 : inB fr 5 := ⟨hinf.1, hinf.2.1, by norm_num, by norm_num⟩
    have hin6 : inB fr 6 := ⟨hinf.1, hinf.2.1, by norm_num, by norm_num⟩
    have hin7 : inB fr 7 := ⟨hinf.1, hinf.2.1, by norm_num, by norm_num⟩
    have hr7' : rawGet g.board fr 7 = some rook := by
      rw [← getPieceAt_of_inB g _ _ hin7]
      exact hr7
    have h5' : rawGet g.board fr 5 = none := by
      rw [← getPieceAt_of_inB g _ _ hin5]
      exact h5
    have h6' : rawGet g.board fr 6 = none := by
      rw [← getPieceAt_of_inB g _ _ hin6]
      exact h6
    have hs1 : boardShape (setCell g.board fr 6 (some fp)) := boardShape_setCell _ _ _ _ hBS
    have hs2 : boardShape (setCell (setCell g.board fr 6 (some fp)) fr 4 none) :=
      boardShape_setCell _ _ _ _ hs1
    have hs3 : boardShape (setCell (setCell (setCell g.board fr 6 (some fp)) fr 4 none) fr 5
        (some { rook with row := fr, col := 5, hasMoved := true })) :=
      boardShape_setCell _ _ _ _ hs2
    have hFSb : ((g.makeMoveCapture piece fr 6).2.makeMoveBoard piece fp fr 4 fr 6).board =
        setCell (setCell (setCell (setCell g.board fr 6 (some fp)) fr 4 none) fr 5
          (some { rook with row := fr, col := 5, hasMoved := true })) fr 7 none := by
      rw [hGBb]
      rw [handleCastling_board]
      rw [if_pos (by norm_num : (6 : Int) > 4)]
      have hg1p : (({ (g.makeMoveCapture piece fr 6).2 with
          board := setCell (setCell g.board fr 6 (some fp)) fr 4 none } :
          ChessGame).getPieceAt fr 7) = some rook := by
        rw [getPieceAt_of_inB _ _ _ hin7]
        show rawGet (setCell (setCell g.board fr 6 (some fp)) fr 4 none) fr 7 = some rook
        rw [rawGet_setCell_ne _ _ _ _ _ _ (by norm_num)]
        rw [rawGet_setCell_ne _ _ _ _ _ _ (by norm_num)]
        exact hr7'
      rw [hg1p]
      rw [if_pos (by norm_num : (6 : Int) > 4)]
    have h_at6 : rawGet ((g.makeMoveCapture piece fr 6).2.makeMoveBoard piece fp
        fr 4 fr 6).board fr 6 = some fp := by
      rw [hFSb]
      rw [rawGet_setCell_ne _ _ _ _ _ _ (by norm_num)]
      rw [rawGet_setCell_ne _ _ _ _ _ _ (by norm_num)]
      rw [rawGet_setCell_ne _ _ _ _ _ _ (by norm_num)]
      exact rawGet_setCell_self _ _ _ _ hBS hin6
    have h_at4 : rawGet ((g.makeMoveCapture piece fr 6).2.makeMoveBoard piece fp
        fr 4 fr 6).board fr 4 = none := by
      rw [hFSb]
      rw [rawGet_setCell_ne _ _ _ _ _ _ (by norm_num)]
      rw [rawGet_setCell_ne _ _ _ _ _ _ (by norm_num)]
      exact rawGet_setCell_self _ _ _ _ hs1 ⟨hinf.1, hinf.2.1, by norm_num, by norm_num⟩
    have h_at5 : rawGet ((g.makeMoveCapture piece fr 6).2.makeMoveBoard piece fp
        fr 4 fr 6).board fr 5 =
        some { rook with row := fr, col := 5, hasMoved := true } := by
      rw [hFSb]
      rw [rawGet_setCell_ne _ _ _ _ _ _ (by norm_num)]
      exact rawGet_setCell_self _ _ _ _ hs2 hin5
    have h_at7 : rawGet ((g.makeMoveCapture piece fr 6).2.makeMoveBoard piece fp
        fr 4 fr 6).board fr 7 = none :=
      hFSb ▸ rawGet_setCell_self _ _ _ _ hs3 hin7
    have h_else : ∀ r2 c2 : Int, ¬(r2 = fr ∧ c2 = 6) → ¬(r2 = fr ∧ c2 = 4) →
        ¬(r2 = fr ∧ c2 = 5) → ¬(r2 = fr ∧ c2 = 7) →
        rawGet ((g.makeMoveCapture piece fr 6).2.makeMoveBoard piece fp
          fr 4 fr 6).board r2 c2 = rawGet g.board r2 c2 := by
      intro r2 c2 hn6 hn4 hn5 hn7
      rw [hFSb]
      rw [rawGet_setCell_ne _ _ _ _ _ _ (fun hh => hn7 ⟨hh.1.symm, hh.2.symm⟩)]
      rw [rawGet_setCell_ne _ _ _ _ _ _ (fun hh => hn5 ⟨hh.1.symm, hh.2.symm⟩)]
      rw [rawGet_setCell_ne _ _ _ _ _ _ (fun hh => hn4 ⟨hh.1.symm, hh.2.symm⟩)]
      exact rawGet_setCell_ne _ _ _ _ _ _ (fun hh => hn6 ⟨hh.1.symm, hh.2.symm⟩)
    have hRt : ({ rook with row := fr, col := 5, hasMoved := true } : ChessPiece).type =
        ROOK := hrt
    have hMover : KingConsistentFor
        ((g.makeMoveCapture piece fr 6).2.makeMoveBoard piece fp fr 4 fr 6) piece.color := by
      refine kingConsistentFor_set _ piece.color (fr, 6) hGBkings.1
        ((mem_allSquares fr 6).mpr hin6)
        (isKingCell_intro _ piece.color fr 6 fp h_at6 hfpk hfpc) ?_
      intro rc hrc hne
      by_cases h4 : rc.1 = fr ∧ rc.2 = 4
      · exact isKingCell_none _ _ _ _ (by rw [h4.1, h4.2]; exact h_at4)
      · by_cases h5c : rc.1 = fr ∧ rc.2 = 5
        · refine isKingCell_not_king _ _ _ _ _ (by rw [h5c.1, h5c.2]; exact h_at5) ?_
          rw [hRt]
          intro hh
          exact PieceType.noConfusion hh
        · by_cases h7 : rc.1 = fr ∧ rc.2 = 7
          · exact isKingCell_none _ _ _ _ (by rw [h7.1, h7.2]; exact h_at7)
          · have h6c : ¬(rc.1 = fr ∧ rc.2 = 6) := by
              intro hh
              exact hne (by rw [← hh.1, ← hh.2])
            rw [isKingCell_cell_congr _ g piece.color rc.1 rc.2
              (h_else rc.1 rc.2 h6c h4 h5c h7)]
            cases hv : isKingCell g piece.color rc.1 rc.2 with
            | false => rfl
            | true =>
              exfalso
              have hrceq := (kingConsistentFor_of g hKC piece.color).2.2 rc hrc hv
              rw [← hKf] at hrceq
              exact h4 ⟨by rw [hrceq], by rw [hrceq]⟩
    have hOpp : KingConsistentFor
        ((g.makeMoveCapture piece fr 6).2.makeMoveBoard piece fp fr 4 fr 6)
        piece.color.other := by
      refine kingConsistentFor_of_cells _ g piece.color.other
        (kingConsistentFor_of g hKC piece.color.other)
        (by rw [hGBkings.2, hGCkp]) ?_
      intro rc hrc
      by_cases h4 : rc.1 = fr ∧ rc.2 = 4
      · right
        refine ⟨isKingCell_none _ _ _ _ (by rw [h4.1, h4.2]; exact h_at4),
          isKingCell_wrong_color _ _ _ _ piece (by rw [h4.1, h4.2]; exact hpr) hnotopp⟩
      · by_cases h5c : rc.1 = fr ∧ rc.2 = 5
        · right
          refine ⟨?_, isKingCell_none _ _ _ _ (by rw [h5c.1, h5c.2]; exact h5')⟩
          refine isKingCell_not_king _ _ _ _ _ (by rw [h5c.1, h5c.2]; exact h_at5) ?_
          rw [hRt]
          intro hh
          exact PieceType.noConfusion hh
        · by_cases h7 : rc.1 = fr ∧ rc.2 = 7
          · right
            refine ⟨isKingCell_none _ _ _ _ (by rw [h7.1, h7.2]; exact h_at7),
              isKingCell_not_king _ _ _ _ rook (by rw [h7.1, h7.2]; exact hr7') ?_⟩
            rw [hrt]
            intro hh
            exact PieceType.noConfusion hh
          · by_cases h6c : rc.1 = fr ∧ rc.2 = 6
            · right
              refine ⟨isKingCell_wrong_color _ _ _ _ fp
                (by rw [h6c.1, h6c.2]; exact h_at6) (by rw [hfpc]; exact hnotopp),
                isKingCell_none _ _ _ _ (by rw [h6c.1, h6c.2]; exact h6')⟩
            · left
              exact h_else rc.1 rc.2 h6c h4 h5c h7
    cases hcc2 : piece.color with
    | WHITE =>
      rw [hcc2] at hMover hOpp
      exact ⟨hMover, hOpp⟩
    | BLACK =>
      rw [hcc2] at hMover hOpp
      exact ⟨hOpp, hMover⟩
  · -- queen side
    rw [Prod.mk.injEq] at he
    have htr : fr = tr := (he.1.trans hrw).symm
    have htc : tc = (2 : Int) := he.2
    subst htr
    subst htc
    subst hfc4
    have hcc : g.canCastle piece.color false = true := by
      have h2 : (if piece.type = KING then g.canCastle piece.color false else false) = true :=
        hflag
      rw [if_pos hk] at h2
      exact h2
    obtain ⟨rook, hr0, hrt, hb1, hb2, hb3⟩ := canCastle_false_elim g piece.color hcc
    rw [← hhome'.1] at hr0 hb1 hb2 hb3
    have hin0 : inB fr 0 := ⟨hinf.1, hinf.2.1, by norm_num, by norm_num⟩
    have hin2 : inB fr 2 := ⟨hinf.1, hinf.2.1, by norm_num, by norm_num⟩
    have hin3 : inB fr 3 := ⟨hinf.1, hinf.2.1, by norm_num, by norm_num⟩
    have hr0' : rawGet g.board fr 0 = some rook := by
      rw [← getPieceAt_of_inB g _ _ hin0]
      exact hr0
    have hb2' : rawGet g.board fr 2 = none := by
      rw [← getPieceAt_of_inB g _ _ hin2]
      exact hb2
    have hb3' : rawGet g.board fr 3 = none := by
      rw [← getPieceAt_of_inB g _ _ hin3]
      exact hb3
    have hs1 : boardShape (setCell g.board fr 2 (some fp)) := boardShape_setCell _ _ _ _ hBS
    have hs2 : boardShape (setCell (setCell g.board fr 2 (some fp)) fr 4 none) :=
      boardShape_setCell _ _ _ _ hs1
    have hs3 : boardShape (setCell (setCell (setCell g.board fr 2 (some fp)) fr 4 none) fr 3
        (some { rook with row := fr, col := 3, hasMoved := true })) :=
      boardShape_setCell _ _ _ _ hs2
    have hFSb : ((g.makeMoveCapture piece fr 2).2.makeMoveBoard piece fp fr 4 fr 2).board =
        setCell (setCell (setCell (setCell g.board fr 2 (some fp)) fr 4 none) fr 3
          (some { rook with row := fr, col := 3, hasMoved := true })) fr 0 none := by
      rw [hGBb]
      rw [handleCastling_board]
      rw [if_neg (by norm_num : ¬((2 : Int) > 4))]
      have hg1p : (({ (g.makeMoveCapture piece fr 2).2 with
          board := setCell (setCell g.board fr 2 (some fp)) fr 4 none } :
          ChessGame).getPieceAt fr 0) = some rook := by
        rw [getPieceAt_of_inB _ _ _ hin0]
        show rawGet (setCell (setCell g.board fr 2 (some fp)) fr 4 none) fr 0 = some rook
        rw [rawGet_setCell_ne _ _ _ _ _ _ (by norm_num)]
        rw [rawGet_setCell_ne _ _ _ _ _ _ (by norm_num)]
        exact hr0'
      rw [hg1p]
      rw [if_neg (by norm_num : ¬((2 : Int) > 4))]
    have h_at2 : rawGet ((g.makeMoveCapture piece fr 2).2.makeMoveBoard piece fp
        fr 4 fr 2).board fr 2 = some fp := by
      rw [hFSb]
      rw [rawGet_setCell_ne _ _ _ _ _ _ (by norm_num)]
      rw [rawGet_setCell_ne _ _ _ _ _ _ (by norm_num)]
      rw [rawGet_setCell_ne _ _ _ _ _ _ (by norm_num)]
      exact rawGet_setCell_self _ _ _ _ hBS hin2
    have h_at4 : rawGet ((g.makeMoveCapture piece fr 2).2.makeMoveBoard piece fp
        fr 4 fr 2).board fr 4 = none := by
      rw [hFSb]
      rw [rawGet_setCell_ne _ _ _ _ _ _ (by norm_num)]
      rw [rawGet_setCell_ne _ _ _ _ _ _ (by norm_num)]
      exact rawGet_setCell_self _ _ _ _ hs1 ⟨hinf.1, hinf.2.1, by norm_num, by norm_num⟩
    have h_at3 : rawGet ((g.makeMoveCapture piece fr 2).2.makeMoveBoard piece fp
        fr 4 fr 2).board fr 3 =
        some { rook with row := fr, col := 3, hasMoved := true } := by
      rw [hFSb]
      rw [rawGet_setCell_ne _ _ _ _ _ _ (by norm_num)]
      exact rawGet_setCell_self _ _ _ _ hs2 hin3
    have h_at0 : rawGet ((g.makeMoveCapture piece fr 2).2.makeMoveBoard piece fp
        fr 4 fr 2).board fr 0 = none :=
      hFSb ▸ rawGet_setCell_self _ _ _ _ hs3 hin0
    have h_else : ∀ r2 c2 : Int, ¬(r2 = fr ∧ c2 = 2) → ¬(r2 = fr ∧ c2 = 4) →
        ¬(r2 = fr ∧ c2 = 3) → ¬(r2 = fr ∧ c2 = 0) →
        rawGet ((g.makeMoveCapture piece fr 2).2.makeMoveBoard piece fp
          fr 4 fr 2).board r2 c2 = rawGet g.board r2 c2 := by
      intro r2 c2 hn2 hn4 hn3 hn0
      rw [hFSb]
      rw [rawGet_setCell_ne _ _ _ _ _ _ (fun hh => hn0 ⟨hh.1.symm, hh.2.symm⟩)]
      rw [rawGet_setCell_ne _ _ _ _ _ _ (fun hh => hn3 ⟨hh.1.symm, hh.2.symm⟩)]
      rw [rawGet_setCell_ne _ _ _ _ _ _ (fun hh => hn4 ⟨hh.1.symm, hh.2.symm⟩)]
      exact rawGet_setCell_ne _ _ _ _ _ _ (fun hh => hn2 ⟨hh.1.symm, hh.2.symm⟩)
    have hRt : ({ rook with row := fr, col := 3, hasMoved := true } : ChessPiece).type =
        ROOK := hrt
    have hMover : KingConsistentFor
        ((g.makeMoveCapture piece fr 2).2.makeMoveBoard piece fp fr 4 fr 2) piece.color := by
      refine kingConsistentFor_set _ piece.color (fr, 2) hGBkings.1
        ((mem_allSquares fr 2).mpr hin2)
        (isKingCell_intro _ piece.color fr 2 fp h_at2 hfpk hfpc) ?_
      intro rc hrc hne
      by_cases h4 : rc.1 = fr ∧ rc.2 = 4
      · exact isKingCell_none _ _ _ _ (by rw [h4.1, h4.2]; exact h_at4)
      · by_cases h3c : rc.1 = fr ∧ rc.2 = 3
        · refine isKingCell_not_king _ _ _ _ _ (by rw [h3c.1, h3c.2]; exact h_at3) ?_
          rw [hRt]
          intro hh
          exact PieceType.noConfusion hh
        · by_cases h0 : rc.1 = fr ∧ rc.2 = 0
          · exact isKingCell_none _ _ _ _ (by rw [h0.1, h0.2]; exact h_at0)
          · have h2c : ¬(rc.1 = fr ∧ rc.2 = 2) := by
              intro hh
              exact hne (by rw [← hh.1, ← hh.2])
            rw [isKingCell_cell_congr _ g piece.color rc.1 rc.2
              (h_else rc.1 rc.2 h2c h4 h3c h0)]
            cases hv : isKingCell g piece.color rc.1 rc.2 with
            | false => rfl
            | true =>
              exfalso
              have hrceq := (kingConsistentFor_of g hKC piece.color).2.2 rc hrc hv
              rw [← hKf] at hrceq
              exact h4 ⟨by rw [hrceq], by rw [hrceq]⟩
    have hOpp : KingConsistentFor
        ((g.makeMoveCapture piece fr 2).2.makeMoveBoard piece fp fr 4 fr 2)
        piece.color.other := by
      refine kingConsistentFor_of_cells _ g piece.color.other
        (kingConsistentFor_of g hKC piece.color.other)
        (by rw [hGBkings.2, hGCkp]) ?_
      intro rc hrc
      by_cases h4 : rc.1 = fr ∧ rc.2 = 4
      · right
        refine ⟨isKingCell_none _ _ _ _ (by rw [h4.1, h4.2]; exact h_at4),
          isKingCell_wrong_color _ _ _ _ piece (by rw [h4.1, h4.2]; exact hpr) hnotopp⟩
      · by_cases h3c : rc.1 = fr ∧ rc.2 = 3
        · right
          refine ⟨?_, isKingCell_none _ _ _ _ (by rw [h3c.1, h3c.2]; exact hb3')⟩
          refine isKingCell_not_king _ _ _ _ _ (by rw [h3c.1, h3c.2]; exact h_at3) ?_
          rw [hRt]
          intro hh
          exact PieceType.noConfusion hh
        · by_cases h0 : rc.1 = fr ∧ rc.2 = 0
          · right
            refine ⟨isKingCell_none _ _ _ _ (by rw [h0.1, h0.2]; exact h_at0),
              isKingCell_not_king _ _ _ _ rook (by rw [h0.1, h0.2]; exact hr0') ?_⟩
            rw [hrt]
            intro hh
            exact PieceType.noConfusion hh
          · by_cases h2c : rc.1 = fr ∧ rc.2 = 2
            · right
              refine ⟨isKingCell_wrong_color _ _ _ _ fp
                (by rw [h2c.1, h2c.2]; exact h_at2) (by rw [hfpc]; exact hnotopp),
                isKingCell_none _ _ _ _ (by rw [h2c.1, h2c.2]; exact hb2')⟩
            · left
              exact h_else rc.1 rc.2 h2c h4 h3c h0
    cases hcc2 : piece.color with
    | WHITE =>
      rw [hcc2] at hMover hOpp
      exact ⟨hMover, hOpp⟩
    | BLACK =>
      rw [hcc2] at hMover hOpp
      exact ⟨hOpp, hMover⟩


/-- Any successful move's board/kings step preserves king-cache consistency. -/
theorem kingsConsistent_after_board_step (g : ChessGame) (piece fp : ChessPiece)
    (fr fc tr tc : Int)
    (hBS : boardShape g.board) (hKC : KingsConsistent g) (hEP : EPSane g)
    (hUH : UnmovedKingsHome g)
    (hp : g.getPieceAt fr fc = some piece)
    (hrw : piece.row = fr) (hcl : piece.col = fc)
    (hcol : piece.color = g.currentPlayer)
    (hnc : g.isInCheck g.currentPlayer.other = false)
    (hmem : (tr, tc) ∈ getPossibleMoves piece g.board (g.moveContext piece))
    (hfpc : fp.color = piece.color)
    (hfpk : (fp.type = KING) ↔ (piece.type = KING)) :
    KingsConsistent ((g.makeMoveCapture piece tr tc).2.makeMoveBoard piece fp fr fc tr tc) := by
  by_cases hk : piece.type = KING
  · by_cases hcast : (tc - fc).natAbs = 2
    · exact kingsConsistent_step_castle g piece fp fr fc tr tc hBS hKC hEP hUH hp hrw hcl
        hcol hnc hmem hfpc (hfpk.mpr hk) hk hcast
    · exact kingsConsistent_step_kingmove g piece fp fr fc tr tc hBS hKC hEP hUH hp hrw hcl
        hcol hnc hmem hfpc (hfpk.mpr hk) hk hcast
  · exact kingsConsistent_step_nonking g piece fp fr fc tr tc hBS hKC hEP hUH hp hrw hcl
      hcol hnc hmem (fun hh => hk (hfpk.mp hh)) hk

/-- C9: `kingPositions[color]` equals the unique square occupied by that
color's king in the initial state, and every successful `makeMove` (including
castling, which relocates the king two files) preserves this for both colors,
given the state invariants (well-shaped board, consistent caches and stored
coordinates, sane en-passant data, unmoved kings at home), that the side that
just moved did not already attack the opponent king, and a non-king promotion
choice. -/
theorem claim_C9_kingPositions_consistent :
    KingsConsistent newGame ∧
    ∀ (g : ChessGame) (fr fc tr tc : Int) (promo : PieceType),
      boardShape g.board → KingsConsistent g → EPSane g → CoordsConsistent g →
      UnmovedKingsHome g →
      g.isInCheck g.currentPlayer.other = false → promo ≠ KING →
      (g.makeMove fr fc tr tc promo).1 = true →
      KingsConsistent (g.makeMove fr fc tr tc promo).2 := by
  constructor
  · decide
  · intro g fr fc tr tc promo hBS hKC hEP hCC hUH hnc hpromo hs
    cases hp : g.getPieceAt fr fc with
    | none =>
      exfalso
      unfold ChessGame.makeMove at hs
      rw [hp] at hs
      exact Bool.noConfusion hs
    | some piece =>
      have hleg := makeMove_true_isLegal g fr fc tr tc promo piece hp hs
      obtain ⟨hcol, hmem⟩ := isLegalMove_true_elim g fr fc tr tc piece hp hleg
      have hinf : inB fr fc := getPieceAt_inB g fr fc piece hp
      have hfin : ((fr, fc) : Square) ∈ allSquares := (mem_allSquares fr fc).mpr hinf
      have hcc0 := hCC (fr, fc) hfin
      simp only at hcc0
      rw [getPieceAt_eq_rawGet g fr fc piece hp] at hcc0
      have hrw : piece.row = fr := hcc0.1
      have hcl : piece.col = fc := hcc0.2
      have hfpc : ((if piece.type = PAWN ∧ (tr = 0 ∨ tr = 7) then
          { { piece with row := tr, col := tc, hasMoved := true } with type := promo }
          else { piece with row := tr, col := tc, hasMoved := true } : ChessPiece)).color =
          piece.color := by
        split <;> rfl
      have hfpk : (((if piece.type = PAWN ∧ (tr = 0 ∨ tr = 7) then
          { { piece with row := tr, col := tc, hasMoved := true } with type := promo }
          else { piece with row := tr, col := tc, hasMoved := true } : ChessPiece)).type =
          KING) ↔ (piece.type = KING) := by
        split
        · rename_i hcond
          constructor
          · intro hh
            exact absurd hh hpromo
          · intro hh
            exfalso
            rw [hh] at hcond
            exact PieceType.noConfusion hcond.1
        · constructor <;> (intro hh; exact hh)
      have hstep := kingsConsistent_after_board_step g piece _ fr fc tr tc hBS hKC hEP hUH
        hp hrw hcl hcol hnc hmem hfpc hfpk
      unfold ChessGame.makeMove
      rw [hp]
      simp only
      rw [if_neg (by simp [hleg])]
      simp only
      rw [isLegalMove_snd]
      refine ⟨?_, ?_⟩ <;>
      · refine kingConsistentFor_congr _
          ((g.makeMoveCapture piece tr tc).2.makeMoveBoard piece _ fr fc tr tc) _
          ?_ ?_ ?_ (kingConsistentFor_of _ hstep _)
        · rw [updateGameState_board, makeMoveRecord_board]
        · rw [updateGameState_kingWhite, makeMoveRecord_kingWhite]
        · rw [updateGameState_kingBlack, makeMoveRecord_kingBlack]


/-- Concrete instance for C9: the initial state is consistent, satisfies all
the invariants, and playing e2-e4 keeps both king cache entries consistent. -/
theorem claim_C9_witness :
    boardShape newGame.board ∧ KingsConsistent newGame ∧ EPSane newGame ∧
      CoordsConsistent newGame ∧ UnmovedKingsHome newGame ∧
      newGame.isInCheck newGame.currentPlayer.other = false ∧
      (QUEEN : PieceType) ≠ KING ∧
      (newGame.makeMove 6 4 4 4 QUEEN).1 = true ∧
      KingsConsistent (newGame.makeMove 6 4 4 4 QUEEN).2 :=
  ⟨by decide, by decide, by decide, by decide, by decide, by decide, by decide, by decide,
    claim_C9_kingPositions_consistent.2 newGame 6 4 4 4 QUEEN (by decide) (by decide)
      (by decide) (by decide) (by decide) (by decide) (by decide) (by decide)⟩


/-! ### The enhanced AI (`chess-ai-enhanced.js`) and its evaluator -/

/-- JavaScript numbers as used by the search: integers extended with the two
IEEE infinities (`-Infinity`/`Infinity`).  NaN never arises in the flows the
search performs. -/
inductive Ext where
  | ninf
  | fin (x : Int)
  | pinf
deriving DecidableEq

def Ext.le : Ext → Ext → Bool
  | .ninf, _ => true
  | _, .pinf => true
  | .fin x, .fin y => decide (x ≤ y)
  | .pinf, .fin _ => false
  | .pinf, .ninf => false
  | .fin _, .ninf => false

def Ext.lt (a b : Ext) : Bool := ¬Ext.le b a

def Ext.max (a b : Ext) : Ext := if Ext.lt a b then b else a

def Ext.min (a b : Ext) : Ext := if Ext.lt b a then b else a

def Ext.neg : Ext → Ext
  | .ninf => .pinf
  | .fin x => .fin (-x)
  | .pinf => .ninf

/-- Adding a finite number to a JS number: the infinities absorb. -/
def Ext.addInt : Ext → Int → Ext
  | .ninf, _ => .ninf
  | .pinf, _ => .pinf
  | .fin x, n => .fin (x + n)

/-- `ChessGame.getPieces` (row-major scan). -/
def ChessGame.getPieces (g : ChessGame) (color : Color) : List ChessPiece :=
  allSquares.filterMap fun rc =>
    match g.getPieceAt rc.1 rc.2 with
    | some p => if p.color = color then some p else none
    | none => none

/-- `POSITION_VALUES` of `chess-pieces.js`. -/
def positionTable : PieceType → List (List Int)
  | PAWN =>
    [ [0, 0, 0, 0, 0, 0, 0, 0],
      [50, 50, 50, 50, 50, 50, 50, 50],
      [10, 10, 20, 30, 30, 20, 10, 10],
      [5, 5, 10, 25, 25, 10, 5, 5],
      [0, 0, 0, 20, 20, 0, 0, 0],
      [5, -5, -10, 0, 0, -10, -5, 5],
      [5, 10, 10, -20, -20, 10, 10, 5],
      [0, 0, 0, 0, 0, 0, 0, 0] ]
  | KNIGHT =>
    [ [-50, -40, -30, -30, -30, -30, -40, -50],
      [-40, -20, 0, 0, 0, 0, -20, -40],
      [-30, 0, 10, 15, 15, 10, 0, -30],
      [-30, 5, 15, 20, 20, 15, 5, -30],
      [-30, 0, 15, 20, 20, 15, 0, -30],
      [-30, 5, 10, 15, 15, 10, 5, -30],
      [-40, -20, 0, 5, 5, 0, -20, -40],
      [-50, -40, -30, -30, -30, -30, -40, -50] ]
  | BISHOP =>
    [ [-20, -10, -10, -10, -10, -10, -10, -20],
      [-10, 0, 0, 0, 0, 0, 0, -10],
      [-10, 0, 5, 10, 10, 5, 0, -10],
      [-10, 5, 5, 10, 10, 5, 5, -10],
      [-10, 0, 10, 10, 10, 10, 0, -10],
      [-10, 10, 10, 10, 10, 10, 10, -10],
      [-10, 5, 0, 0, 0, 0, 5, -10],
      [-20, -10, -10, -10, -10, -10, -10, -20] ]
  | ROOK =>
    [ [0, 0, 0, 0, 0, 0, 0, 0],
      [5, 10, 10, 10, 10, 10, 10, 5],
      [-5, 0, 0, 0, 0, 0, 0, -5],
      [-5, 0, 0, 0, 0, 0, 0, -5],
      [-5, 0, 0, 0, 0, 0, 0, -5],
      [-5, 0, 0, 0, 0, 0, 0, -5],
      [-5, 0, 0, 0, 0, 0, 0, -5],
      [0, 0, 0, 5, 5, 0, 0, 0] ]
  | QUEEN =>
    [ [-20, -10, -10, -5, -5, -10, -10, -20],
      [-10, 0, 0, 0, 0, 0, 0, -10],
      [-10, 0, 5, 5, 5, 5, 0, -10],
      [-5, 0, 5, 5, 5, 5, 0, -5],
      [0, 0, 5, 5, 5, 5, 0, -5],
      [-10, 5, 5, 5, 5, 5, 0, -10],
      [-10, 0, 5, 0, 0, 0, 0, -10],
      [-20, -10, -10, -5, -5, -10, -10, -20] ]
  | KING =>
    [ [-30, -40, -40, -50, -50, -40, -40, -30],
      [-30, -40, -40, -50, -50, -40, -40, -30],
      [-30, -40, -40, -50, -50, -40, -40, -30],
      [-30, -40, -40, -50, -50, -40, -40, -30],
      [-20, -30, -30, -40, -40, -30, -30, -20],
      [-10, -20, -20, -20, -20, -20, -20, -10],
      [20, 20, 0, 0, 0, 0, 20, 20],
      [20, 30, 10, 0, 0, 10, 30, 20] ]

def kingEndgameTable : List (List Int) :=
  [ [-50, -40, -30, -20, -20, -30, -40, -50],
    [-30, -20, -10, 0, 0, -10, -20, -30],
    [-30, -10, 20, 30, 30, 20, -10, -30],
    [-30, -10, 30, 40, 40, 30, -10, -30],
    [-30, -10, 30, 40, 40, 30, -10, -30],
    [-30, -10, 20, 30, 30, 20, -10, -30],
    [-30, -30, 0, 0, 0, 0, -30, -30],
    [-50, -30, -30, -30, -30, -30, -30, -50] ]

/-- `ChessPiece.getValue`. -/
def getValue (p : ChessPiece) : Int := PIECE_VALUES p.type

/-- `ChessPiece.getPositionalValue` (the table is mirrored for BLACK). -/
def getPositionalValue (p : ChessPiece) (isEnd : Bool) : Int :=
  let table := if p.type = KING ∧ isEnd = true then kingEndgameTable else positionTable p.type
  let row := if p.color = WHITE then p.row else 7 - p.row
  (table.getD row.toNat []).getD p.col.toNat 0

/-- Sum an integer-valued function over a list. -/
def isum {α : Type _} (l : List α) (f : α → Int) : Int :=
  l.foldl (fun s a => s + f a) 0

namespace ChessEvaluation

/-- `piece.getPossibleMoves(game.board)` as the evaluator calls it: default
context (no en passant, no castling flags). -/
def pieceMovesE (p : ChessPiece) (b : BoardL) : List Square :=
  getPossibleMoves p b (attackContext none)

/-- `ChessEvaluation.isEndgame`. -/
def isEndgame (g : ChessGame) : Bool :=
  let pieces := g.getPieces WHITE ++ g.getPieces BLACK
  let queens := (pieces.filter (fun p => decide (p.type = QUEEN))).length
  let rooks := (pieces.filter (fun p => decide (p.type = ROOK))).length
  let minorPieces := (pieces.filter (fun p => decide (p.type = BISHOP ∨ p.type = KNIGHT))).length
  decide (queens = 0) || (decide (queens ≤ 2) && decide (rooks ≤ 2) && decide (minorPieces ≤ 4))

def evaluateMaterial (g : ChessGame) : Int :=
  isum allSquares fun rc =>
    match g.getPieceAt rc.1 rc.2 with
    | some p =>
      let value := getValue p + getPositionalValue p (isEndgame g)
      if p.color = WHITE then value else -value
    | none => 0

def activityFor (g : ChessGame) (c : Color) : Int :=
  isum (g.getPieces c) fun p =>
    ((pieceMovesE p g.board).length : Int) *
      (match p.type with
       | KNIGHT => 4
       | BISHOP => 3
       | ROOK => 2
       | QUEEN => 1
       | _ => 1)

def evaluatePieceActivity (g : ChessGame) : Int :=
  activityFor g WHITE - activityFor g BLACK

/-- `ChessEvaluation.isPassedPawn`. -/
def isPassedPawn (g : ChessGame) (pawn : ChessPiece) : Bool :=
  let enemyPawns := (g.getPieces pawn.color.other).filter (fun p => decide (p.type = PAWN))
  ¬enemyPawns.any fun ep =>
    decide ((ep.col - pawn.col).natAbs ≤ 1) &&
      (if pawn.color = WHITE then decide (ep.row < pawn.row) else decide (pawn.row < ep.row))

/-- `ChessEvaluation.isBackwardPawn`. -/
def isBackwardPawn (pawn : ChessPiece) (friendly : List ChessPiece) : Bool :=
  ([-1, 1] : List Int).any fun off =>
    let ac := pawn.col + off
    decide (0 ≤ ac ∧ ac < 8) &&
      ((friendly.filter (fun p => decide (p.col = ac))).any fun adj =>
        if pawn.color = WHITE then decide (adj.row < pawn.row) else decide (pawn.row < adj.row))

def pawnStructureFor (g : ChessGame) (c : Color) : Int :=
  let colorPawns := (g.getPieces c).filter (fun p => decide (p.type = PAWN))
  let chains := isum colorPawns fun pawn =>
    if colorPawns.any (fun p =>
        decide ((p.col - pawn.col).natAbs = 1 ∧ (p.row - pawn.row).natAbs = 1))
    then 15 else 0
  let passed := isum colorPawns fun pawn =>
    if isPassedPawn g pawn then
      (let rank : Int := if c = WHITE then 7 - pawn.row else pawn.row
       20 + rank * rank * 5)
    else 0
  let doubled := isum (List.range 8) fun col =>
    let count : Int := ((colorPawns.filter (fun p => decide (p.col = (col : Int)))).length : Int)
    if 1 < count then -(15 * (count - 1)) else 0
  let isolated := isum colorPawns fun pawn =>
    if colorPawns.any (fun p => decide ((p.col - pawn.col).natAbs = 1)) then 0 else -20
  let backward := isum colorPawns fun pawn =>
    if isBackwardPawn pawn colorPawns then -15 else 0
  chains + passed + doubled + isolated + backward

def evaluatePawnStructureAdvanced (g : ChessGame) : Int :=
  pawnStructureFor g WHITE - pawnStructureFor g BLACK

/-- `ChessEvaluation.countAttackers`. -/
def countAttackers (g : ChessGame) (r c : Int) (color : Color) : Int :=
  (((g.getPieces color).filter fun p =>
    (pieceMovesE p g.board).any fun m => decide (m = (r, c))).length : Int)

def isOpenFile (g : ChessGame) (col : Int) : Bool :=
  ¬(List.range 8).any fun row =>
    match g.getPieceAt (row : Int) col with
    | some p => decide (p.type = PAWN)
    | none => false

def isSemiOpenFile (g : ChessGame) (col : Int) (color : Color) : Bool :=
  ¬(List.range 8).any fun row =>
    match g.getPieceAt (row : Int) col with
    | some p => decide (p.type = PAWN ∧ p.color = color)
    | none => false

def kingSafetyFor (g : ChessGame) (c : Color) : Int :=
  let kp := g.kingPositionsAt c
  let dir : Int := if c = WHITE then -1 else 1
  let shield := isum ([-1, 0, 1] : List Int) fun off =>
    let col := kp.2 + off
    if 0 ≤ col ∧ col < 8 then
      (match g.getPieceAt (kp.1 + dir) col with
       | some p => if p.type = PAWN ∧ p.color = c then 20 else 0
       | none => 0) +
      (match g.getPieceAt (kp.1 + dir * 2) col with
       | some p => if p.type = PAWN ∧ p.color = c then 10 else 0
       | none => 0)
    else 0
  let exposure := -(countAttackers g kp.1 kp.2 c.other * 30)
  let openFiles := isum ([-1, 0, 1] : List Int) fun off =>
    let col := kp.2 + off
    if 0 ≤ col ∧ col < 8 then
      if isOpenFile g col then -20
      else if isSemiOpenFile g col c then -10
      else 0
    else 0
  let castleBonus :=
    match g.getPieceAt kp.1 kp.2 with
    | some k => if k.hasMoved = false then 25 else 0
    | none => 0
  let tropism := isum (g.getPieces c.other) fun p =>
    if p.type ≠ KING ∧ p.type ≠ PAWN then
      (let d : Int := ((p.row - kp.1).natAbs : Int) + ((p.col - kp.2).natAbs : Int)
       if d ≤ 3 then -((4 - d) * 5) else 0)
    else 0
  shield + exposure + openFiles + castleBonus + tropism

def evaluateKingSafetyAdvanced (g : ChessGame) : Int :=
  kingSafetyFor g WHITE - kingSafetyFor g BLACK

def kingEndgameFor (g : ChessGame) (c : Color) : Int :=
  let kp := g.kingPositionsAt c
  let cd2 : Int := ((7 - 2 * kp.1).natAbs : Int) + ((7 - 2 * kp.2).natAbs : Int)
  let centrality := (7 - cd2 / 2) * 15
  let pawns := (g.getPieces c).filter (fun p => decide (p.type = PAWN))
  let prox := isum pawns fun pawn =>
    if isPassedPawn g pawn then
      (let d : Int := ((pawn.row - kp.1).natAbs : Int) + ((pawn.col - kp.2).natAbs : Int)
       (8 - d) * 5)
    else 0
  centrality + prox

def evaluateKingEndgame (g : ChessGame) : Int :=
  kingEndgameFor g WHITE - kingEndgameFor g BLACK

def importantSquares : List (Int × Int) :=
  [(3, 3), (3, 4), (4, 3), (4, 4), (2, 2), (2, 3), (2, 4), (2, 5), (5, 2), (5, 3), (5, 4), (5, 5)]

def evaluateOutposts (g : ChessGame) (c : Color) : Int :=
  let pieces := (g.getPieces c).filter (fun p => decide (p.type = KNIGHT ∨ p.type = BISHOP))
  let friendlyPawns := (g.getPieces c).filter (fun p => decide (p.type = PAWN))
  let enemyPawns := (g.getPieces c.other).filter (fun p => decide (p.type = PAWN))
  isum pieces fun piece =>
    let protectedByPawn := friendlyPawns.any fun pawn =>
      (pieceMovesE pawn g.board).any fun m => decide (m = (piece.row, piece.col))
    if protectedByPawn then
      (let canBeAttackedByPawn := enemyPawns.any fun pawn =>
        let dirP : Int := if pawn.color = WHITE then -1 else 1
        let attackRow := pawn.row + dirP
        ([pawn.col - 1, pawn.col + 1] : List Int).any fun col =>
          decide (0 ≤ col ∧ col < 8 ∧ attackRow = piece.row ∧ col = piece.col)
       if canBeAttackedByPawn then 0
       else if piece.type = KNIGHT then 30 else 20)
    else 0

def evaluateSquareControl (g : ChessGame) : Int :=
  let base := isum importantSquares fun sq =>
    let w := countAttackers g sq.1 sq.2 WHITE
    let b := countAttackers g sq.1 sq.2 BLACK
    let weight : Int := if (sq.1 = 3 ∨ sq.1 = 4) ∧ (sq.2 = 3 ∨ sq.2 = 4) then 10 else 5
    (w - b) * weight
  base + evaluateOutposts g WHITE - evaluateOutposts g BLACK

def areRooksConnected (g : ChessGame) (r1 r2 : ChessPiece) : Bool :=
  if r1.row = r2.row then
    let minC := Min.min r1.col r2.col
    let maxC := Max.max r1.col r2.col
    ¬(List.range 8).any fun col =>
      decide (minC < (col : Int) ∧ (col : Int) < maxC) && (g.getPieceAt r1.row (col : Int)).isSome
  else if r1.col = r2.col then
    let minR := Min.min r1.row r2.row
    let maxR := Max.max r1.row r2.row
    ¬(List.range 8).any fun row =>
      decide (minR < (row : Int) ∧ (row : Int) < maxR) && (g.getPieceAt (row : Int) r1.col).isSome
  else false

def listPairs {α : Type _} : List α → List (α × α)
  | [] => []
  | x :: xs => xs.map (fun y => (x, y)) ++ listPairs xs

def evaluateMinorPieceCoordination (g : ChessGame) : Int :=
  isum ([WHITE, BLACK] : List Color) fun c =>
    let knights := (g.getPieces c).filter (fun p => decide (p.type = KNIGHT))
    let bishops := (g.getPieces c).filter (fun p => decide (p.type = BISHOP))
    let protecting := isum (listPairs knights) fun pr =>
      if (pieceMovesE pr.1 g.board).any (fun m => decide (m = (pr.2.row, pr.2.col))) ∨
          (pieceMovesE pr.2 g.board).any (fun m => decide (m = (pr.1.row, pr.1.col))) then
        (if c = WHITE then 10 else -10)
      else 0
    let nb := isum knights fun k =>
      isum bishops fun b =>
        if (((k.row - b.row).natAbs : Int) + ((k.col - b.col).natAbs : Int)) ≤ 3 then
          (if c = WHITE then 5 else -5)
        else 0
    protecting + nb

def evaluatePieceCoordination (g : ChessGame) : Int :=
  let rookFiles := isum (List.range 8) fun col =>
    if isOpenFile g (col : Int) then
      isum (List.range 8) fun row =>
        match g.getPieceAt (row : Int) (col : Int) with
        | some p => if p.type = ROOK then (if p.color = WHITE then 25 else -25) else 0
        | none => 0
    else
      isum ([WHITE, BLACK] : List Color) fun c =>
        if isSemiOpenFile g (col : Int) c then
          isum (List.range 8) fun row =>
            match g.getPieceAt (row : Int) (col : Int) with
            | some p =>
              if p.type = ROOK ∧ p.color = c then (if c = WHITE then 15 else -15) else 0
            | none => 0
        else 0
  let connected := isum ([WHITE, BLACK] : List Color) fun c =>
    let rooks := (g.getPieces c).filter (fun p => decide (p.type = ROOK))
    match rooks with
    | [r1, r2] => if areRooksConnected g r1 r2 then (if c = WHITE then 20 else -20) else 0
    | _ => 0
  let bishopPair := isum ([WHITE, BLACK] : List Color) fun c =>
    if ((g.getPieces c).filter (fun p => decide (p.type = BISHOP))).length = 2 then
      (if c = WHITE then 30 else -30)
    else 0
  rookFiles + connected + bishopPair + evaluateMinorPieceCoordination g

/-- `ChessEvaluation.evaluatePositionAdvanced`. -/
def evaluatePositionAdvanced (g : ChessGame) : Int :=
  if g.gameState = GameStatus.checkmate then
    (if g.currentPlayer = BLACK then 30000 else -30000)
  else if g.gameState = GameStatus.stalemate ∨ g.gameState = GameStatus.draw then 0
  else
    let isEnd := isEndgame g
    let score := evaluateMaterial g + evaluatePieceActivity g +
      evaluatePawnStructureAdvanced g +
      (if isEnd = false then evaluateKingSafetyAdvanced g else evaluateKingEndgame g) +
      evaluateSquareControl g + evaluatePieceCoordination g
    if g.currentPlayer = WHITE then score else -score

end ChessEvaluation


/-- A move record of the enhanced AI
(`{from, to, piece, captured}` objects). -/
structure AIMove where
  fromSq : Square
  toSq : Square
  piece : PieceType
  captured : Option PieceType
deriving DecidableEq

/-- What `getBestMove` hands back (book moves carry an optional piece type). -/
structure ChosenMove where
  fromSq : Square
  toSq : Square
  piece : Option PieceType
deriving DecidableEq

inductive TTFlag where
  | EXACT
  | LOWERBOUND
  | UPPERBOUND
deriving DecidableEq

structure TTEntry where
  score : Ext
  depth : Nat
  flag : TTFlag
deriving DecidableEq

/-- The random 32-bit tables built by `initializeZobrist`, as abstract data
(an arbitrary instance of the `Math.random`-generated tables; the unread
castling entries are omitted). -/
structure ZobristTable where
  pieces : Color → PieceType → Nat → Nat
  blackToMove : Nat
  enPassantF : Int → Nat

/-- The mutable state of an `EnhancedChessAI` instance, together with the
ambient `Date.now()` and `Math.random()` sources modelled as streams with a
read index. -/
structure AIState where
  difficulty : Int
  maxDepth : Nat
  transpositionTable : List (Nat × TTEntry)
  killerMoves : List (List AIMove)
  historyTable : List ((Int × Int × Int × Int) × Int)
  pvTable : List ((Int × Int × Int × Int) × Int)
  moveCount : Int
  nodesSearched : Int
  zobrist : ZobristTable
  timeLimit : Int
  randomnessFactor : Rat
  moveRandomness : Rat
  useOpeningBook : Bool
  startTime : Int
  clock : Nat → Int
  clockIdx : Nat

/-- `EnhancedChessAI.getZobristHash` (32-bit XOR over piece/square codes). -/
def getZobristHash (z : ZobristTable) (g : ChessGame) : Nat :=
  let h1 := allSquares.foldl (fun h rc =>
    match g.getPieceAt rc.1 rc.2 with
    | some p => Nat.xor h (z.pieces p.color p.type (rc.1 * 8 + rc.2).toNat)
    | none => h) 0
  let h2 := if g.currentPlayer = BLACK then Nat.xor h1 z.blackToMove else h1
  match g.enPassantTarget with
  | some ep => Nat.xor h2 (z.enPassantF ep.2)
  | none => h2

/-- `EnhancedChessAI.cloneGame`: a fresh `new ChessGame()` (initial board!)
whose occupied source squares are overwritten; squares empty in the source
keep the pieces of the initial position. -/
def cloneGameAI (g : ChessGame) : ChessGame :=
  let clonedBoard := allSquares.foldl (fun b rc =>
    match g.getPieceAt rc.1 rc.2 with
    | some p => setCell b rc.1 rc.2 (some p)
    | none => b) initializeBoard
  { newGame with
    board := clonedBoard
    currentPlayer := g.currentPlayer
    gameState := g.gameState
    kingWhite := g.kingWhite
    kingBlack := g.kingBlack
    enPassantTarget := g.enPassantTarget
    halfMoveClock := g.halfMoveClock
    fullMoveNumber := g.fullMoveNumber }

/-- `EnhancedChessAI.getAllPossibleMoves`. -/
def getAllPossibleMoves (g : ChessGame) : List AIMove :=
  (g.getPieces g.currentPlayer).flatMap fun piece =>
    (g.getLegalMoves (some piece)).map fun m =>
      { fromSq := (piece.row, piece.col), toSq := m, piece := piece.type,
        captured := (g.getPieceAt m.1 m.2).map (·.type) }

/-- `EnhancedChessAI.getCaptureMoves`. -/
def getCaptureMoves (g : ChessGame) : List AIMove :=
  (g.getPieces g.currentPlayer).flatMap fun piece =>
    (g.getLegalMoves (some piece)).filterMap fun m =>
      match g.getPieceAt m.1 m.2 with
      | some cap =>
        some { fromSq := (piece.row, piece.col), toSq := m, piece := piece.type,
               captured := some cap.type }
      | none => none

def mergeFuel {α : Type _} : Nat → (α → α → Bool) → List α → List α → List α
  | 0, _, xs, ys => xs ++ ys
  | _ + 1, _, [], ys => ys
  | _ + 1, _, x :: xs, [] => x :: xs
  | n + 1, le, x :: xs, y :: ys =>
    if le x y then x :: mergeFuel n le xs (y :: ys) else y :: mergeFuel n le (x :: xs) ys

/-- A stable merge sort (fuel-driven); `Array.prototype.sort` with a
consistent comparator is stable, and all stable sorts agree. -/
def msortFuel {α : Type _} : Nat → (α → α → Bool) → List α → List α
  | 0, _, l => l
  | n + 1, le, l =>
    if l.length ≤ 1 then l
    else
      let half := l.length / 2
      mergeFuel (l.length + l.length) le (msortFuel n le (l.take half)) (msortFuel n le (l.drop half))

/-- Stable sort, largest key first (`(a, b) => b.score - a.score`). -/
def sortByDesc {α : Type _} (key : α → Int) (l : List α) : List α :=
  msortFuel l.length (fun a b => decide (key b ≤ key a)) l

/-- `EnhancedChessAI.orderCapturesByMVVLVA`. -/
def orderCapturesByMVVLVA (moves : List AIMove) : List AIMove :=
  sortByDesc (fun m =>
    (match m.captured with | some t => PIECE_VALUES t | none => 0) - PIECE_VALUES m.piece / 10)
    moves

/-- `EnhancedChessAI.movesEqual` on well-formed move objects. -/
def movesEqual (a b : AIMove) : Bool :=
  decide (a.fromSq = b.fromSq ∧ a.toSq = b.toSq)

/-- The score `orderMovesAdvanced` assigns to one move. -/
def moveScore (ai : AIState) (g : ChessGame) (depth : Nat) (m : AIMove) : Int :=
  let key := (m.fromSq.1, m.fromSq.2, m.toSq.1, m.toSq.2)
  let pv := match (ai.pvTable.find? (fun e => decide (e.1 = key))).map (·.2) with
    | some v => if v ≠ 0 then 10000 else 0
    | none => 0
  let capt := match m.captured with
    | some t => 1000 + PIECE_VALUES t - PIECE_VALUES m.piece / 10
    | none => 0
  let killer := if depth < ai.killerMoves.length ∧
      (ai.killerMoves.getD depth []).any (fun k => movesEqual k m) then 900 else 0
  let hist := match (ai.historyTable.find? (fun e => decide (e.1 = key))).map (·.2) with
    | some v => if v ≠ 0 then Min.min v 800 else 0
    | none => 0
  let centerBonus : Int → Int → Int := fun r c =>
    (7 - (((7 - 2 * r).natAbs : Int) + ((7 - 2 * c).natAbs : Int)) / 2) * 10
  let center := centerBonus m.toSq.1 m.toSq.2 - centerBonus m.fromSq.1 m.fromSq.2
  let adv := if m.piece = PAWN then
      (if g.currentPlayer = WHITE then (m.fromSq.1 - m.toSq.1) * 20
       else (m.toSq.1 - m.fromSq.1) * 20)
    else 0
  let castle := if m.piece = KING ∧ (m.toSq.2 - m.fromSq.2).natAbs = 2 then 300 else 0
  pv + capt + killer + hist + center + adv + castle

/-- `EnhancedChessAI.orderMovesAdvanced` (score then stable descending sort). -/
def orderMovesAdvanced (ai : AIState) (g : ChessGame) (depth : Nat)
    (moves : List AIMove) : List AIMove :=
  sortByDesc (moveScore ai g depth) moves

/-- The capture loop of `quiescenceSearch` (the recursive call is passed in). -/
def qsLoop (qsNext : ChessGame → Ext → Ext → AIState → Ext × AIState)
    (g : ChessGame) (β : Ext) : List AIMove → Ext → AIState → Ext × AIState
  | [], α, ai => (α, ai)
  | m :: rest, α, ai =>
    let clone := cloneGameAI g
    let mm := clone.makeMove m.fromSq.1 m.fromSq.2 m.toSq.1 m.toSq.2 QUEEN
    if mm.1 = false then qsLoop qsNext g β rest α ai
    else
      let r := qsNext mm.2 (Ext.neg β) (Ext.neg α) ai
      let score := Ext.neg r.1
      if Ext.le β score then (β, r.2)
      else if Ext.lt α score then qsLoop qsNext g β rest score r.2
      else qsLoop qsNext g β rest α r.2

/-- `EnhancedChessAI.quiescenceSearch` (fail-hard; recursion depth is bounded
by the `depth > 4` cutoff, the fuel only feeds the recursion). -/
def quiescenceSearch : Nat → ChessGame → Ext → Ext → Nat → AIState → Ext × AIState
  | 0, _, _, _, _, ai => (Ext.fin 0, ai)
  | fuel + 1, g, α, β, qd, ai =>
    let ai1 := { ai with nodesSearched := ai.nodesSearched + 1 }
    let standPat := Ext.fin (ChessEvaluation.evaluatePositionAdvanced g)
    if Ext.le β standPat then (β, ai1)
    else
      let α1 := if Ext.lt α standPat then standPat else α
      if 4 < qd then (standPat, ai1)
      else
        let moves := orderCapturesByMVVLVA (getCaptureMoves g)
        qsLoop (fun g2 a2 b2 s2 => quiescenceSearch fuel g2 a2 b2 (qd + 1) s2) g β moves α1 ai1

/-- The PVS move loop of `alphaBeta` (the recursive call is passed in);
returns the best score, the transposition flag, and the updated state. -/
def abLoop (next : ChessGame → Ext → Ext → Bool → AIState → Ext × AIState)
    (g : ChessGame) (β : Ext) (isMax : Bool) (depth : Nat) :
    List AIMove → Nat → Ext → Ext → TTFlag → AIState → Ext × TTFlag × AIState
  | [], _, best, _, flag, ai => (best, flag, ai)
  | m :: rest, i, best, α, flag, ai =>
    let clone := cloneGameAI g
    let mm := clone.makeMove m.fromSq.1 m.fromSq.2 m.toSq.1 m.toSq.2 QUEEN
    if mm.1 = false then abLoop next g β isMax depth rest (i + 1) best α flag ai
    else
      let sr : Ext × AIState :=
        if i = 0 then
          let r := next mm.2 (Ext.neg β) (Ext.neg α) (!isMax) ai
          (Ext.neg r.1, r.2)
        else
          let r1 := next mm.2 (Ext.addInt (Ext.neg α) (-1)) (Ext.neg α) (!isMax) ai
          let s1 := Ext.neg r1.1
          if Ext.lt α s1 ∧ Ext.lt s1 β then
            let r2 := next mm.2 (Ext.neg β) (Ext.neg α) (!isMax) r1.2
            (Ext.neg r2.1, r2.2)
          else (s1, r1.2)
      let score := sr.1
      let st : Ext × Ext × TTFlag × AIState :=
        if Ext.lt best score then
          if Ext.lt α score then
            let ai2 :=
              if m.captured = none ∧ depth < sr.2.killerMoves.length then
                { sr.2 with killerMoves := sr.2.killerMoves.set depth ((m :: sr.2.killerMoves.getD depth []).take 2) }
              else sr.2
            let key := (m.fromSq.1, m.fromSq.2, m.toSq.1, m.toSq.2)
            let old := match (ai2.historyTable.find? (fun e => decide (e.1 = key))).map (·.2) with
              | some v => v
              | none => 0
            let newVal := old + (depth : Int) * (depth : Int)
            let ht :=
              if ai2.historyTable.any (fun e => decide (e.1 = key)) then
                ai2.historyTable.map (fun e => if e.1 = key then (key, newVal) else e)
              else ai2.historyTable ++ [(key, newVal)]
            (score, score, TTFlag.EXACT, { ai2 with historyTable := ht })
          else (score, α, flag, sr.2)
        else (best, α, flag, sr.2)
      if Ext.le β st.2.1 then (st.1, TTFlag.LOWERBOUND, st.2.2.2)
      else abLoop next g β isMax depth rest (i + 1) st.1 st.2.1 st.2.2.1 st.2.2.2

/-- `EnhancedChessAI.alphaBeta` (transposition table, null-move pruning, PVS;
the fuel only feeds the recursion and is kept at least `depth + 1`). -/
def alphaBeta : Nat → Nat → ChessGame → Ext → Ext → Bool → AIState → Ext × AIState
  | 0, _, _, _, _, _, ai => (Ext.fin 0, ai)
  | fuel + 1, depth, g, α, β, isMax, ai =>
    let ai1 := { ai with nodesSearched := ai.nodesSearched + 1 }
    let hash := getZobristHash ai1.zobrist g
    let tte := (ai1.transpositionTable.find? (fun e => decide (e.1 = hash))).map (·.2)
    let tri : Ext × Ext × Option Ext :=
      match tte with
      | some e =>
        if depth ≤ e.depth then
          if e.flag = TTFlag.EXACT then (α, β, some e.score)
          else
            let α2 := if e.flag = TTFlag.LOWERBOUND then Ext.max α e.score else α
            let β2 := if e.flag = TTFlag.UPPERBOUND then Ext.min β e.score else β
            if Ext.le β2 α2 then (α2, β2, some e.score) else (α2, β2, none)
        else (α, β, none)
      | none => (α, β, none)
    match tri.2.2 with
    | some s => (s, ai1)
    | none =>
      let α2 := tri.1
      let β2 := tri.2.1
      if depth = 0 ∨ g.gameState ≠ GameStatus.playing then
        quiescenceSearch 8 g α2 β2 0 ai1
      else
        let moves := getAllPossibleMoves g
        if moves.isEmpty then
          ((if g.isInCheck g.currentPlayer then
              Ext.fin (-30000 + ((ai1.maxDepth : Int) - (depth : Int)))
            else Ext.fin 0), ai1)
        else
          let nm : Option Ext × AIState :=
            if 3 ≤ depth ∧ g.isInCheck g.currentPlayer = false then
              let nullGame := { cloneGameAI g with currentPlayer :=
                (if g.currentPlayer = WHITE then BLACK else WHITE) }
              let r := alphaBeta fuel (depth - 3) nullGame (Ext.neg β2)
                (Ext.addInt (Ext.neg β2) 1) (!isMax) ai1
              let nullScore := Ext.neg r.1
              if Ext.le β2 nullScore then (some β2, r.2) else (none, r.2)
            else (none, ai1)
          match nm.1 with
          | some s => (s, nm.2)
          | none =>
            let ordered := orderMovesAdvanced nm.2 g depth moves
            let lr := abLoop (fun g2 a2 b2 mx s => alphaBeta fuel (depth - 1) g2 a2 b2 mx s)
              g β2 isMax depth ordered 0 Ext.ninf α2 TTFlag.UPPERBOUND nm.2
            let entry : TTEntry := { score := lr.1, depth := depth, flag := lr.2.1 }
            let ai3 := lr.2.2
            let tt :=
              if ai3.transpositionTable.any (fun e => decide (e.1 = hash)) then
                ai3.transpositionTable.map (fun e => if e.1 = hash then (hash, entry) else e)
              else ai3.transpositionTable ++ [(hash, entry)]
            (lr.1, { ai3 with transpositionTable := tt })

structure RootResult where
  score : Ext
  move : Option AIMove
deriving DecidableEq

/-- The root move loop of `alphaBetaRoot` (note the time check is skipped for
moves whose speculative application fails). -/
def rootLoop (next : ChessGame → Ext → Ext → Bool → AIState → Ext × AIState)
    (g : ChessGame) : List AIMove → Ext → Ext → AIMove → AIState → Ext × AIMove × AIState
  | [], _, best, bestMove, ai => (best, bestMove, ai)
  | m :: rest, α, best, bestMove, ai =>
    let clone := cloneGameAI g
    let mm := clone.makeMove m.fromSq.1 m.fromSq.2 m.toSq.1 m.toSq.2 QUEEN
    if mm.1 = false then rootLoop next g rest α best bestMove ai
    else
      let r := next mm.2 (Ext.neg Ext.pinf) (Ext.neg α) false ai
      let score := Ext.neg r.1
      let bb : Ext × AIMove := if Ext.lt best score then (score, m) else (best, bestMove)
      let α2 := Ext.max α score
      let t := r.2.clock r.2.clockIdx
      let ai2 := { r.2 with clockIdx := r.2.clockIdx + 1 }
      if ai2.timeLimit < t - ai2.startTime then (bb.1, bb.2, ai2)
      else rootLoop next g rest α2 bb.1 bb.2 ai2

/-- `EnhancedChessAI.alphaBetaRoot`. -/
def alphaBetaRoot (ai : AIState) (g : ChessGame) (depth : Nat) : RootResult × AIState :=
  let moves := getAllPossibleMoves g
  match moves with
  | [] =>
    ({ score := (if g.isInCheck g.currentPlayer then Ext.fin (-30000) else Ext.fin 0),
       move := none }, ai)
  | _ :: _ =>
    let ordered := orderMovesAdvanced ai g depth moves
    match ordered with
    | [] => ({ score := Ext.ninf, move := none }, ai)
    | m0 :: _ =>
      let lr := rootLoop (fun g2 a2 b2 mx s => alphaBeta (depth + 1) (depth - 1) g2 a2 b2 mx s)
        g ordered Ext.ninf Ext.ninf m0 ai
      ({ score := lr.1, move := some lr.2.1 }, lr.2.2)

/-- `initializeOpeningBook`. -/
def openingBook : List (String × List String) :=
  [ ("e2e4,e7e5,g1f3,b8c6,f1c4", ["b7b5", "d7d6", "f7f5", "g8f6"]),
    ("e2e4,c7c5", ["g1f3", "d2d4", "b1c3"]),
    ("e2e4,e7e6", ["d2d4", "g1f3"]),
    ("d2d4,d7d5,c2c4", ["e7e6", "c7c6", "d5c4"]),
    ("d2d4,g8f6,c2c4,g7g6", ["b1c3", "g1f3"]),
    ("e2e4,e7e5,g1f3,b8c6,f1b5", ["a7a6", "g8f6", "f7f5"]),
    ("c2c4", ["e7e5", "g8f6", "c7c5", "e7e6"]),
    ("e2e4,c7c6", ["d2d4", "b1c3", "g1f3"]) ]

/-- The comma-joined coordinate history `getOpeningBookMove` builds. -/
def historyKey (g : ChessGame) : String :=
  String.intercalate "," (g.moveHistory.map fun m =>
    squareName m.fromSq.1 m.fromSq.2 ++ squareName m.toSq.1 m.toSq.2)

/-- The random-free part of the book probe: the entry for the current
history, if any. -/
def bookLookup (g : ChessGame) : Option (List String) :=
  (openingBook.find? (fun e => decide (e.1 = historyKey g))).map (·.2)

/-- Decoding a book move string such as "g1f3". -/
def parseSquarePair (s : String) : Square × Square :=
  let cs := s.data
  let c0 := ((cs.getD 0 'a').toNat : Int)
  let c1 := ((cs.getD 1 '0').toNat : Int)
  let c2 := ((cs.getD 2 'a').toNat : Int)
  let c3 := ((cs.getD 3 '0').toNat : Int)
  (((8 - (c1 - 48), c0 - 97) : Square), ((8 - (c3 - 48), c2 - 97) : Square))

/-- `EnhancedChessAI.getOpeningBookMove` (picks a random entry on a hit).
`rand` is the ambient `Math.random` stream of this invocation. -/
def getOpeningBookMove (ai : AIState) (g : ChessGame) (rand : Nat → Rat) :
    Option ChosenMove × AIState :=
  match bookLookup g with
  | some bookMoves =>
    if bookMoves.length = 0 then (none, ai)
    else
      let r := rand 0
      let idx := (r * (bookMoves.length : Rat)).floor.toNat
      let s := bookMoves.getD idx ""
      let pq := parseSquarePair s
      (some { fromSq := pq.1, toSq := pq.2,
              piece := (g.getPieceAt pq.1.1 pq.1.2).map (·.type) }, ai)
  | none => (none, ai)

def toChosen (m : AIMove) : ChosenMove :=
  { fromSq := m.fromSq, toSq := m.toSq, piece := some m.piece }

/-- The iterative-deepening loop of `getBestMove`: the elapsed-time check
comes BEFORE the best-move update for the depth just searched. -/
def idLoop (g : ChessGame) : List Nat → Option AIMove → Ext → AIState →
    Option AIMove × Ext × AIState
  | [], bm, bs, ai => (bm, bs, ai)
  | d :: rest, bm, bs, ai =>
    let rr := alphaBetaRoot ai g d
    let ai1 := rr.2
    let t := ai1.clock ai1.clockIdx
    let ai2 := { ai1 with clockIdx := ai1.clockIdx + 1 }
    if ai2.timeLimit < t - ai2.startTime then (bm, bs, ai2)
    else
      match rr.1.move with
      | some m => idLoop g rest (some m) rr.1.score ai2
      | none => idLoop g rest bm bs ai2

/-- `EnhancedChessAI.getBestMove`.  `rand` is the ambient `Math.random`
stream of this invocation (a hit in the opening book consumes one draw and
returns; otherwise the random-move branch may consume up to two). -/
def getBestMove (ai0 : AIState) (g : ChessGame) (rand : Nat → Rat) :
    Option ChosenMove × AIState :=
  let t0 := ai0.clock ai0.clockIdx
  let ai := { ai0 with startTime := t0, clockIdx := ai0.clockIdx + 1, nodesSearched := 0, moveCount := ai0.moveCount + 1 }
  let bookStep : Option ChosenMove × AIState :=
    if ai.useOpeningBook ∧ ai.moveCount ≤ 10 then getOpeningBookMove ai g rand
    else (none, ai)
  match bookStep.1 with
  | some bm => (some bm, bookStep.2)
  | none =>
    let aiB := bookStep.2
    let rndStep : Option AIMove × AIState :=
      if 0 < aiB.moveRandomness then
        if rand 0 < aiB.moveRandomness then
          let moves := getAllPossibleMoves g
          if 0 < moves.length then
            let bound : Nat := Min.min moves.length 3
            let ridx := ((rand 1) * (bound : Rat)).floor.toNat
            (some (moves.getD ridx
              { fromSq := (0, 0), toSq := (0, 0), piece := PAWN, captured := none }), aiB)
          else (none, aiB)
        else (none, aiB)
      else (none, aiB)
    match rndStep.1 with
    | some m => (some (toChosen m), rndStep.2)
    | none =>
      let aiR := rndStep.2
      let aiT := if 100000 < aiR.transpositionTable.length then
          { aiR with transpositionTable := [] }
        else aiR
      let res := idLoop g ((List.range aiT.maxDepth).map (· + 1)) none Ext.ninf aiT
      ((res.1).map toChosen, res.2.2)

/-- `getDepthFromDifficulty`. -/
def getDepthFromDifficulty (difficulty : Int) : Nat :=
  if difficulty = 1 then 3
  else if difficulty = 2 then 4
  else if difficulty = 3 then 5
  else if difficulty = 4 then 6
  else if difficulty = 5 then 8
  else 4

/-- `setDifficultyParameters`: time limit, evaluation randomness factor,
move randomness, opening book usage. -/
def difficultyParams (difficulty : Int) : Int × Rat × Rat × Bool :=
  if difficulty = 1 then (1000, 1 / 4, 3 / 10, false)
  else if difficulty = 2 then (2000, 1 / 10, 3 / 20, true)
  else if difficulty = 3 then (3000, 1 / 20, 2 / 25, true)
  else if difficulty = 4 then (5000, 1 / 50, 3 / 100, true)
  else if difficulty = 5 then (8000, 0, 0, true)
  else (3000, 1 / 10, 3 / 20, true)

/-- The `EnhancedChessAI` constructor state for a difficulty, over a given
zobrist instance and ambient streams. -/
def mkEnhancedAI (difficulty : Int) (z : ZobristTable) (clock : Nat → Int) : AIState :=
  let p := difficultyParams difficulty
  { difficulty := difficulty
    maxDepth := getDepthFromDifficulty difficulty
    transpositionTable := []
    killerMoves := List.replicate 20 []
    historyTable := []
    pvTable := []
    moveCount := 0
    nodesSearched := 0
    zobrist := z
    timeLimit := p.1
    randomnessFactor := p.2.1
    moveRandomness := p.2.2.1
    useOpeningBook := p.2.2.2
    startTime := 0
    clock := clock
    clockIdx := 0 }


/-! ### C4: the iterative-deepening time check discards the depth-1 result -/

/-- A legitimate instance of the `Math.random`-generated zobrist tables (all
draws zero). -/
def zobristZero : ZobristTable :=
  { pieces := fun _ _ _ => 0, blackToMove := 0, enPassantF := fun _ => 0 }

/-- A `Date.now()` stream: the search starts at 0 and every later reading is
past any limit (the depth-1 iteration took longer than the budget). -/
def clockJump : Nat → Int := fun n => if n = 0 then 0 else 1000000000

def randZero : Nat → Rat := fun _ => 0

/-- Two bare kings (both marked moved), White to move: five legal king
moves exist. -/
def sparseKingsGame : ChessGame where
  board := boardOf
    [ { type := KING, color := WHITE, row := 7, col := 4, hasMoved := true },
      { type := KING, color := BLACK, row := 0, col := 4, hasMoved := true } ]
  currentPlayer := WHITE
  gameState := GameStatus.playing
  moveHistory := []
  capturedWhite := []
  capturedBlack := []
  lastMove := none
  kingWhite := (7, 4)
  kingBlack := (0, 4)
  enPassantTarget := none
  halfMoveClock := 0
  fullMoveNumber := 1

/-- C4: the enhanced search is claimed to return a non-null move whenever the
side to move has a legal move, even if the time budget expires during or right
after the depth-1 iteration.  It does not: `getBestMove` checks the elapsed
time before it copies the depth-1 result into `bestMove`, so when the first
iteration overruns the budget the search returns null although legal moves
exist (here: a bare-kings position at difficulty 5, where the clock jumps past
the 8000ms budget after the first iteration). -/
theorem claim_C4_time_expiry_returns_null :
    getAllPossibleMoves sparseKingsGame ≠ [] ∧
      (getBestMove (mkEnhancedAI 5 zobristZero clockJump) sparseKingsGame randZero).1 =
        none := by
  constructor
  · decide
  · decide


/-! ### C6: Master-level determinism and the opening-book randomness -/

def clockZero : Nat → Int := fun _ => 0

def randConst (q : Rat) : Nat → Rat := fun _ => q

/-- The position after 1. e4 c5 (a Sicilian), built by playing the two moves;
its history key is "e2e4,c7c5", which the opening book contains. -/
def gSicilian : ChessGame :=
  ((newGame.makeMove 6 4 4 4 QUEEN).2.makeMove 1 2 3 2 QUEEN).2

/-- A hit of the opening book: the returned move decodes the randomly drawn
book entry. -/
theorem getOpeningBookMove_hit (ai : AIState) (g : ChessGame) (rand : Nat → Rat)
    (bms : List String) (hbook : bookLookup g = some bms) (hlen : ¬bms.length = 0) :
    getOpeningBookMove ai g rand =
      (some { fromSq := (parseSquarePair (bms.getD ((rand 0 * (bms.length : Rat)).floor.toNat) "")).1,
              toSq := (parseSquarePair (bms.getD ((rand 0 * (bms.length : Rat)).floor.toNat) "")).2,
              piece := (g.getPieceAt
                (parseSquarePair (bms.getD ((rand 0 * (bms.length : Rat)).floor.toNat) "")).1.1
                (parseSquarePair (bms.getD ((rand 0 * (bms.length : Rat)).floor.toNat) "")).1.2).map
                  (·.type) }, ai) := by
  unfold getOpeningBookMove
  rw [hbook]
  simp only
  rw [if_neg hlen]

/-- With the book enabled and within the first ten moves, a book hit is what
`getBestMove` returns. -/
theorem getBestMove_book_hit (ai : AIState) (g : ChessGame) (rand : Nat → Rat)
    (cm : ChosenMove)
    (hob : ai.useOpeningBook = true) (hmc : ai.moveCount + 1 ≤ 10)
    (hbm : ∀ a : AIState, getOpeningBookMove a g rand = (some cm, a)) :
    (getBestMove ai g rand).1 = some cm := by
  unfold getBestMove
  simp only
  rw [if_pos (And.intro hob hmc)]
  rw [hbm]

/-- C6 counterexample: at difficulty 5 (Master) two `getBestMove` runs on the
same state, the same clock, but different `Math.random` draws return different
moves: the position is in the opening book, and the book move is chosen at
random (draw 0 picks g1f3, draw 0.9 picks b1c3).  Randomness does affect the
result at Master. -/
theorem claim_C6_counterexample :
    (getBestMove (mkEnhancedAI 5 zobristZero clockZero) gSicilian randZero).1 ≠
      (getBestMove (mkEnhancedAI 5 zobristZero clockZero) gSicilian (randConst (9 / 10))).1 := by
  have h1 : bookLookup gSicilian = some ["g1f3", "d2d4", "b1c3"] := by decide
  have hb : ∀ q : Rat, q.floor = ⌊q⌋ := fun q => by rw [Rat.floor_def', Rat.floor_def]
  have f1 : ((randZero 0) * (((["g1f3", "d2d4", "b1c3"] : List String).length : Nat) : Rat)).floor.toNat = 0 := by
    rw [hb]
    have e : ((randZero 0) * (((["g1f3", "d2d4", "b1c3"] : List String).length : Nat) : Rat)) = 0 := by
      simp [randZero]
    rw [e, Int.floor_zero]
    rfl
  have f2 : ((randConst (9 / 10) 0) * (((["g1f3", "d2d4", "b1c3"] : List String).length : Nat) : Rat)).floor.toNat = 2 := by
    rw [hb]
    have e : ((randConst (9 / 10) 0) * (((["g1f3", "d2d4", "b1c3"] : List String).length : Nat) : Rat)) =
        ((27 : Int) : Rat) / ((10 : Nat) : Rat) := by
      simp only [randConst, List.length_cons, List.length_nil]
      norm_num
    rw [e, Rat.floor_intCast_div_natCast]
    rfl
  have hA : (getBestMove (mkEnhancedAI 5 zobristZero clockZero) gSicilian randZero).1 =
      some { fromSq := (7, 6), toSq := (5, 5), piece := some KNIGHT } := by
    refine getBestMove_book_hit _ _ _ _ (by decide) (by decide) ?_
    intro a
    rw [getOpeningBookMove_hit a gSicilian randZero _ h1 (by decide)]
    rw [f1]
    rfl
  have hB : (getBestMove (mkEnhancedAI 5 zobristZero clockZero) gSicilian (randConst (9 / 10))).1 =
      some { fromSq := (7, 1), toSq := (5, 2), piece := some KNIGHT } := by
    refine getBestMove_book_hit _ _ _ _ (by decide) (by decide) ?_
    intro a
    rw [getOpeningBookMove_hit a gSicilian (randConst (9 / 10)) _ h1 (by decide)]
    rw [f2]
    rfl
  rw [hA, hB]
  decide

/-- On a miss of its history key, the opening-book probe consults no
randomness and yields nothing. -/
theorem getOpeningBookMove_of_miss (ai : AIState) (g : ChessGame) (rand : Nat → Rat)
    (hbook : bookLookup g = none) : getOpeningBookMove ai g rand = (none, ai) := by
  unfold getOpeningBookMove
  rw [hbook]

/-- Out of book and with the random-move probability at zero, `getBestMove`
reduces to the deterministic iterative-deepening search, for every
`Math.random` stream. -/
theorem getBestMove_out_of_book (ai : AIState) (g : ChessGame) (rand : Nat → Rat)
    (hmr : ai.moveRandomness = 0) (hbook : bookLookup g = none) :
    getBestMove ai g rand =
      (let t0 := ai.clock ai.clockIdx
       let ai1 := { ai with startTime := t0, clockIdx := ai.clockIdx + 1, nodesSearched := 0, moveCount := ai.moveCount + 1 }
       let aiT := if 100000 < ai1.transpositionTable.length then
           { ai1 with transpositionTable := [] }
         else ai1
       let res := idLoop g ((List.range aiT.maxDepth).map (· + 1)) none Ext.ninf aiT
       ((res.1).map toChosen, res.2.2)) := by
  unfold getBestMove
  simp only
  rw [getOpeningBookMove_of_miss _ g rand hbook]
  rw [ite_self]
  simp only
  rw [hmr]
  rw [if_neg (by norm_num : ¬(0 : Rat) < 0)]

/-- C6 amended: at difficulty 5 no randomness enters the search itself; when
the position is out of the opening book (and the random-move probability is
zero, as Master sets it), two runs with the same state and clock but arbitrary
`Math.random` streams return the same move.  In book, the choice is random
(see the counterexample). -/
theorem claim_C6_master_deterministic_out_of_book (ai : AIState) (g : ChessGame)
    (r1 r2 : Nat → Rat)
    (hmr : ai.moveRandomness = 0) (hbook : bookLookup g = none) :
    (getBestMove ai g r1).1 = (getBestMove ai g r2).1 := by
  rw [getBestMove_out_of_book ai g r1 hmr hbook, getBestMove_out_of_book ai g r2 hmr hbook]

/-- Concrete instance for the amended C6: the Master AI on the bare-kings
position (whose empty history is out of book) picks the same move for two
very different randomness streams. -/
theorem claim_C6_witness :
    (mkEnhancedAI 5 zobristZero clockZero).moveRandomness = 0 ∧
      bookLookup sparseKingsGame = none ∧
      (getBestMove (mkEnhancedAI 5 zobristZero clockZero) sparseKingsGame randZero).1 =
        (getBestMove (mkEnhancedAI 5 zobristZero clockZero) sparseKingsGame
          (randConst (9 / 10))).1 :=
  ⟨by decide, by decide,
    claim_C6_master_deterministic_out_of_book _ _ _ _ (by decide) (by decide)⟩


/-! ### C7: alpha-beta versus full minimax -/

/-- The reference the claim compares against, modelled on the spec's words:
full minimax (negamax form) without pruning, over the same move generator
(`getAllPossibleMoves`, each move applied through `cloneGameAI`/`makeMove`
exactly as the search applies it), the same terminal scores for move-less
nodes, and the same leaf evaluation (the quiescence search, given the full
window).  No transposition table, no null-move probe, no windows, no
ordering - the maximum over all children is taken. -/
def minimaxRef : Nat → Nat → ChessGame → AIState → Ext
  | 0, _, _, _ => Ext.fin 0
  | fuel + 1, depth, g, ai =>
    if depth = 0 ∨ g.gameState ≠ GameStatus.playing then
      (quiescenceSearch 8 g Ext.ninf Ext.pinf 0 ai).1
    else
      let moves := getAllPossibleMoves g
      if moves.isEmpty then
        (if g.isInCheck g.currentPlayer then
            Ext.fin (-30000 + ((ai.maxDepth : Int) - (depth : Int)))
          else Ext.fin 0)
      else
        (moves.filterMap fun m =>
          let clone := cloneGameAI g
          let mm := clone.makeMove m.fromSq.1 m.fromSq.2 m.toSq.1 m.toSq.2 QUEEN
          if mm.1 then some (Ext.neg (minimaxRef fuel (depth - 1) mm.2 ai))
          else none).foldl Ext.max Ext.ninf

/-- C7: the claim says the alpha-beta score equals, for every fixed position
and depth, the full-minimax score over the same move generator and the same
leaf evaluation.  It does not.  At depth >= 3 the null-move probe searches the
degenerate window derived from beta = Infinity: the inner window is
(-Infinity, -Infinity), the quiescence stand-pat test `score >= beta` is
vacuously true at beta = -Infinity, so the probe scores -Infinity, its
negation Infinity passes the null-move cutoff, and alphaBeta answers Infinity
for the quiet bare-kings position.  Full minimax on the same position answers
-Infinity (the clone defect makes every speculative move application fail, so
the maximum is over no children).  The scores differ - and neither is a real
evaluation. -/
theorem claim_C7_alphabeta_not_minimax :
    (alphaBeta 4 3 sparseKingsGame Ext.ninf Ext.pinf true
        (mkEnhancedAI 5 zobristZero clockZero)).1 = Ext.pinf ∧
      minimaxRef 4 3 sparseKingsGame (mkEnhancedAI 5 zobristZero clockZero) = Ext.ninf ∧
      (alphaBeta 4 3 sparseKingsGame Ext.ninf Ext.pinf true
          (mkEnhancedAI 5 zobristZero clockZero)).1 ≠
        minimaxRef 4 3 sparseKingsGame (mkEnhancedAI 5 zobristZero clockZero) := by
  refine ⟨by decide, by decide, by decide⟩

end PlayChess
